import Mathlib

/-!
ELL: shallow embedding and verified properties of `model::Map`
(`libraries/model/src/Map.cpp`), of the convolution nodes and their emitted code
(`libraries/nodes/src/SimpleConvolutionNode.cpp`), of the matrix-vector
products and the structured matrices (`common/linear/src/DoubleMatrix.cpp`), of
`PeekStack` (`libraries/utilities/include/Tokenizer.h`) and of `LogLoss`
(`common/loss_functions/src/LogLoss.cpp`).

Floating-point values are elements of a commutative semiring (exact
arithmetic) where a statement is about exact arithmetic; `LogLoss::Evaluate` is
embedded in IEEE 754 double arithmetic (`Double`) with `exp` and `log` given,
and `LogLoss::GetDerivative` over a linearly ordered field, read over the
reals; buffers are functions from positions to values; sizes and indices
are natural numbers, and a conversion between the integer types of the source
is written where the source has one (`toInt32`, `toSizeT`, `uint`).

For `Map`, the definitions follow `Map.cpp`.  A pointer to a node is
represented by the record of the node it points to (which holds the node's
identity), a pointer to an output port by the record of the owning node's
identity, the position of the port and its size.
`std::unordered_set` values are represented by duplicate-free lists and the
name-indexed maps by association lists with one entry per key; the statements
below about such containers are statements about membership, lookup and size.
-/

namespace ell

/-! ## Exceptions (`utilities/include/Exception.h`) -/

/-- Error codes of `utilities::LogicException` used by `Map.cpp`. -/
inductive LogicExceptionErrors where
  | illegalState
  | notImplemented
deriving DecidableEq, Repr

/-- Error codes of `utilities::InputException` used by `Map.cpp`. -/
inductive InputExceptionErrors where
  | invalidArgument
  | indexOutOfRange
deriving DecidableEq, Repr

/-- Exceptions that leave the member functions of `Map`. -/
inductive Exception where
  | LogicException (e : LogicExceptionErrors)
  | InputException (e : InputExceptionErrors)
  /-- What `Model::Verify` throws. -/
  | VerifyException
  /-- A failed `assert`, or an access past the end of a vector. -/
  | AssertionFailure
deriving DecidableEq, Repr

/-! ## Nodes, ports and models -/

/-- Identity of a node (`Node::NodeId`); also stands for a `Node*`. -/
abbrev NodeId := Nat

/-- An `OutputPortBase*`: owning node, position among the node's output ports, size. -/
structure OutputPort where
  node : NodeId
  index : Nat
  size : Nat
deriving DecidableEq, Repr

/-- A `PortRange`: a referenced output port, a start index and a number of values. -/
structure PortRange where
  port : OutputPort
  startIndex : Nat
  numValues : Nat
deriving DecidableEq, Repr

/-- A `PortElementsBase`: an ordered list of ranges. -/
structure PortElementsBase where
  ranges : List PortRange
deriving DecidableEq, Repr

/-- A graph vertex: identity, runtime type name, the elements each input port
refers to, and the sizes of its output ports. -/
structure Node where
  id : NodeId
  runtimeTypeName : String
  inputs : List PortElementsBase
  outputSizes : List Nat
deriving DecidableEq, Repr

/-- The owning container of the nodes. -/
structure Model where
  nodes : List Node
deriving DecidableEq, Repr

namespace PortRange

/-- `PortRange::ReferencedPort()->GetNode()`. -/
def referencedNode (r : PortRange) : NodeId := r.port.node

/-- Modelled from the spec: `PortRange::IsFullPortRange` (PortElements.cpp is not
part of the sources): the range spans an entire output port. -/
def IsFullPortRange (r : PortRange) : Bool :=
  r.startIndex == 0 && r.numValues == r.port.size

end PortRange

namespace PortElementsBase

/-- The conversion `PortElementsBase{ port }`: one range spanning the whole port. -/
def ofPort (p : OutputPort) : PortElementsBase :=
  ⟨[⟨p, 0, p.size⟩]⟩

/-- `PortElementsBase::GetRanges`. -/
def GetRanges (e : PortElementsBase) : List PortRange := e.ranges

/-- Modelled from the spec: `PortElementsBase::IsFullPortOutput` (PortElements.cpp is
not part of the sources): "a PortElements consisting of exactly one range
spanning an entire output port". -/
def IsFullPortOutput (e : PortElementsBase) : Bool :=
  match e.ranges with
  | [r] => r.IsFullPortRange
  | _ => false

end PortElementsBase

namespace Node

/-- `Node::GetOutputPorts`: the output ports of the node, in declaration order. -/
def GetOutputPorts (n : Node) : List OutputPort :=
  (List.range n.outputSizes.length).zipWith (fun i s => ⟨n.id, i, s⟩) n.outputSizes

/-- `Node::GetParentNodes`: the nodes referenced by the input ports. -/
def GetParentNodes (n : Node) : List NodeId :=
  (n.inputs.flatMap (fun e => e.ranges)).map PortRange.referencedNode

/-- `GetRuntimeTypeName().find(name) != std::string::npos`. -/
def typeNameContains (n : Node) (name : String) : Bool :=
  decide (name.data <:+: n.runtimeTypeName.data)

end Node

namespace Model

/-- The nodes of the model that carry the identity `id` (the target of a
pointer to the node `id`). -/
def nodesWithId (m : Model) (id : NodeId) : List Node :=
  m.nodes.filter (fun n => n.id == id)

/-- `Node::GetDependentNodes` for the node `p`, read off the model: the nodes
that have `p` among their parents. -/
def GetDependentNodes (m : Model) (p : NodeId) : List Node :=
  m.nodes.filter (fun n => decide (p ∈ n.GetParentNodes))

/-- The identities of the nodes of the model. -/
def ids (m : Model) : List NodeId := m.nodes.map Node.id

/-- One round of following the dependency edges: the given nodes together with
the parents, present in the model, of those of them that are in the model. -/
def closureStep (m : Model) (s : List NodeId) : List NodeId :=
  (s ++ ((m.nodes.filter (fun n => decide (n.id ∈ s))).flatMap Node.GetParentNodes).filter
    (fun p => decide (p ∈ m.ids))).dedup

/-- Modelled from the spec: the dependency closure of a frontier (ModelTransformer.cpp
and Submodel.cpp are not part of the sources): the nodes of the model among
`frontier` and everything they transitively depend on.  One round per node of
the model is enough (`closure_closed`). -/
def closure (m : Model) (frontier : List NodeId) : List NodeId :=
  (m.closureStep)^[m.nodes.length] ((frontier.filter (fun p => decide (p ∈ m.ids))).dedup)

end Model

/-! ## The transformer -/

/-- The part of `ModelTransformer` that `Map` uses after a transformation: the
table from old to new input nodes and from old output elements to the new port. -/
structure ModelTransformer where
  GetCorrespondingInputNode : Node → Node
  GetCorrespondingOutputs : PortElementsBase → OutputPort

/-- The copy of a port under a renaming of the nodes. -/
def renamePort (ren : NodeId → NodeId) (p : OutputPort) : OutputPort :=
  { p with node := ren p.node }

/-- The copy of a range under a renaming of the nodes. -/
def renameRange (ren : NodeId → NodeId) (r : PortRange) : PortRange :=
  { r with port := renamePort ren r.port }

/-- The copy of port elements under a renaming of the nodes. -/
def renameElements (ren : NodeId → NodeId) (e : PortElementsBase) : PortElementsBase :=
  ⟨e.ranges.map (renameRange ren)⟩

/-- The copy of a node: new identity, inputs rewired to the copies of the producers. -/
def renameNode (ren : NodeId → NodeId) (n : Node) : Node :=
  { n with id := ren n.id, inputs := n.inputs.map (renameElements ren) }

/-- Modelled from the spec: `ModelTransformer::CopySubmodel` for a submodel given by
output ports (ModelTransformer.cpp is not part of the sources): "computes the
dependency closure of the given port frontier and invokes Copy restricted to
that closure; anything outside the closure is dropped"; Copy "clones every
node ..., rewriting each node's input PortElements to point at the
corresponding cloned producers; records old→new identity for every node and
every output port".  `ren` is the identity given to each clone.  The elements
cached by a `Map` are single whole-port ranges, and the new port recorded for
elements is the clone of the port of their first range. -/
def CopySubmodel (ren : NodeId → NodeId) (model : Model) (outputPorts : List OutputPort) :
    Model × ModelTransformer :=
  let keep := model.closure (outputPorts.map (fun p => p.node))
  (⟨(model.nodes.filter (fun n => decide (n.id ∈ keep))).map (renameNode ren)⟩,
   ⟨renameNode ren,
    fun e => renamePort ren ((e.ranges.head?.map (fun r => r.port)).getD ⟨0, 0, 0⟩)⟩)

/-! ## Collaborators of `Map` that live outside `Map.cpp` -/

/-- A `utilities::PropertyBag`: keyed entries. -/
abbrev PropertyBag := List (String × String)

/-- The functions of `Model`, `ModelTransformer` and `RefineTransformation` that
`Map.cpp` calls and whose code is elsewhere. -/
structure Externals where
  /-- `Model::SimplifyOutputs`: the model after adding routing nodes, and the single port. -/
  SimplifyOutputs : Model → PortElementsBase → Model × OutputPort
  /-- `ModelTransformer::CopyModel`: the copy and the transformer that made it. -/
  CopyModel : Model → Model × ModelTransformer
  /-- `RefineTransformation(maxIterations).TransformModel`. -/
  RefineModel : Int → Model → Model × ModelTransformer
  /-- `Model::Verify`: `true` when it returns, `false` when it throws. -/
  Verify : Model → Bool
  /-- The identity that `CopySubmodel` gives to the clone of a node. -/
  cloneId : NodeId → NodeId

/-! ## Name-indexed maps -/

/-- The name-indexed maps `_inputNodeMap` and `_outputElementsMap` (declared in Map.h,
which is not part of the sources): one entry per key.  The order in which such
a map is iterated is not fixed here; it is a parameter where the code iterates. -/
abbrev NameMap (V : Type) := List (String × V)

namespace NameMap

variable {V : Type}

/-- `find`: the value bound to the key, if any. -/
def find (m : NameMap V) (k : String) : Option V :=
  (List.find? (fun e => e.1 == k) m).map Prod.snd

/-- `insert`: adds the binding unless the key is already bound. -/
def insert (m : NameMap V) (k : String) (v : V) : NameMap V :=
  if (m.find k).isSome then m else m ++ [(k, v)]

/-- `operator[]` followed by assignment: rebinds the key, or adds the binding. -/
def assign (m : NameMap V) (k : String) (v : V) : NameMap V :=
  if (m.find k).isSome then m.map (fun e => if e.1 == k then (k, v) else e) else m ++ [(k, v)]

/-- Assignment through the iterator to the value of every entry. -/
def mapValues (f : V → V) (m : NameMap V) : NameMap V :=
  m.map (fun e => (e.1, f e.2))

end NameMap

/-! ## `Map` -/

/-- The data members of `Map`. -/
structure Map where
  model : Model
  inputNodes : List Node
  inputNames : List String
  inputNodeMap : NameMap Node
  outputElements : List PortElementsBase
  outputNames : List String
  outputElementsMap : NameMap PortElementsBase
  metadata : PropertyBag

namespace Map

/-- A default-constructed `Map` around the given model. -/
def init (model : Model) : Map :=
  ⟨model, [], [], [], [], [], [], []⟩

/-- `Map::AddInput`. -/
def AddInput (m : Map) (inputName : String) (inputNode : Node) : Map :=
  { m with
    inputNodes := m.inputNodes ++ [inputNode]
    inputNames := m.inputNames ++ [inputName]
    inputNodeMap := m.inputNodeMap.insert inputName inputNode }

/-- `Map::RemoveInputs`. -/
def RemoveInputs (m : Map) : Map :=
  { m with inputNodes := [], inputNames := [], inputNodeMap := [] }

/-- `Map::AddOutput`. -/
def AddOutput (E : Externals) (m : Map) (outputName : String) (outputElements : PortElementsBase) :
    Map :=
  let simplified := E.SimplifyOutputs m.model outputElements
  let newOutputPort := simplified.2
  let newOutputElements := PortElementsBase.ofPort newOutputPort
  { m with
    model := simplified.1
    outputElements := m.outputElements ++ [PortElementsBase.ofPort newOutputPort]
    outputNames := m.outputNames ++ [outputName]
    outputElementsMap := m.outputElementsMap.insert outputName newOutputElements }

/-- `Map::GetOutputs`. -/
def GetOutputs (m : Map) : List PortElementsBase := m.outputElements

/-- `Map::GetAllOutputNodes`: the nodes referenced by the declared outputs. -/
def GetAllOutputNodes (m : Map) : List Node :=
  ((m.GetOutputs.flatMap (fun output => output.GetRanges)).flatMap
    (fun range => m.model.nodesWithId range.referencedNode)).dedup

/-- `Map::GetMatchingNodesByType`: the nodes whose runtime type name contains `name`. -/
def GetMatchingNodesByType (m : Map) (name : String) : List Node :=
  (m.model.nodes.filter (fun node => node.typeNameContains name)).dedup

/-- `Map::GetDebugSinkNodes`: the debug sinks one of whose parents has a
dependent other than the debug sink. -/
def GetDebugSinkNodes (m : Map) : List Node :=
  ((m.GetMatchingNodesByType "DebugSinkNode").filter (fun node =>
    node.GetParentNodes.any (fun parent =>
      (m.model.GetDependentNodes parent).any (fun dep => dep != node)))).dedup

/-- `Map::GetSinkNodes`. -/
def GetSinkNodes (m : Map) : List Node :=
  m.GetMatchingNodesByType "SinkNode"

/-- `Map::FixTransformedIO`. -/
def FixTransformedIO (m : Map) (transformer : ModelTransformer) : Map :=
  { m with
    inputNodes := m.inputNodes.map transformer.GetCorrespondingInputNode
    inputNodeMap := m.inputNodeMap.mapValues transformer.GetCorrespondingInputNode
    outputElements := m.outputElements.map
      (fun e => PortElementsBase.ofPort (transformer.GetCorrespondingOutputs e))
    outputElementsMap := m.outputElementsMap.mapValues
      (fun e => PortElementsBase.ofPort (transformer.GetCorrespondingOutputs e)) }

/-- `Map::Prune`, lines 326-328: the declared output nodes followed by the debug sinks. -/
def pruneDeclaredNodes (m : Map) : List Node :=
  m.GetAllOutputNodes ++ m.GetDebugSinkNodes

/-- `Map::Prune`, lines 331-339: what the loop over the sink nodes appends. -/
def pruneAddedSinkNodes (m : Map) : List Node :=
  m.GetSinkNodes.filter (fun node => decide (node ∉ m.pruneDeclaredNodes))

/-- `Map::Prune`, the vector `outputNodes` after the loop over the sink nodes. -/
def pruneOutputNodes (m : Map) : List Node :=
  m.pruneDeclaredNodes ++ m.pruneAddedSinkNodes

/-- `Map::Prune`, lines 341-348: the port frontier handed to the submodel. -/
def pruneOutputPorts (m : Map) : List OutputPort :=
  m.pruneOutputNodes.flatMap Node.GetOutputPorts

/-- `Map::Prune` up to and including the replacement of the model (line 355). -/
def pruned (ren : NodeId → NodeId) (m : Map) : Map :=
  let minimal := CopySubmodel ren m.model m.pruneOutputPorts
  { FixTransformedIO m minimal.2 with model := minimal.1 }

/-- `Map::Prune`. -/
def Prune (E : Externals) (m : Map) : Except Exception Map :=
  let m1 := m.pruned E.cloneId
  if E.Verify m1.model then .ok m1 else .error .VerifyException

/-- The loop over the input bindings of the constructors. -/
def addInputs (f : Node → Node) (inputs : List (String × Node)) (m : Map) : Map :=
  inputs.foldl (fun acc input => acc.AddInput input.1 (f input.2)) m

/-- The loop over the output bindings of the constructors: the first binding
that is not a full-port output throws. -/
def addOutputs (E : Externals) (f : PortElementsBase → PortElementsBase) :
    List (String × PortElementsBase) → Map → Except Exception Map
  | [], m => .ok m
  | output :: rest, m =>
    if !output.2.IsFullPortOutput then
      .error (.LogicException .notImplemented)
    else
      addOutputs E f rest (m.AddOutput E output.1 (f output.2))

/-- `Map::Prune(); _model.Verify();` at the end of the constructors. -/
def pruneAndVerify (E : Externals) (m : Map) : Except Exception Map :=
  match m.Prune E with
  | .error e => .error e
  | .ok m1 => if E.Verify m1.model then .ok m1 else .error .VerifyException

/-- `Map::Map(const Model&, inputs, outputs)`. -/
def ofModel (E : Externals) (model : Model) (inputs : List (String × Node))
    (outputs : List (String × PortElementsBase)) : Except Exception Map :=
  let copied := E.CopyModel model
  let transformer := copied.2
  let m1 := addInputs transformer.GetCorrespondingInputNode inputs (init copied.1)
  match addOutputs E (fun e => PortElementsBase.ofPort (transformer.GetCorrespondingOutputs e))
      outputs m1 with
  | .error e => .error e
  | .ok m2 => pruneAndVerify E m2

/-- `Map::Map(Model&&, inputs, outputs)`. -/
def ofModelMove (E : Externals) (model : Model) (inputs : List (String × Node))
    (outputs : List (String × PortElementsBase)) : Except Exception Map :=
  let m1 := addInputs id inputs (init model)
  match addOutputs E id outputs m1 with
  | .error e => .error e
  | .ok m2 => pruneAndVerify E m2

/-- `Map::NumInputs`. -/
def NumInputs (m : Map) : Nat := m.inputNodes.length

/-- `Map::NumOutputs`. -/
def NumOutputs (m : Map) : Nat := m.outputElements.length

/-- `Map::GetNumSinkNodes`. -/
def GetNumSinkNodes (m : Map) : Nat := m.GetSinkNodes.length

/-- `Map::GetSinkNode`. -/
def GetSinkNode (m : Map) (index : Nat) : Except Exception Node :=
  if h : index ≥ m.GetSinkNodes.length then
    .error (.InputException .indexOutOfRange)
  else
    .ok (m.GetSinkNodes.get ⟨index, Nat.lt_of_not_ge h⟩)

/-- `Map::GetInput(size_t)`. -/
def GetInput (m : Map) (index : Nat) : Except Exception Node :=
  if h : index ≥ m.inputNodes.length then
    .error (.InputException .invalidArgument)
  else
    .ok (m.inputNodes.get ⟨index, Nat.lt_of_not_ge h⟩)

/-- `Map::GetInput(const std::string&)`. -/
def GetInputByName (m : Map) (inputName : String) : Except Exception Node :=
  match m.inputNodeMap.find inputName with
  | none => .error (.InputException .invalidArgument)
  | some node => .ok node

/-- `Map::GetInputName`.  The guard is on `_inputNames`. -/
def GetInputName (m : Map) (index : Nat) : Except Exception String :=
  if h : index ≥ m.inputNames.length then
    .error (.InputException .invalidArgument)
  else
    .ok (m.inputNames.get ⟨index, Nat.lt_of_not_ge h⟩)

/-- `Map::GetOutput(size_t)`. -/
def GetOutput (m : Map) (index : Nat) : Except Exception PortElementsBase :=
  if h : index ≥ m.outputElements.length then
    .error (.InputException .invalidArgument)
  else
    .ok (m.outputElements.get ⟨index, Nat.lt_of_not_ge h⟩)

/-- `Map::GetOutput(const std::string&)`. -/
def GetOutputByName (m : Map) (outputName : String) : Except Exception PortElementsBase :=
  match m.outputElementsMap.find outputName with
  | none => .error (.InputException .invalidArgument)
  | some elements => .ok elements

/-- `Map::GetOutputName`.  The guard is on `_outputElements`; the name is read
from `_outputNames`, and a read past its end is reported as `AssertionFailure`. -/
def GetOutputName (m : Map) (index : Nat) : Except Exception String :=
  if index ≥ m.outputElements.length then
    .error (.InputException .invalidArgument)
  else
    match m.outputNames[index]? with
    | some name => .ok name
    | none => .error .AssertionFailure

/-- `Map::Transform(Transformation&, const TransformContext&)` for the refine transformation. -/
def TransformRefine (E : Externals) (maxIterations : Int) (m : Map) : Map :=
  let transformed := E.RefineModel maxIterations m.model
  { FixTransformedIO m transformed.2 with model := transformed.1 }

/-- `Map::Refine(const TransformContext&, int)`. -/
def RefineWithContext (E : Externals) (maxIterations : Int) (m : Map) : Except Exception Map :=
  if maxIterations == 0 then
    .ok m
  else
    (m.TransformRefine E maxIterations).Prune E

/-- `Map::Refine(int)`. -/
def Refine (E : Externals) (maxIterations : Int) (m : Map) : Except Exception Map :=
  m.RefineWithContext E maxIterations

/-- `Map::Map(const Map&)`.  The two loops run over the name-indexed maps;
`order` is the order in which such a map is iterated. -/
def copy (E : Externals) (order : (V : Type) → NameMap V → List (String × V)) (other : Map) :
    Except Exception Map :=
  let copied := E.CopyModel other.model
  let transformer := copied.2
  let m1 := addInputs transformer.GetCorrespondingInputNode (order Node other.inputNodeMap)
    (init copied.1)
  let m2 := (order PortElementsBase other.outputElementsMap).foldl
    (fun acc output => acc.AddOutput E output.1
      (PortElementsBase.ofPort (transformer.GetCorrespondingOutputs output.2)))
    m1
  if E.Verify m2.model then .ok m2 else .error .VerifyException

end Map

/-! ## Archive -/

/-- The keyed sections of an archived `Map`. -/
structure MapArchive where
  model : Model
  inputNames : List String
  inputIds : List NodeId
  outputNames : List String
  outputElements : List PortElementsBase
  metadata : Option PropertyBag

/-- The stand-in for a null `InputNodeBase*` created by `resize`. -/
def nullNode : Node := ⟨0, "", [], []⟩

/-- `std::vector::resize`. -/
def resize {α : Type} (l : List α) (n : Nat) (d : α) : List α :=
  l.take n ++ List.replicate (n - l.length) d

namespace Map

/-- `Map::WriteToArchive`. -/
def WriteToArchive (m : Map) : MapArchive :=
  { model := m.model
    inputNames := m.inputNames
    inputIds := m.inputNodes.map Node.id
    outputNames := m.outputNames
    outputElements := m.outputElements
    metadata := if m.metadata.isEmpty then none else some m.metadata }

/-- `Map::ReadFromArchive`, lines 616-626: the loop that rebuilds the input nodes
and the input node map, started from the resized vector and the cleared map. -/
def readInputs (GetNodeFromSerializedId : NodeId → Node) (inputNames : List String)
    (inputIds : List NodeId) (inputNodes : List Node) : List Node × NameMap Node :=
  (List.range inputNames.length).foldl
    (fun acc index =>
      let node := GetNodeFromSerializedId (inputIds.getD index 0)
      (acc.1.set index node, acc.2.assign (inputNames.getD index "") node))
    (resize inputNodes inputIds.length nullNode, [])

/-- `Map::ReadFromArchive`, lines 628-634: the loop that rebuilds the output elements map. -/
def readOutputs (outputNames : List String) (outputElements : List PortElementsBase) :
    NameMap PortElementsBase :=
  (List.range outputNames.length).foldl
    (fun acc index =>
      acc.assign (outputNames.getD index "") (outputElements.getD index ⟨[]⟩))
    []

/-- `Map::ReadFromArchive`, on the map `m`; `GetNodeFromSerializedId` is the lookup of
the serialization context. -/
def ReadFromArchive (GetNodeFromSerializedId : NodeId → Node) (archive : MapArchive) (m : Map) :
    Except Exception Map :=
  let metadata := match archive.metadata with
    | some bag => bag
    | none => m.metadata
  if archive.inputNames.length ≠ archive.inputIds.length then
    .error .AssertionFailure
  else
    let inputs := readInputs GetNodeFromSerializedId archive.inputNames archive.inputIds m.inputNodes
    if archive.outputNames.length ≠ archive.outputElements.length then
      .error .AssertionFailure
    else
      .ok { model := archive.model
            inputNodes := inputs.1
            inputNames := archive.inputNames
            inputNodeMap := inputs.2
            outputElements := archive.outputElements
            outputNames := archive.outputNames
            outputElementsMap := readOutputs archive.outputNames archive.outputElements
            metadata := metadata }

/-- The class invariant of the positional lists: names and entries are aligned. -/
def lengthsAgree (m : Map) : Prop :=
  m.inputNames.length = m.inputNodes.length ∧ m.outputNames.length = m.outputElements.length

/-- The class invariant of the outputs: every recorded output is one whole port. -/
def outputsArePorts (m : Map) : Prop :=
  ∀ e ∈ m.outputElements, ∃ p : OutputPort, e = PortElementsBase.ofPort p

end Map

/-! ## Concrete collaborators and maps used to evaluate the definitions -/

/-- Collaborators that leave everything in place: `SimplifyOutputs` returns the
port of the first range, copies keep the nodes, `Verify` accepts. -/
def plainExternals : Externals where
  SimplifyOutputs := fun model e => (model, (e.ranges.head?.map (fun r => r.port)).getD ⟨0, 0, 0⟩)
  CopyModel := fun model => (model, ⟨id, fun e => (e.ranges.head?.map (fun r => r.port)).getD ⟨0, 0, 0⟩⟩)
  RefineModel := fun _ model => (model, ⟨id, fun e => (e.ranges.head?.map (fun r => r.port)).getD ⟨0, 0, 0⟩⟩)
  Verify := fun _ => true
  cloneId := id

/-- An input node with one output port of size 2. -/
def exInput : Node := ⟨0, "InputNode<double>", [], [2]⟩

/-- A second input node. -/
def exInput2 : Node := ⟨1, "InputNode<double>", [], [2]⟩

/-- A node that adds the two inputs. -/
def exSum : Node :=
  ⟨2, "BinaryOperationNode<double>",
    [PortElementsBase.ofPort ⟨0, 0, 2⟩, PortElementsBase.ofPort ⟨1, 0, 2⟩], [2]⟩

/-- A model with two inputs and their sum. -/
def exModel : Model := ⟨[exInput, exInput2, exSum]⟩

/-- The output of `exSum`, a whole port. -/
def exSumOutput : PortElementsBase := PortElementsBase.ofPort ⟨2, 0, 2⟩

/-- The first element of the output of `exSum`, not a whole port. -/
def exPartialOutput : PortElementsBase := ⟨[⟨⟨2, 0, 2⟩, 0, 1⟩]⟩

/-- The map with inputs `a`, `b` and output `sum` over `exModel`, as the move
constructor leaves it. -/
def exMap : Map :=
  ((Map.addInputs id [("a", exInput), ("b", exInput2)] (Map.init exModel)).AddOutput
    plainExternals "sum" exSumOutput).pruned id

/-- The map built from two input bindings that share the name `a` and two output
bindings that share the name `y`. -/
def exDupMap : Map :=
  (((Map.addInputs id [("a", exInput), ("a", exInput2)] (Map.init exModel)).AddOutput
    plainExternals "y" exSumOutput).AddOutput
    plainExternals "y" (PortElementsBase.ofPort ⟨0, 0, 2⟩)).pruned id

/-- An operation on the input. -/
def exOp : Node :=
  ⟨1, "UnaryOperationNode<double>", [PortElementsBase.ofPort ⟨0, 0, 2⟩], [2]⟩

/-- The output node of the model with a debug sink. -/
def exOutputNode : Node :=
  ⟨2, "OutputNode<double>", [PortElementsBase.ofPort ⟨1, 0, 2⟩], [2]⟩

/-- A debug sink that is the only consumer of the output node. -/
def exDebugSink : Node :=
  ⟨3, "DebugSinkNode<double>", [PortElementsBase.ofPort ⟨2, 0, 2⟩], [2]⟩

/-- The model input → operation → output node → debug sink. -/
def exDebugModel : Model := ⟨[exInput, exOp, exOutputNode, exDebugSink]⟩

/-- The map over `exDebugModel` with the output node's port as its only declared output. -/
def exDebugMap : Map :=
  { model := exDebugModel
    inputNodes := [exInput]
    inputNames := ["input"]
    inputNodeMap := [("input", exInput)]
    outputElements := [PortElementsBase.ofPort ⟨2, 0, 2⟩]
    outputNames := ["output"]
    outputElementsMap := [("output", PortElementsBase.ofPort ⟨2, 0, 2⟩)]
    metadata := [] }

/-- The renaming used for the second `Prune` in the examples. -/
def exShift (id : NodeId) : NodeId := id + 10

/-- The map over `exModel` whose only declared output is the port of the first
input: the second input and the sum are not needed for it. -/
def exUnusedMap : Map :=
  { model := exModel
    inputNodes := [exInput]
    inputNames := ["a"]
    inputNodeMap := [("a", exInput)]
    outputElements := [PortElementsBase.ofPort ⟨0, 0, 2⟩]
    outputNames := ["a_out"]
    outputElementsMap := [("a_out", PortElementsBase.ofPort ⟨0, 0, 2⟩)]
    metadata := [] }

/-! ## Archive versions and input introspection -/

/-- A `utilities::ArchiveVersion`: a version number with the usual order. -/
structure ArchiveVersion where
  versionNumber : Int
deriving DecidableEq, Repr

/-- The enumerators of `utilities::ArchiveVersionNumbers` that `Map.cpp` names.  Their
numeric values are declared in ArchiveVersion.h, which is not part of the
sources, and are taken as given. -/
structure ArchiveVersionNumbers where
  v2 : Int
  v3_model_metadata : Int

/-- `noMetadataArchiveVersion` (Map.cpp, line 31). -/
def noMetadataArchiveVersion (V : ArchiveVersionNumbers) : ArchiveVersion := ⟨V.v2⟩

/-- `metadataArchiveVersion` (Map.cpp, line 32). -/
def metadataArchiveVersion (V : ArchiveVersionNumbers) : ArchiveVersion := ⟨V.v3_model_metadata⟩

/-- A `MemoryShape`: the size of each dimension. -/
abbrev MemoryShape := List Nat

/-- Modelled from the spec: `MemoryShape::NumElements` (the memory-layout sources are not
part of the sources): the number of elements of a tensor of that shape. -/
def MemoryShape.NumElements (shape : MemoryShape) : Nat := shape.prod

namespace Map

/-- `Map::GetArchiveVersion`. -/
def GetArchiveVersion (V : ArchiveVersionNumbers) (m : Map) : ArchiveVersion :=
  if m.metadata.isEmpty then noMetadataArchiveVersion V else metadataArchiveVersion V

/-- `Map::CanReadArchiveVersion`. -/
def CanReadArchiveVersion (V : ArchiveVersionNumbers) (_m : Map) (version : ArchiveVersion) : Bool :=
  decide (version.versionNumber ≥ (noMetadataArchiveVersion V).versionNumber) &&
    decide (version.versionNumber ≤ (metadataArchiveVersion V).versionNumber)

/-- `Map::GetSourceNodes`, that is `_model.GetNodesByType<SourceNodeBase>()`;
`IsSourceNode` is the test `dynamic_cast<const SourceNodeBase*>`. -/
def GetSourceNodes (IsSourceNode : Node → Bool) (m : Map) : List Node :=
  m.model.nodes.filter IsSourceNode

/-- `Map::GetInputShape`; `GetShape` is the virtual `GetShape()` of source and input nodes. -/
def GetInputShape (IsSourceNode : Node → Bool) (GetShape : Node → MemoryShape) (m : Map)
    (index : Nat) : Except Exception MemoryShape :=
  if h : index < (m.GetSourceNodes IsSourceNode).length then
    .ok (GetShape ((m.GetSourceNodes IsSourceNode).get ⟨index, h⟩))
  else
    match m.GetInput index with
    | .error e => .error e
    | .ok node => .ok (GetShape node)

/-- `Map::GetInputSize`. -/
def GetInputSize (IsSourceNode : Node → Bool) (GetShape : Node → MemoryShape) (m : Map)
    (index : Nat) : Except Exception Nat :=
  if h : index < (m.GetSourceNodes IsSourceNode).length then
    .ok (GetShape ((m.GetSourceNodes IsSourceNode).get ⟨index, h⟩)).NumElements
  else
    match m.GetInputShape IsSourceNode GetShape index with
    | .error e => .error e
    | .ok shape => .ok shape.NumElements

/-- `Map::GetInputType`; `GetOutputType` is the `GetOutputType()` of source and input
nodes.  `sourceNodes[index]` past the end of the vector is an access failure. -/
def GetInputType {PortType : Type} (IsSourceNode : Node → Bool) (GetOutputType : Node → PortType)
    (m : Map) (index : Nat) : Except Exception PortType :=
  let sourceNodes := m.GetSourceNodes IsSourceNode
  if !sourceNodes.isEmpty then
    if h : index < sourceNodes.length then
      .ok (GetOutputType (sourceNodes.get ⟨index, h⟩))
    else
      .error .AssertionFailure
  else
    match m.GetInput index with
    | .error e => .error e
    | .ok node => .ok (GetOutputType node)

/-- `swap(Map&, Map&)`: the two maps afterwards (`_computeContext` is not part of
the state kept here). -/
def swap (a b : Map) : Map × Map :=
  ({ a with
      model := b.model
      inputNodes := b.inputNodes
      inputNames := b.inputNames
      inputNodeMap := b.inputNodeMap
      outputElements := b.outputElements
      outputNames := b.outputNames
      outputElementsMap := b.outputElementsMap },
   { b with
      model := a.model
      inputNodes := a.inputNodes
      inputNames := a.inputNames
      inputNodeMap := a.inputNodeMap
      outputElements := a.outputElements
      outputNames := a.outputNames
      outputElementsMap := a.outputElementsMap })

/-- `Map::operator=(Map other)`: the parameter is copy-constructed from the right-hand
side, then swapped with `*this`; the result is `*this` afterwards. -/
def assign (E : Externals) (order : (V : Type) → NameMap V → List (String × V)) (self rhs : Map) :
    Except Exception Map :=
  match copy E order rhs with
  | .error e => .error e
  | .ok other => .ok (swap self other).1

/-- A `Map` built through `AddInput` and `AddOutput` from a default-constructed one. -/
inductive Built (E : Externals) : Map → Prop where
  | init (model : Model) : Built E (init model)
  | addInput (m : Map) (name : String) (node : Node) : Built E m → Built E (m.AddInput name node)
  | addOutput (m : Map) (name : String) (e : PortElementsBase) :
      Built E m → Built E (m.AddOutput E name e)

end Map

/-- The version numbers 2 and 3. -/
def exVersions : ArchiveVersionNumbers := ⟨2, 3⟩

/-- The node of `exModel` that carries the identity, as a serialization context resolves it. -/
def exResolve (id : NodeId) : Node := (exModel.nodesWithId id).headD nullNode

/-- The map built by `AddInput` twice under the name `a` and `AddOutput` twice under `y`. -/
def exDupBuilt : Map :=
  ((((Map.init exModel).AddInput "a" exInput).AddInput "a" exInput2).AddOutput
    plainExternals "y" exSumOutput).AddOutput plainExternals "y" (PortElementsBase.ofPort ⟨0, 0, 2⟩)

/-- The map built by `AddInput` under `a` and `b` and `AddOutput` under `sum`. -/
def exBuilt : Map :=
  (((Map.init exModel).AddInput "a" exInput).AddInput "b" exInput2).AddOutput
    plainExternals "sum" exSumOutput

/-- The test for source nodes used in the examples: the type name starts with `SourceNode`. -/
def exIsSourceNode (n : Node) : Bool := "SourceNode".data.isPrefixOf n.runtimeTypeName.data

/-- The shape used in the examples: one dimension holding the first output port. -/
def exGetShape (n : Node) : MemoryShape := [n.outputSizes.headD 0]

/-- A source node with an output port of size 5. -/
def exSource : Node := ⟨7, "SourceNode<double>", [], [5]⟩

/-- The map `exMap` over a model that also has a source node. -/
def exSourceMap : Map := { exMap with model := ⟨exSource :: exMap.model.nodes⟩ }

/-- The map `exMap` with one metadata entry. -/
def exMetadataMap : Map := { exMap with metadata := [("author", "ell")] }

/-! ## Integer conversions -/

/-- The value of an unsigned quantity after conversion to a 32-bit `int`. -/
def toInt32 (n : Nat) : Int := ((n : Int) + 2 ^ 31) % 2 ^ 32 - 2 ^ 31

/-- The value of an `int` after conversion to a 64-bit `size_t`. -/
def toSizeT (i : Int) : Nat := (i % 2 ^ 64).toNat

/-! ## Memory layouts (`PortMemoryLayout`) -/

/-- A `PortMemoryLayout`: per dimension the active size, the stride (the allocated
extent) and the offset of the active part. -/
structure PortMemoryLayout where
  size : MemoryShape
  stride : MemoryShape
  offset : MemoryShape
deriving DecidableEq, Repr

namespace PortMemoryLayout

/-- `PortMemoryLayout::GetActiveSize(index)`. -/
def GetActiveSize (layout : PortMemoryLayout) (index : Nat) : Nat := layout.size.getD index 0

/-- `PortMemoryLayout::GetStride(index)`. -/
def GetStride (layout : PortMemoryLayout) (index : Nat) : Nat := layout.stride.getD index 0

/-- `PortMemoryLayout::GetOffset(index)`. -/
def GetOffset (layout : PortMemoryLayout) (index : Nat) : Nat := layout.offset.getD index 0

/-- Modelled from the spec: `PortMemoryLayout::GetCumulativeIncrement` (PortMemoryLayout.cpp is
not part of the sources): for each dimension, the distance in the padded
row-major buffer between two entries adjacent in that dimension, that is the
product of the strides of the later dimensions. -/
def GetCumulativeIncrement (layout : PortMemoryLayout) : MemoryShape :=
  layout.stride.tails.tail.map List.prod

end PortMemoryLayout

/-! ## The operations of the function emitter used by the convolution code -/

namespace emitters

variable {R : Type} [CommSemiring R]

/-- Modelled from the spec: `IRFunctionEmitter::PointerOffset`: the buffer seen from `offset`. -/
def PointerOffset (buffer : Nat → R) (offset : Nat) : Nat → R :=
  fun t => buffer (offset + t)

/-- Modelled from the spec: `IRFunctionEmitter::DotProduct`: the dot product of the first
`size` entries of two buffers, accumulated from 0. -/
def DotProduct (size : Nat) (a b : Nat → R) : R :=
  (List.range size).foldl (fun acc t => acc + a t * b t) 0

/-- Modelled from the spec: the position in the buffer of entry `(i, j, k)` of a
`LocalTensor` or `LocalMultidimArray` with the given dimensions, row-major. -/
def tensorIndex (dims : MemoryShape) (i j k : Nat) : Nat :=
  (i * dims.getD 1 0 + j) * dims.getD 2 0 + k

end emitters

/-! ## `SimpleConvolutionNode.cpp` -/

namespace nodes

open emitters

/-- `GetOutputSize` (SimpleConvolutionNode.cpp, line 27). -/
def GetOutputSize (outputLayout : PortMemoryLayout) : Nat :=
  outputLayout.GetActiveSize 0 * outputLayout.GetActiveSize 1 * outputLayout.GetActiveSize 2

section emit

variable {R : Type} [CommSemiring R]

/-- `EmitSimpleConvolutionCode`, lines 91-103: the loop over the window columns. -/
def windowColumns (input filterWeights : Nat → R) (inputMemoryIncrements : MemoryShape)
    (inputDepth filterSize stride filterIndex outputRow outputColumn windowRow : Nat) (val : R) : R :=
  (List.range filterSize).foldl
    (fun val windowColumn =>
      let inputRow := outputRow * stride
      let inputColumn := outputColumn * stride
      let inputOffset := ((inputRow + windowRow) * inputMemoryIncrements.getD 0 0) +
        ((inputColumn + windowColumn) * inputMemoryIncrements.getD 1 0)
      let imageRow := PointerOffset input inputOffset
      let filterOffset := inputDepth * (filterSize * windowRow + windowColumn) +
        filterIndex * (filterSize * filterSize * inputDepth)
      let filterRow := PointerOffset filterWeights filterOffset
      val + DotProduct inputDepth imageRow filterRow)
    val

/-- `EmitSimpleConvolutionCode`, lines 79-104: what one window row adds to `val`. -/
def windowRowValue (input filterWeights : Nat → R) (inputMemoryIncrements : MemoryShape)
    (canCombineColumns : Bool)
    (inputDepth filterSize stride filterIndex outputRow outputColumn windowRow : Nat) (val : R) : R :=
  if canCombineColumns then
    let inputOffset := ((outputRow + windowRow) * inputMemoryIncrements.getD 0 0) +
      (outputColumn * inputMemoryIncrements.getD 1 0)
    let imageRow := PointerOffset input inputOffset
    let filterOffset := inputDepth * (filterSize * windowRow) +
      filterIndex * (filterSize * filterSize * inputDepth)
    let filterRow := PointerOffset filterWeights filterOffset
    val + DotProduct (filterSize * inputDepth) imageRow filterRow
  else
    windowColumns input filterWeights inputMemoryIncrements inputDepth filterSize stride
      filterIndex outputRow outputColumn windowRow val

/-- `EmitSimpleConvolutionCode`, lines 75-106: the loop over the window rows for one
output entry; after each window row the running value is stored in the output. -/
def convolutionEntry (input filterWeights : Nat → R) (inputMemoryIncrements : MemoryShape)
    (canCombineColumns : Bool) (outputDims : MemoryShape)
    (inputDepth filterSize stride filterIndex outputRow outputColumn : Nat) (result : Nat → R) :
    Nat → R :=
  ((List.range filterSize).foldl
    (fun (state : R × (Nat → R)) windowRow =>
      let val := windowRowValue input filterWeights inputMemoryIncrements canCombineColumns
        inputDepth filterSize stride filterIndex outputRow outputColumn windowRow state.1
      (val, Function.update state.2 (tensorIndex outputDims outputRow outputColumn filterIndex) val))
    (0, result)).2

/-- The loops of `EmitSimpleConvolutionCode` (lines 54-109) with the choice of path given. -/
def convolutionLoops (input filterWeights : Nat → R) (inputLayout outputLayout : PortMemoryLayout)
    (canCombineColumns : Bool) (filterSize stride : Nat) (result : Nat → R) : Nat → R :=
  let inputMemoryIncrements := inputLayout.GetCumulativeIncrement
  let numFilters := outputLayout.GetActiveSize 2
  (List.range numFilters).foldl
    (fun result filterIndex =>
      let outputRows := outputLayout.GetActiveSize 0
      (List.range outputRows).foldl
        (fun result outputRow =>
          let outputColumns := outputLayout.GetActiveSize 1
          (List.range outputColumns).foldl
            (fun result outputColumn =>
              let inputDepth := inputLayout.GetActiveSize 2
              convolutionEntry input filterWeights inputMemoryIncrements canCombineColumns
                outputLayout.stride inputDepth filterSize stride filterIndex outputRow
                outputColumn result)
            result)
        result)
    result

/-- `EmitSimpleConvolutionCode`: the contents of the output buffer after the emitted
code has run on the given input and weight buffers.  The iterations of the
parallel loop over the filters write different entries and are run in order. -/
def EmitSimpleConvolutionCode (input filterWeights : Nat → R)
    (inputLayout outputLayout : PortMemoryLayout) (filterSize stride : Nat) (result : Nat → R) :
    Except Exception (Nat → R) :=
  let inputPadding := inputLayout.GetOffset 0
  if inputPadding ≠ filterSize / 2 then
    .error .AssertionFailure
  else
    let canCombineColumns :=
      decide (inputLayout.GetActiveSize 1 = inputLayout.GetStride 1) && decide (stride = 1)
    .ok (convolutionLoops input filterWeights inputLayout outputLayout canCombineColumns
      filterSize stride result)

/-- `EmitSimpleDepthwiseSeparableConvolutionCode`, lines 143-160: one output entry. -/
def depthwiseEntry (input filterWeights : Nat → R) (inputDims filterDims outputDims : MemoryShape)
    (filterSize stride filterIndex outputRow outputColumn : Nat) (result : Nat → R) : Nat → R :=
  let val := (List.range filterSize).foldl
    (fun val windowRow =>
      (List.range filterSize).foldl
        (fun val windowColumn =>
          let inputRow := outputRow * stride
          let inputColumn := outputColumn * stride
          let filterRow := windowRow
          let filterColumn := windowColumn
          let inputVal := input (tensorIndex inputDims (inputRow + windowRow)
            (inputColumn + windowColumn) filterIndex)
          let filterVal := filterWeights (tensorIndex filterDims filterIndex filterRow filterColumn)
          val + inputVal * filterVal)
        val)
    0
  Function.update result (tensorIndex outputDims outputRow outputColumn filterIndex) val

/-- `EmitSimpleDepthwiseSeparableConvolutionCode`: the contents of the output buffer
after the emitted code has run. -/
def EmitSimpleDepthwiseSeparableConvolutionCode (input filterWeights : Nat → R)
    (inputLayout outputLayout : PortMemoryLayout) (filterSize stride : Nat) (result : Nat → R) :
    Except Exception (Nat → R) :=
  let inputDepth := inputLayout.GetActiveSize 2
  let inputPadding := inputLayout.GetOffset 0
  if inputPadding ≠ filterSize / 2 then
    .error .AssertionFailure
  else
    let numFilters := outputLayout.GetActiveSize 2
    if numFilters ≠ inputDepth then
      .error .AssertionFailure
    else
      .ok ((List.range numFilters).foldl
        (fun result filterIndex =>
          let outputRows := outputLayout.GetActiveSize 0
          (List.range outputRows).foldl
            (fun result outputRow =>
              let outputColumns := outputLayout.GetActiveSize 1
              (List.range outputColumns).foldl
                (fun result outputColumn =>
                  depthwiseEntry input filterWeights inputLayout.stride
                    [inputLayout.GetStride 2, filterSize, filterSize] outputLayout.stride
                    filterSize stride filterIndex outputRow outputColumn result)
                result)
            result)
        result)

end emit

end nodes

/-! ## The convolution nodes -/

namespace nodes

/-- A tensor reference (`math::ConstTensorReference`, rows by columns by channels). -/
structure Tensor (R : Type) where
  numRows : Nat
  numColumns : Nat
  numChannels : Nat
  get : Nat → Nat → Nat → R

namespace Tensor

variable {R : Type}

/-- `NumColumns()`. -/
def NumColumns (t : Tensor R) : Nat := t.numColumns

/-- `NumChannels()`. -/
def NumChannels (t : Tensor R) : Nat := t.numChannels

/-- Modelled from the spec: `ReferenceAsMatrix().ToArray()` (the math library is not part of
the sources): the entries in "(row, column), channel order", the channel
running fastest. -/
def ToArray (t : Tensor R) : List R :=
  (List.range t.numRows).flatMap (fun row =>
    (List.range t.numColumns).flatMap (fun column =>
      (List.range t.numChannels).map (fun channel => t.get row column channel)))

end Tensor

/-- The data members of `SimpleConvolutionNode<ValueType>`; `id` is the node's identity
and `outputSize` the size of its output port. -/
structure SimpleConvolutionNode (R : Type) where
  id : NodeId
  input : PortElementsBase
  outputSize : Nat
  inputMemoryLayout : PortMemoryLayout
  outputMemoryLayout : PortMemoryLayout
  filterWeights : Tensor R
  stride : Int
  isDepthwiseSeparable : Bool

/-- The data members of `ConstantNode<ValueType>` that matter here. -/
structure ConstantNode (R : Type) where
  id : NodeId
  values : List R

/-- The data members of `SimpleConvolutionComputeNode<ValueType>`. -/
structure SimpleConvolutionComputeNode where
  id : NodeId
  input : PortElementsBase
  filterWeights : PortElementsBase
  outputSize : Nat
  inputMemoryLayout : PortMemoryLayout
  outputMemoryLayout : PortMemoryLayout
  filterSize : Int
  stride : Int
  isDepthwiseSeparable : Bool
deriving DecidableEq, Repr

/-- A node added to the new model by `ModelTransformer::AddNode`. -/
inductive AddedNode (R : Type) where
  | constant (node : ConstantNode R)
  | convolution (node : SimpleConvolutionNode R)
  | convolutionCompute (node : SimpleConvolutionComputeNode)

/-- Modelled from the spec: the state of a `ModelTransformer` during a pass (ModelTransformer.cpp
is not part of the sources): the table that rewrites port elements to the new
model, the identity of the next node, the nodes added to the new model so far
and the recorded mapping from old output ports to new ones. -/
structure TransformerState (R : Type) where
  TransformPortElements : PortElementsBase → PortElementsBase
  nextId : NodeId
  added : List (AddedNode R)
  outputMap : List (OutputPort × OutputPort)

namespace ConstantNode

variable {R : Type}

/-- The `output` port of a constant node: as many entries as values. -/
def output (n : ConstantNode R) : OutputPort := ⟨n.id, 0, n.values.length⟩

end ConstantNode

namespace SimpleConvolutionComputeNode

/-- The `output` port of the compute node. -/
def output (n : SimpleConvolutionComputeNode) : OutputPort := ⟨n.id, 0, n.outputSize⟩

/-- `SimpleConvolutionComputeNode::SimpleConvolutionComputeNode(input, filterWeights, ...)`. -/
def create (id : NodeId) (input filterWeights : PortElementsBase)
    (inputMemoryLayout outputMemoryLayout : PortMemoryLayout) (filterSize stride : Int)
    (isDepthwiseSeparable : Bool) : SimpleConvolutionComputeNode :=
  { id := id
    input := input
    filterWeights := filterWeights
    outputSize := GetOutputSize outputMemoryLayout
    inputMemoryLayout := inputMemoryLayout
    outputMemoryLayout := outputMemoryLayout
    filterSize := filterSize
    stride := stride
    isDepthwiseSeparable := isDepthwiseSeparable }

/-- `SimpleConvolutionComputeNode::Compute`. -/
def Compute {R : Type} (_n : SimpleConvolutionComputeNode) : Except Exception (List R) :=
  .error (.LogicException .notImplemented)

end SimpleConvolutionComputeNode

namespace TransformerState

variable {R : Type}

/-- Modelled from the spec: `ModelTransformer::AddNode<ConstantNode<ValueType>>(values)`: the
node is created with the next identity and added to the new model. -/
def AddConstantNode (t : TransformerState R) (values : List R) :
    ConstantNode R × TransformerState R :=
  let node : ConstantNode R := ⟨t.nextId, values⟩
  (node, { t with nextId := t.nextId + 1, added := t.added ++ [AddedNode.constant node] })

/-- Modelled from the spec: `ModelTransformer::AddNode<SimpleConvolutionComputeNode<ValueType>>`. -/
def AddSimpleConvolutionComputeNode (t : TransformerState R) (input filterWeights : PortElementsBase)
    (inputMemoryLayout outputMemoryLayout : PortMemoryLayout) (filterSize stride : Int)
    (isDepthwiseSeparable : Bool) : SimpleConvolutionComputeNode × TransformerState R :=
  let node := SimpleConvolutionComputeNode.create t.nextId input filterWeights inputMemoryLayout
    outputMemoryLayout filterSize stride isDepthwiseSeparable
  (node, { t with nextId := t.nextId + 1, added := t.added ++ [AddedNode.convolutionCompute node] })

/-- Modelled from the spec: `ModelTransformer::MapNodeOutput`: records the new port of an old one. -/
def MapNodeOutput (t : TransformerState R) (oldPort newPort : OutputPort) : TransformerState R :=
  { t with outputMap := t.outputMap ++ [(oldPort, newPort)] }

end TransformerState

namespace SimpleConvolutionNode

variable {R : Type}

/-- The `output` port of the node. -/
def output (n : SimpleConvolutionNode R) : OutputPort := ⟨n.id, 0, n.outputSize⟩

/-- `SimpleConvolutionNode::SimpleConvolutionNode(input, inputMemoryLayout, outputMemoryLayout,
filterWeights, stride)`; `stride` is a `size_t`. -/
def create (id : NodeId) (input : PortElementsBase)
    (inputMemoryLayout outputMemoryLayout : PortMemoryLayout) (filterWeights : Tensor R)
    (stride : Nat) : SimpleConvolutionNode R :=
  { id := id
    input := input
    outputSize := GetOutputSize outputMemoryLayout
    inputMemoryLayout := inputMemoryLayout
    outputMemoryLayout := outputMemoryLayout
    filterWeights := filterWeights
    stride := toInt32 stride
    isDepthwiseSeparable :=
      decide (filterWeights.NumChannels = 1) && decide (inputMemoryLayout.size.getD 2 0 > 1) }

/-- `SimpleConvolutionNode::Copy`: the new node is constructed from the members of this one. -/
def Copy (n : SimpleConvolutionNode R) (t : TransformerState R) : TransformerState R :=
  let newInput := t.TransformPortElements n.input
  let newNode := create t.nextId newInput n.inputMemoryLayout n.outputMemoryLayout
    n.filterWeights (toSizeT n.stride)
  let t1 := { t with nextId := t.nextId + 1, added := t.added ++ [AddedNode.convolution newNode] }
  t1.MapNodeOutput n.output newNode.output

/-- `SimpleConvolutionNode::Refine`. -/
def Refine (n : SimpleConvolutionNode R) (t : TransformerState R) : Bool × TransformerState R :=
  let newInput := t.TransformPortElements n.input
  let weightsValues := n.filterWeights.ToArray
  let filterSize := toInt32 n.filterWeights.NumColumns
  let weights := t.AddConstantNode weightsValues
  let conv := weights.2.AddSimpleConvolutionComputeNode newInput
    (PortElementsBase.ofPort weights.1.output) n.inputMemoryLayout n.outputMemoryLayout
    filterSize n.stride n.isDepthwiseSeparable
  (true, conv.2.MapNodeOutput n.output conv.1.output)

/-- `SimpleConvolutionNode::Compute`. -/
def Compute (_n : SimpleConvolutionNode R) : Except Exception (List R) :=
  .error (.LogicException .notImplemented)

/-- The sections `WriteToArchive` writes after those of `CompilableNode`. -/
structure Archive (R : Type) where
  input : PortElementsBase
  inputLayout : PortMemoryLayout
  outputLayout : PortMemoryLayout
  stride : Int
  weights : Tensor R

/-- `SimpleConvolutionNode::WriteToArchive`. -/
def WriteToArchive (n : SimpleConvolutionNode R) : Archive R :=
  { input := n.input
    inputLayout := n.inputMemoryLayout
    outputLayout := n.outputMemoryLayout
    stride := n.stride
    weights := n.filterWeights }

/-- `SimpleConvolutionNode::ReadFromArchive` on the node `n`. -/
def ReadFromArchive (n : SimpleConvolutionNode R) (archive : Archive R) : SimpleConvolutionNode R :=
  { n with
    input := archive.input
    inputMemoryLayout := archive.inputLayout
    outputMemoryLayout := archive.outputLayout
    stride := archive.stride
    filterWeights := archive.weights
    isDepthwiseSeparable :=
      decide (archive.weights.NumChannels = 1) && decide (archive.inputLayout.size.getD 2 0 > 1) }

end SimpleConvolutionNode

end nodes

/-! ## Concrete convolution nodes used to evaluate the definitions -/

/-- A transformer state with nothing added yet, whose next node gets identity 10 and
which rewrites port elements to nodes shifted by 10. -/
def exTransformer : nodes.TransformerState Int :=
  { TransformPortElements := renameElements exShift, nextId := 10, added := [], outputMap := [] }

/-- A 5 by 5 one-channel layout padded by 1 in rows and columns. -/
def exPaddedLayout : PortMemoryLayout := ⟨[5, 5, 1], [7, 7, 1], [1, 1, 0]⟩

/-- A 5 by 5 one-filter output layout without padding. -/
def exOutputLayout : PortMemoryLayout := ⟨[5, 5, 1], [5, 5, 1], [0, 0, 0]⟩

/-- One 3 by 3 filter with one channel; entry `(row, column)` is `3 * row + column`. -/
def exFilter : nodes.Tensor Int := ⟨3, 3, 1, fun row column _ => 3 * row + column⟩

/-- A convolution node with the filter `exFilter` and stride 1, on the output of node 0. -/
def exConvolution : nodes.SimpleConvolutionNode Int :=
  nodes.SimpleConvolutionNode.create 4 (PortElementsBase.ofPort ⟨0, 0, 49⟩) exPaddedLayout
    exOutputLayout exFilter 1

/-- A tensor reference with one row, `2 ^ 31` columns and one channel. -/
def exWideFilter : nodes.Tensor Int := ⟨1, 2 ^ 31, 1, fun _ _ _ => 0⟩

/-- A convolution node whose weights are `exWideFilter`. -/
def exWideConvolution : nodes.SimpleConvolutionNode Int :=
  nodes.SimpleConvolutionNode.create 4 (PortElementsBase.ofPort ⟨0, 0, 49⟩) exPaddedLayout
    exOutputLayout exWideFilter 1

/-- A 5 by 5 two-channel layout padded by 1 in rows and columns. -/
def exPaddedLayout2 : PortMemoryLayout := ⟨[5, 5, 2], [7, 7, 2], [1, 1, 0]⟩

/-- A 5 by 5 two-filter output layout without padding. -/
def exOutputLayout2 : PortMemoryLayout := ⟨[5, 5, 2], [5, 5, 2], [0, 0, 0]⟩

/-- Two 3 by 3 filters with one channel each. -/
def exDepthwiseFilter : nodes.Tensor Int := ⟨6, 3, 1, fun row column _ => 3 * row + column⟩

/-- A two-channel input layout and two one-channel filters: the depthwise case. -/
def exDepthwiseConvolution : nodes.SimpleConvolutionNode Int :=
  nodes.SimpleConvolutionNode.create 4 (PortElementsBase.ofPort ⟨0, 0, 98⟩)
    exPaddedLayout2 exOutputLayout2 exDepthwiseFilter 1

/-! ## Concrete buffers and layouts for the emitted convolution code -/

/-- The buffer whose entry at position `a` is `a`. -/
def exRamp : Nat → Int := fun a => (a : Int)

/-- The buffer of ones. -/
def exOnes : Nat → Int := fun _ => 1

/-- The buffer of zeros. -/
def exZeros : Nat → Int := fun _ => 0

/-- A 2 by 3 one-channel input layout, padded by 1 in the rows, whose channel
dimension has stride 2. -/
def exChannelPaddedLayout : PortMemoryLayout := ⟨[2, 3, 1], [4, 3, 2], [1, 0, 0]⟩

/-- A 1 by 1 one-filter output layout. -/
def exUnitOutputLayout : PortMemoryLayout := ⟨[1, 1, 1], [1, 1, 1], [0, 0, 0]⟩

/-! ## `DoubleMatrix.cpp` -/

namespace linear

/-- A `DoubleMatrixBase` as `Gemv` sees it: the two dimensions and the virtual
element access `operator()(i, j) const`. -/
structure DoubleMatrixBase (R : Type) where
  num_rows : Nat
  num_columns : Nat
  get : Nat → Nat → R

namespace DoubleMatrixBase

variable {R : Type} [CommSemiring R] [DecidableEq R]

/-- `DoubleMatrixBase::NumRows`. -/
def NumRows (A : DoubleMatrixBase R) : Nat := A.num_rows

/-- `DoubleMatrixBase::NumColumns`. -/
def NumColumns (A : DoubleMatrixBase R) : Nat := A.num_columns

/-- `DoubleMatrixBase::RowDot`. -/
def RowDot (A : DoubleMatrixBase R) (i : Nat) (p_x : Nat → R) : R :=
  (List.range A.NumColumns).foldl (fun value j => value + A.get i j * p_x j) 0

/-- `DoubleMatrixBase::Gemv`: the contents of `p_y` afterwards.  The iterations of each
parallel loop write different entries and are run in order. -/
def Gemv (A : DoubleMatrixBase R) (p_x p_y : Nat → R) (alpha beta : R) : Nat → R :=
  let size := toInt32 A.NumRows
  if alpha = 1 then
    if beta = 0 then
      (List.range size.toNat).foldl (fun p_y i => Function.update p_y i (A.RowDot i p_x)) p_y
    else if beta = 1 then
      (List.range size.toNat).foldl
        (fun p_y i => Function.update p_y i (p_y i + A.RowDot i p_x)) p_y
    else
      (List.range size.toNat).foldl
        (fun p_y i => Function.update p_y i (A.RowDot i p_x + p_y i * beta)) p_y
  else
    if beta = 0 then
      (List.range size.toNat).foldl
        (fun p_y i => Function.update p_y i (A.RowDot i p_x * alpha)) p_y
    else if beta = 1 then
      (List.range size.toNat).foldl
        (fun p_y i => Function.update p_y i (p_y i + A.RowDot i p_x * alpha)) p_y
    else
      (List.range size.toNat).foldl
        (fun p_y i => Function.update p_y i (A.RowDot i p_x * alpha + p_y i * beta)) p_y

/-- `DoubleMatrixBase::ColumnDot`. -/
def ColumnDot (A : DoubleMatrixBase R) (j : Nat) (p_x : Nat → R) : R :=
  (List.range A.NumRows).foldl (fun value i => value + A.get i j * p_x i) 0

/-- `DoubleMatrixBase::Gevm`: the contents of `p_y` afterwards.  The iterations of each
parallel loop write different entries and are run in order. -/
def Gevm (A : DoubleMatrixBase R) (p_x p_y : Nat → R) (alpha beta : R) : Nat → R :=
  let size := toInt32 A.NumColumns
  if alpha = 1 then
    if beta = 0 then
      (List.range size.toNat).foldl
        (fun p_y j => Function.update p_y j (A.ColumnDot j p_x)) p_y
    else if beta = 1 then
      (List.range size.toNat).foldl
        (fun p_y j => Function.update p_y j (p_y j + A.ColumnDot j p_x)) p_y
    else
      (List.range size.toNat).foldl
        (fun p_y j => Function.update p_y j (A.ColumnDot j p_x + p_y j * beta)) p_y
  else
    if beta = 0 then
      (List.range size.toNat).foldl
        (fun p_y j => Function.update p_y j (A.ColumnDot j p_x * alpha)) p_y
    else if beta = 1 then
      (List.range size.toNat).foldl
        (fun p_y j => Function.update p_y j (p_y j + A.ColumnDot j p_x * alpha)) p_y
    else
      (List.range size.toNat).foldl
        (fun p_y j => Function.update p_y j (A.ColumnDot j p_x * alpha + p_y j * beta)) p_y

end DoubleMatrixBase

end linear

/-- The dense 3 by 3 matrix with rows `[1, 2, 3]`, `[4, 5, 6]`, `[7, 8, 10]`. -/
def exDense : linear.DoubleMatrixBase ℚ :=
  ⟨3, 3, fun i j => (([[1, 2, 3], [4, 5, 6], [7, 8, 10]] : List (List ℚ)).getD i []).getD j 0⟩

/-- The vector `x = [1, 2, 3]`. -/
def exX : Nat → ℚ := fun j => ([1, 2, 3] : List ℚ).getD j 0

/-- The vector `y = [10, 20, 30]`. -/
def exY : Nat → ℚ := fun i => ([10, 20, 30] : List ℚ).getD i 0

/-- A matrix with `2 ^ 31` rows and one column, all entries 0. -/
def exTall : linear.DoubleMatrixBase Int := ⟨2 ^ 31, 1, fun _ _ => 0⟩

/-- A matrix with one row and `2 ^ 31` columns, all entries 0. -/
def exWide : linear.DoubleMatrixBase Int := ⟨1, 2 ^ 31, fun _ _ => 0⟩

/-- The port type used in the examples: every example node carries doubles. -/
def exGetOutputType (_n : Node) : String := "double"

/-! ## Structured matrices (`DoubleMatrix.cpp`) -/

namespace linear

/-- The ways a member function of a structured matrix ends other than by returning: a
thrown `std::runtime_error`, or a failed `assert`. -/
inductive Failure where
  | runtime_error (what_arg : String)
  | assertion
deriving DecidableEq, Repr

/-- Where the `double&` returned by a non-const `operator()` points: at the member
`_dummy`, or at an element of the vector. -/
inductive Reference where
  | dummy
  | element (index : Nat)
deriving DecidableEq, Repr

/-- The data members of a `DoubleMatrix` with packed storage: the `vector<double>` base
(its size and its elements; `operator[]` is unchecked, as in the source), the two
dimensions and `_dummy`. -/
structure DoubleMatrix (R : Type) where
  size : Nat
  elements : Nat → R
  num_rows : Nat
  num_columns : Nat
  dummy : R

/-- The value of an expression of type `uint`: 32 bits. -/
def uint (n : Nat) : Nat := n % 2 ^ 32

namespace DoubleMatrix

variable {R : Type}

/-- Reading through a reference. -/
def read (M : DoubleMatrix R) : Reference → R
  | .dummy => M.dummy
  | .element index => M.elements index

/-- Assigning through a reference. -/
def write (M : DoubleMatrix R) (r : Reference) (value : R) : DoubleMatrix R :=
  match r with
  | .dummy => { M with dummy := value }
  | .element index => { M with elements := Function.update M.elements index value }

end DoubleMatrix

namespace DoubleMatrixBase

/-- `DoubleMatrixBase::set`: `operator()(i,j) = value`, where `elementRef` is the virtual
non-const `operator()` of the matrix.  The result is what leaves the call and the
state of the matrix afterwards. -/
def set {R : Type}
    (elementRef : DoubleMatrix R → Nat → Nat → Except Failure Reference × DoubleMatrix R)
    (M : DoubleMatrix R) (i j : Nat) (value : R) : Except Failure Unit × DoubleMatrix R :=
  match elementRef M i j with
  | (.error e, M1) => (.error e, M1)
  | (.ok r, M1) => (.ok (), M1.write r value)

end DoubleMatrixBase

namespace DoubleMatrix

namespace row_square_uptriangular

variable {R : Type} [Zero R]

/-- The size passed to the base constructor, `dimension*(dimension + 1) / 2` in `uint`
arithmetic. -/
def storageSize (dimension : Nat) : Nat := uint (dimension * uint (dimension + 1)) / 2

/-- `DoubleMatrix<MatrixStructure::row_square_uptriangular>::DoubleMatrix(uint dimension)`:
a zero-filled vector of `storageSize dimension` elements.  The initial value of
`_dummy` is set in DoubleMatrix.h, which is not part of the sources, and is a
parameter. -/
def create (dimension : Nat) (dummy : R) : DoubleMatrix R :=
  ⟨storageSize dimension, fun _ => 0, dimension, dimension, dummy⟩

/-- The index `i * this->_num_columns - (i + 1) * i / 2 + j` in `uint` arithmetic. -/
def index (num_columns i j : Nat) : Nat :=
  uint (uint (uint (i * num_columns) + 2 ^ 32 - uint (uint (i + 1) * i) / 2) + j)

/-- The non-const `operator()(uint i, uint j)`: the reference returned and the state
afterwards. -/
def elementRef (M : DoubleMatrix R) (i j : Nat) : Except Failure Reference × DoubleMatrix R :=
  if ¬ (i < M.num_rows ∧ j < M.num_columns) then
    (.error .assertion, M)
  else
    let M1 := { M with dummy := 0 }
    if i > j then (.ok .dummy, M1)
    else (.ok (.element (index M.num_columns i j)), M1)

/-- The const `operator()(uint i, uint j)`. -/
def element (M : DoubleMatrix R) (i j : Nat) : Except Failure R :=
  if ¬ (i < M.num_rows ∧ j < M.num_columns) then
    .error .assertion
  else if i > j then .ok 0
  else .ok (M.elements (index M.num_columns i j))

/-- `DoubleMatrix<MatrixStructure::row_square_uptriangular>::set`. -/
def set (M : DoubleMatrix R) (i j : Nat) (value : R) : Except Failure Unit × DoubleMatrix R :=
  if i > j then
    (.error (.runtime_error
      "Cannot set element in the lower triangle of an upper triangular matrix"), M)
  else
    DoubleMatrixBase.set elementRef M i j value

end row_square_uptriangular

namespace diagonal

variable {R : Type} [Zero R]

/-- `DoubleMatrix<MatrixStructure::diagonal>::DoubleMatrix(uint dimension)`: a zero-filled
vector of `dimension` elements.  The initial value of `_dummy` is a parameter. -/
def create (dimension : Nat) (dummy : R) : DoubleMatrix R :=
  ⟨dimension, fun _ => 0, dimension, dimension, dummy⟩

/-- The non-const `operator()(uint i, uint j)`: the reference returned and the state
afterwards. -/
def elementRef (M : DoubleMatrix R) (i j : Nat) : Except Failure Reference × DoubleMatrix R :=
  if ¬ (i < M.num_rows ∧ j < M.num_columns) then
    (.error .assertion, M)
  else
    let M1 := { M with dummy := 0 }
    if i ≠ j then (.ok .dummy, M1)
    else (.ok (.element i), M1)

/-- The const `operator()(uint i, uint j)`. -/
def element (M : DoubleMatrix R) (i j : Nat) : Except Failure R :=
  if ¬ (i < M.num_rows ∧ j < M.num_columns) then
    .error .assertion
  else if i ≠ j then .ok 0
  else .ok (M.elements i)

/-- `DoubleMatrix<MatrixStructure::diagonal>::set`. -/
def set (M : DoubleMatrix R) (i j : Nat) (value : R) : Except Failure Unit × DoubleMatrix R :=
  if i ≠ j then
    (.error (.runtime_error "Cannot set off-diagonal elements of a diagonal matrix"), M)
  else
    DoubleMatrixBase.set elementRef M i j value

end diagonal

end DoubleMatrix

end linear

/-- A 3 by 3 upper-triangular matrix after `set(0, 1, 5)`, `set(1, 2, 7)` and the
assignment `M(2, 0) = 4`, which lands in `_dummy`. -/
def exUpper : linear.DoubleMatrix Int :=
  (linear.DoubleMatrix.row_square_uptriangular.elementRef
    (linear.DoubleMatrix.row_square_uptriangular.set
      (linear.DoubleMatrix.row_square_uptriangular.set
        (linear.DoubleMatrix.row_square_uptriangular.create 3 0) 0 1 5).2 1 2 7).2
    2 0).2.write linear.Reference.dummy 4

/-- A 3 by 3 diagonal matrix after `set(0, 0, 5)`, `set(2, 2, 7)` and the assignment
`M(0, 1) = 4`, which lands in `_dummy`. -/
def exDiagonal : linear.DoubleMatrix Int :=
  (linear.DoubleMatrix.diagonal.elementRef
    (linear.DoubleMatrix.diagonal.set
      (linear.DoubleMatrix.diagonal.set (linear.DoubleMatrix.diagonal.create 3 0) 0 0 5).2
      2 2 7).2
    0 1).2.write linear.Reference.dummy 4

/-! ## `Tokenizer.h` -/

namespace utilities

/-- Modelled from the spec: the state of a `Tokenizer` as `ReadNextToken` and `PutBackToken`
use it (Tokenizer.cpp is not part of the sources): the stack `_peekedTokens`, top
first, and the tokens that the input stream still holds. -/
structure Tokenizer where
  peekedTokens : List String
  input : List String
deriving DecidableEq, Repr

namespace Tokenizer

/-- Modelled from the spec: `Tokenizer::ReadNextToken` (declared in Tokenizer.h, defined in
Tokenizer.cpp): the token on top of `_peekedTokens` if there is one, else the
next token of the input stream, else the empty string at the end of the file. -/
def ReadNextToken (t : Tokenizer) : String × Tokenizer :=
  match t.peekedTokens with
  | token :: rest => (token, { t with peekedTokens := rest })
  | [] =>
    match t.input with
    | token :: rest => (token, { t with input := rest })
    | [] => ("", t)

/-- Modelled from the spec: `Tokenizer::PutBackToken` (declared in Tokenizer.h, defined in
Tokenizer.cpp): pushes the token on `_peekedTokens`. -/
def PutBackToken (t : Tokenizer) (token : String) : Tokenizer :=
  { t with peekedTokens := token :: t.peekedTokens }

/-- The tokens returned by `n` calls of `ReadNextToken`, and the tokenizer afterwards. -/
def readN : Nat → Tokenizer → List String × Tokenizer
  | 0, t => ([], t)
  | n + 1, t =>
    let first := t.ReadNextToken
    let rest := readN n first.2
    (first.1 :: rest.1, rest.2)

end Tokenizer

/-- The data members of a `PeekStack`: the stack `_tokens`, top first, and the tokenizer
that `_tokenizer` refers to. -/
structure PeekStack where
  tokens : List String
  tokenizer : Tokenizer
deriving DecidableEq, Repr

namespace PeekStack

/-- `PeekStack::PeekStack(Tokenizer&)`. -/
def create (tokenizer : Tokenizer) : PeekStack := ⟨[], tokenizer⟩

/-- `PeekStack::Peek`. -/
def Peek (p : PeekStack) : String × PeekStack :=
  let read := p.tokenizer.ReadNextToken
  (read.1, ⟨read.1 :: p.tokens, read.2⟩)

/-- The loop of `PeekStack::~PeekStack` on the stack `_tokens`. -/
def putBackAll : List String → Tokenizer → Tokenizer
  | [], tokenizer => tokenizer
  | top :: rest, tokenizer => putBackAll rest (tokenizer.PutBackToken top)

/-- `PeekStack::~PeekStack`: the tokenizer afterwards. -/
def destroy (p : PeekStack) : Tokenizer := putBackAll p.tokens p.tokenizer

/-- `PeekStack::Consume`. -/
def Consume (p : PeekStack) : PeekStack := { p with tokens := [] }

/-- The tokens returned by `n` calls of `Peek`, and the `PeekStack` afterwards. -/
def peekN : Nat → PeekStack → List String × PeekStack
  | 0, p => ([], p)
  | n + 1, p =>
    let first := p.Peek
    let rest := peekN n first.2
    (first.1 :: rest.1, rest.2)

end PeekStack

end utilities

/-- A tokenizer with one token put back and three tokens left in the stream. -/
def exTokenizer : utilities.Tokenizer := ⟨["<"], ["map", ">", "x"]⟩

/-! ## IEEE 754 double arithmetic -/

/-- A value of the type `double` (IEEE 754 binary64): a signed zero or finite number
`mantissa * 2 ^ exponent` with a sign, a signed infinity, or a NaN. -/
inductive Double where
  | finite (negative : Bool) (mantissa : Nat) (exponent : Int)
  | infinite (negative : Bool)
  | nan
deriving DecidableEq, Repr

namespace Double

/-- The integer nearest to `n / d`, the even one of the two when `n / d` lies halfway. -/
def roundHalfEven (n d : Nat) : Nat :=
  let q := n / d
  let r := n % d
  if 2 * r < d then q
  else if d < 2 * r then q + 1
  else if q % 2 = 0 then q
  else q + 1

/-- The number of binary digits of `n`, for `n` up to `fuel`. -/
def bitLength : Nat → Nat → Nat
  | 0, _ => 0
  | fuel + 1, n => if n = 0 then 0 else bitLength fuel (n / 2) + 1

/-- The largest `e` with `2 ^ e <= n / d`, for positive `n` and `d`. -/
def floorLog2 (n d : Nat) : Int :=
  let e : Int := (bitLength n n : Int) - (bitLength d d : Int)
  if d * 2 ^ e.toNat ≤ n * 2 ^ (-e).toNat then e else e - 1

/-- The double nearest to `n / d * 2 ^ e` with the given sign (round to nearest, ties to
even): 53 significant bits, the last place no lower than `2 ^ -1074`, and an
infinity from `2 ^ 1024` on. -/
def round (negative : Bool) (n d : Nat) (e : Int) : Double :=
  if n = 0 then .finite negative 0 (-1074)
  else
    let q := max (floorLog2 n d + e - 52) (-1074)
    let m := roundHalfEven (n * 2 ^ (e - q).toNat) (d * 2 ^ (q - e).toNat)
    if m = 2 ^ 53 then
      if q + 1 > 971 then .infinite negative else .finite negative (2 ^ 52) (q + 1)
    else if q > 971 then .infinite negative
    else .finite negative m q

/-- The double that a literal with an integer value denotes, such as `-18.0` and `1.0`. -/
def ofInt (i : Int) : Double := round (decide (i < 0)) i.natAbs 1 0

/-- Unary minus. -/
def neg : Double → Double
  | .finite negative mantissa exponent => .finite (!negative) mantissa exponent
  | .infinite negative => .infinite (!negative)
  | .nan => .nan

/-- The product `a * b` of two doubles. -/
def mul : Double → Double → Double
  | .nan, _ => .nan
  | _, .nan => .nan
  | .infinite s1, .infinite s2 => .infinite (xor s1 s2)
  | .infinite s1, .finite s2 m2 _ => if m2 = 0 then .nan else .infinite (xor s1 s2)
  | .finite s1 m1 _, .infinite s2 => if m1 = 0 then .nan else .infinite (xor s1 s2)
  | .finite s1 m1 e1, .finite s2 m2 e2 => round (xor s1 s2) (m1 * m2) 1 (e1 + e2)

/-- The integer `mantissa * 2 ^ shift` with the given sign. -/
def scaled (negative : Bool) (mantissa : Nat) (shift : Int) : Int :=
  if negative then -((mantissa * 2 ^ shift.toNat : Nat) : Int)
  else ((mantissa * 2 ^ shift.toNat : Nat) : Int)

/-- The sum `a + b` of two doubles. -/
def add : Double → Double → Double
  | .nan, _ => .nan
  | _, .nan => .nan
  | .infinite s1, .infinite s2 => if s1 = s2 then .infinite s1 else .nan
  | .infinite s1, .finite _ _ _ => .infinite s1
  | .finite _ _ _, .infinite s2 => .infinite s2
  | .finite s1 m1 e1, .finite s2 m2 e2 =>
    let e := min e1 e2
    let sum := scaled s1 m1 (e1 - e) + scaled s2 m2 (e2 - e)
    if sum = 0 then .finite (s1 && s2) 0 (-1074)
    else round (decide (sum < 0)) sum.natAbs 1 e

/-- The quotient `a / b` of two doubles. -/
def div : Double → Double → Double
  | .nan, _ => .nan
  | _, .nan => .nan
  | .infinite _, .infinite _ => .nan
  | .infinite s1, .finite s2 _ _ => .infinite (xor s1 s2)
  | .finite s1 _ _, .infinite s2 => .finite (xor s1 s2) 0 (-1074)
  | .finite s1 m1 e1, .finite s2 m2 e2 =>
    if m2 = 0 then
      if m1 = 0 then .nan else .infinite (xor s1 s2)
    else round (xor s1 s2) m1 m2 (e1 - e2)

/-- The comparison `a <= b` of two doubles; false when one of them is a NaN. -/
def le : Double → Double → Bool
  | .nan, _ => false
  | _, .nan => false
  | .infinite s1, .infinite s2 => s1 || !s2
  | .infinite s1, .finite _ _ _ => s1
  | .finite _ _ _, .infinite s2 => !s2
  | .finite s1 m1 e1, .finite s2 m2 e2 =>
    let e := min e1 e2
    decide (scaled s1 m1 (e1 - e) ≤ scaled s2 m2 (e2 - e))

/-- Whether the value is a binary64 value in its one representation: a mantissa below
`2 ^ 53`, an exponent from -1074 to 971, and a mantissa of 53 bits unless the
exponent is -1074. -/
def isBinary64 : Double → Bool
  | .finite _ m e =>
    decide (m < 2 ^ 53) && decide (-1074 ≤ e) && decide (e ≤ 971) &&
      (decide (2 ^ 52 ≤ m) || decide (e = -1074))
  | _ => true

/-- The rational number that a finite double stands for (0 for the others). -/
def value : Double → ℚ
  | .finite negative mantissa exponent =>
    (if negative then -1 else 1) * (mantissa : ℚ) * (2 : ℚ) ^ exponent
  | _ => 0

end Double

/-! ## `LogLoss.cpp` -/

namespace loss_functions

/-- The data member of `LogLoss`. -/
structure LogLoss (R : Type) where
  scale : R

namespace LogLoss

variable {R : Type} [LinearOrderedField R]

/-- `LogLoss::GetDerivative`, in exact arithmetic; `exp` is `std::exp`. -/
def GetDerivative (exp : R → R) (self : LogLoss R) (prediction label : R) : R :=
  let scaled_margin := prediction * label * self.scale
  if scaled_margin ≤ 0 then
    let exp_scaled_margin := exp scaled_margin
    (-label / (1 + exp_scaled_margin))
  else
    let exp_neg_scaled_margin := exp (-scaled_margin)
    (-label * exp_neg_scaled_margin / (1 + exp_neg_scaled_margin))

end LogLoss

end loss_functions

namespace Map

theorem addOutputs_error (E : Externals) (f : PortElementsBase → PortElementsBase)
    (outputs : List (String × PortElementsBase)) (m : Map)
    (h : ∃ o ∈ outputs, o.2.IsFullPortOutput = false) :
    addOutputs E f outputs m = .error (.LogicException .notImplemented) := by
  induction outputs generalizing m with
  | nil => simp at h
  | cons o rest ih =>
    unfold addOutputs
    by_cases ho : o.2.IsFullPortOutput = true
    · have hrest : ∃ o' ∈ rest, o'.2.IsFullPortOutput = false := by
        obtain ⟨o', ho', hf⟩ := h
        rcases List.mem_cons.1 ho' with rfl | hmem
        · rw [ho] at hf; cases hf
        · exact ⟨o', hmem, hf⟩
      simp [ho, ih _ hrest]
    · simp [ho]

theorem addOutputs_ok_iff (E : Externals) (f : PortElementsBase → PortElementsBase)
    (outputs : List (String × PortElementsBase)) (m : Map) :
    (∃ m1, addOutputs E f outputs m = .ok m1) ↔ ∀ o ∈ outputs, o.2.IsFullPortOutput = true := by
  induction outputs generalizing m with
  | nil => simp [addOutputs]
  | cons o rest ih =>
    unfold addOutputs
    by_cases ho : o.2.IsFullPortOutput = true
    · simp [ho, ih]
    · simp [ho]

/-- C1: in both constructors, an output binding that is not a full-port output makes
construction fail with `LogicException(notImplemented)`, so that no `Map` is
produced; the loop over the output bindings is passed exactly when every
binding is a full-port output. -/
theorem constructors_require_full_port_outputs (E : Externals) (model : Model)
    (inputs : List (String × Node)) (outputs : List (String × PortElementsBase)) :
    ((∃ o ∈ outputs, o.2.IsFullPortOutput = false) →
      ofModel E model inputs outputs = .error (.LogicException .notImplemented) ∧
      ofModelMove E model inputs outputs = .error (.LogicException .notImplemented)) ∧
    (∀ (f : PortElementsBase → PortElementsBase) (m : Map),
      (∃ m1, addOutputs E f outputs m = .ok m1) ↔ ∀ o ∈ outputs, o.2.IsFullPortOutput = true) ∧
    (∀ (f : PortElementsBase → PortElementsBase) (m : Map)
      (before after : List (String × PortElementsBase)) (o : String × PortElementsBase),
      outputs = before ++ o :: after → o.2.IsFullPortOutput = false →
      addOutputs E f outputs m = .error (.LogicException .notImplemented)) := by
  refine ⟨fun h => ⟨?_, ?_⟩, fun f m => addOutputs_ok_iff E f outputs m, ?_⟩
  · simp only [ofModel, addOutputs_error E _ outputs _ h]
  · simp only [ofModelMove, addOutputs_error E _ outputs _ h]
  · intro f m before after o hsplit ho
    exact addOutputs_error E f outputs m ⟨o, by simp [hsplit], ho⟩

/-- Witness for C1: a binding to part of a port is rejected by both constructors. -/
theorem constructors_require_full_port_outputs_witness :
    ofModel plainExternals exModel [("a", exInput)] [("sum", exSumOutput), ("part", exPartialOutput)]
        = .error (.LogicException .notImplemented) ∧
    ofModelMove plainExternals exModel [("a", exInput)] [("sum", exSumOutput), ("part", exPartialOutput)]
        = .error (.LogicException .notImplemented) :=
  (constructors_require_full_port_outputs plainExternals exModel [("a", exInput)]
    [("sum", exSumOutput), ("part", exPartialOutput)]).1
    ⟨("part", exPartialOutput), by simp, by decide⟩

/-! ### The positional lists -/

theorem addInputs_spec (f : Node → Node) (inputs : List (String × Node)) (m : Map) :
    (addInputs f inputs m).inputNames = m.inputNames ++ inputs.map Prod.fst ∧
    (addInputs f inputs m).inputNodes = m.inputNodes ++ inputs.map (fun i => f i.2) ∧
    (addInputs f inputs m).outputNames = m.outputNames ∧
    (addInputs f inputs m).outputElements = m.outputElements ∧
    (addInputs f inputs m).outputElementsMap = m.outputElementsMap := by
  induction inputs generalizing m with
  | nil => simp [addInputs]
  | cons i rest ih =>
    have h := ih (m.AddInput i.1 (f i.2))
    simp only [addInputs, List.foldl_cons] at h ⊢
    obtain ⟨h1, h2, h3, h4, h5⟩ := h
    refine ⟨?_, ?_, ?_, ?_, ?_⟩
    · rw [h1]; simp [AddInput]
    · rw [h2]; simp [AddInput]
    · rw [h3]; simp [AddInput]
    · rw [h4]; simp [AddInput]
    · rw [h5]; simp [AddInput]

theorem addOutputs_spec (E : Externals) (f : PortElementsBase → PortElementsBase)
    (outputs : List (String × PortElementsBase)) (m m1 : Map)
    (h : addOutputs E f outputs m = .ok m1) :
    m1.outputNames = m.outputNames ++ outputs.map Prod.fst ∧
    m1.outputElements.length = m.outputElements.length + outputs.length ∧
    m1.inputNames = m.inputNames ∧ m1.inputNodes = m.inputNodes ∧
    m1.inputNodeMap = m.inputNodeMap := by
  induction outputs generalizing m with
  | nil =>
    simp only [addOutputs, Except.ok.injEq] at h
    subst h; simp
  | cons o rest ih =>
    unfold addOutputs at h
    by_cases ho : o.2.IsFullPortOutput = true
    · simp only [ho, Bool.not_true, Bool.false_eq_true, if_false] at h
      obtain ⟨h1, h2, h3, h4, h5⟩ := ih _ h
      refine ⟨?_, ?_, ?_, ?_, ?_⟩
      · rw [h1]; simp [AddOutput]
      · rw [h2]; simp [AddOutput]; omega
      · rw [h3]; simp [AddOutput]
      · rw [h4]; simp [AddOutput]
      · rw [h5]; simp [AddOutput]
    · simp [ho] at h

theorem pruned_lists (ren : NodeId → NodeId) (m : Map) :
    (m.pruned ren).inputNames = m.inputNames ∧
    (m.pruned ren).outputNames = m.outputNames ∧
    (m.pruned ren).inputNodes.length = m.inputNodes.length ∧
    (m.pruned ren).outputElements.length = m.outputElements.length := by
  simp [pruned, FixTransformedIO]

theorem pruneAndVerify_eq (E : Externals) (m m1 : Map) (h : pruneAndVerify E m = .ok m1) :
    m1 = m.pruned E.cloneId := by
  unfold pruneAndVerify Prune at h
  by_cases hv : E.Verify (m.pruned E.cloneId).model = true
  · simp only [hv, if_true] at h
    exact (Except.ok.inj h).symm
  · simp [hv] at h

theorem constructed_eq (E : Externals) (model : Model) (inputs : List (String × Node))
    (outputs : List (String × PortElementsBase)) (m : Map)
    (h : ofModel E model inputs outputs = .ok m ∨ ofModelMove E model inputs outputs = .ok m) :
    ∃ (f : Node → Node) (g : PortElementsBase → PortElementsBase) (model0 : Model) (m2 : Map),
      addOutputs E g outputs (addInputs f inputs (init model0)) = .ok m2 ∧
      m = m2.pruned E.cloneId := by
  rcases h with h | h
  · unfold ofModel at h
    refine ⟨(E.CopyModel model).2.GetCorrespondingInputNode,
      fun e => PortElementsBase.ofPort ((E.CopyModel model).2.GetCorrespondingOutputs e),
      (E.CopyModel model).1, ?_⟩
    cases h2 : addOutputs E
        (fun e => PortElementsBase.ofPort ((E.CopyModel model).2.GetCorrespondingOutputs e))
        outputs (addInputs (E.CopyModel model).2.GetCorrespondingInputNode inputs
          (init (E.CopyModel model).1)) with
    | error e => simp [h2] at h
    | ok m2 =>
      simp only [h2] at h
      exact ⟨m2, rfl, pruneAndVerify_eq E m2 m h⟩
  · unfold ofModelMove at h
    refine ⟨id, id, model, ?_⟩
    cases h2 : addOutputs E id outputs (addInputs id inputs (init model)) with
    | error e => simp [h2] at h
    | ok m2 =>
      simp only [h2] at h
      exact ⟨m2, rfl, pruneAndVerify_eq E m2 m h⟩

/-- C2: a `Map` constructed by either constructor has as many inputs and outputs as
bindings were given, and its positional names are the names of the bindings in
declaration order; and the name list and the entry list of each side have the
same length, which `AddInput`, `AddOutput`, `RemoveInputs`, `FixTransformedIO`
and `Prune` all preserve. -/
theorem constructed_lists_keep_declaration_order (E : Externals) (model : Model)
    (inputs : List (String × Node)) (outputs : List (String × PortElementsBase)) (m : Map)
    (h : ofModel E model inputs outputs = .ok m ∨ ofModelMove E model inputs outputs = .ok m) :
    m.NumInputs = inputs.length ∧ m.NumOutputs = outputs.length ∧
    (∀ i (hi : i < inputs.length), m.GetInputName i = .ok inputs[i].1) ∧
    (∀ j (hj : j < outputs.length), m.GetOutputName j = .ok outputs[j].1) ∧
    m.lengthsAgree ∧
    (∀ k : Map, k.lengthsAgree →
      (∀ name node, (k.AddInput name node).lengthsAgree) ∧
      (∀ name e, (k.AddOutput E name e).lengthsAgree) ∧
      k.RemoveInputs.lengthsAgree ∧
      (∀ t, lengthsAgree ( FixTransformedIO k t)) ∧
      (∀ ren, (k.pruned ren).lengthsAgree) ∧
      (∀ k1, k.Prune E = .ok k1 → k1.lengthsAgree)) := by
  obtain ⟨f, g, model0, m2, h2, rfl⟩ := constructed_eq E model inputs outputs m h
  obtain ⟨o1, o2, o3, o4, _⟩ := addOutputs_spec E g outputs _ m2 h2
  obtain ⟨i1, i2, i3, i4, _⟩ := addInputs_spec f inputs (init model0)
  obtain ⟨p1, p2, p3, p4⟩ := pruned_lists E.cloneId m2
  have hnames : (m2.pruned E.cloneId).inputNames = inputs.map Prod.fst := by
    rw [p1, o3, i1]; simp [init]
  have honames : (m2.pruned E.cloneId).outputNames = outputs.map Prod.fst := by
    rw [p2, o1, i3]; simp [init]
  have hin : (m2.pruned E.cloneId).inputNodes.length = inputs.length := by
    rw [p3, o4, i2]; simp [init]
  have hout : (m2.pruned E.cloneId).outputElements.length = outputs.length := by
    rw [p4, o2, i4]; simp [init]
  refine ⟨hin, hout, ?_, ?_, ?_, ?_⟩
  · intro i hi
    have hlt : ¬ i ≥ (m2.pruned E.cloneId).inputNames.length := by
      rw [hnames]; simp; exact hi
    simp only [GetInputName, hlt, dif_neg, not_false_eq_true, Except.ok.injEq]
    simp [hnames]
  · intro j hj
    have hlt : ¬ j ≥ (m2.pruned E.cloneId).outputElements.length := by
      rw [hout]; simp; exact hj
    simp only [GetOutputName, hlt, if_false, honames]
    simp [hj]
  · exact ⟨by rw [hnames, hin]; simp, by rw [honames, hout]; simp⟩
  · intro k hk
    obtain ⟨hk1, hk2⟩ := hk
    refine ⟨?_, ?_, ?_, ?_, ?_, ?_⟩
    · intro name node
      exact ⟨by simp [AddInput, hk1], by simpa [AddInput] using hk2⟩
    · intro name e
      exact ⟨by simpa [AddOutput] using hk1, by simp [AddOutput, hk2]⟩
    · exact ⟨by simp [RemoveInputs], by simpa [RemoveInputs] using hk2⟩
    · intro t
      exact ⟨by simpa [ FixTransformedIO] using hk1, by simpa [ FixTransformedIO] using hk2⟩
    · intro ren
      exact ⟨by simpa [pruned, FixTransformedIO] using hk1,
        by simpa [pruned, FixTransformedIO] using hk2⟩
    · intro k1 hk1eq
      unfold Prune at hk1eq
      by_cases hv : E.Verify (k.pruned E.cloneId).model = true
      · simp only [hv, if_true] at hk1eq
        have := Except.ok.inj hk1eq
        subst this
        exact ⟨by simpa [pruned, FixTransformedIO] using hk1,
          by simpa [pruned, FixTransformedIO] using hk2⟩
      · simp [hv] at hk1eq

/-- Witness for C2: the two-input, one-output map over `exModel`. -/
theorem constructed_lists_keep_declaration_order_witness :
    ofModelMove plainExternals exModel [("a", exInput), ("b", exInput2)] [("sum", exSumOutput)]
      = .ok exMap ∧
    exMap.NumInputs = 2 ∧ exMap.NumOutputs = 1 ∧ exMap.lengthsAgree :=
  have h := constructed_lists_keep_declaration_order plainExternals exModel
    [("a", exInput), ("b", exInput2)] [("sum", exSumOutput)] exMap (Or.inr rfl)
  ⟨rfl, h.1, h.2.1, h.2.2.2.2.1⟩

/-! ### Lookup -/

theorem NameMap_find_eq_none_iff {V : Type} (m : NameMap V) (k : String) :
    m.find k = none ↔ ∀ v, (k, v) ∉ m := by
  unfold NameMap.find
  rw [Option.map_eq_none', List.find?_eq_none]
  constructor
  · intro h v hv
    exact h (k, v) hv (by simp)
  · intro h e he hk
    have : e.1 = k := by simpa using hk
    exact h e.2 (by rw [← this]; exact he)

theorem NameMap_find_mem {V : Type} (m : NameMap V) (k : String) (v : V)
    (h : m.find k = some v) : (k, v) ∈ m := by
  unfold NameMap.find at h
  rw [Option.map_eq_some'] at h
  obtain ⟨e, he, rfl⟩ := h
  have hk : e.1 = k := by simpa using List.find?_some he
  have hmem := List.mem_of_find?_eq_some he
  rw [← hk]
  exact hmem

/-- C4: on a `Map` whose positional lists are aligned, the positional getters raise
`InputException(invalidArgument)` exactly for an index at or past `NumInputs()`
(resp. `NumOutputs()`), the by-name getters exactly for a name that is not
bound, `GetSinkNode` raises `InputException(indexOutOfRange)` exactly for an
index at or past `GetNumSinkNodes()`, and every other call returns the recorded
entry.  The getters are functions of the `Map`, which they leave as it is. -/
theorem getters_reject_exactly_invalid_references (m : Map) (hm : m.lengthsAgree) (i : Nat)
    (name : String) :
    (m.GetInput i = .error (.InputException .invalidArgument) ↔ i ≥ m.NumInputs) ∧
    (m.GetInputName i = .error (.InputException .invalidArgument) ↔ i ≥ m.NumInputs) ∧
    (m.GetOutput i = .error (.InputException .invalidArgument) ↔ i ≥ m.NumOutputs) ∧
    (m.GetOutputName i = .error (.InputException .invalidArgument) ↔ i ≥ m.NumOutputs) ∧
    (m.GetInputByName name = .error (.InputException .invalidArgument) ↔
      ∀ node, (name, node) ∉ m.inputNodeMap) ∧
    (m.GetOutputByName name = .error (.InputException .invalidArgument) ↔
      ∀ e, (name, e) ∉ m.outputElementsMap) ∧
    (m.GetSinkNode i = .error (.InputException .indexOutOfRange) ↔ i ≥ m.GetNumSinkNodes) ∧
    (∀ h : i < m.NumInputs, m.GetInput i = .ok (m.inputNodes.get ⟨i, h⟩)) ∧
    (∀ h : i < m.inputNames.length, m.GetInputName i = .ok (m.inputNames.get ⟨i, h⟩)) ∧
    (∀ h : i < m.NumOutputs, m.GetOutput i = .ok (m.outputElements.get ⟨i, h⟩)) ∧
    (∀ h : i < m.outputNames.length, m.GetOutputName i = .ok (m.outputNames.get ⟨i, h⟩)) ∧
    ((∃ node, (name, node) ∈ m.inputNodeMap) →
      ∃ node, (name, node) ∈ m.inputNodeMap ∧ m.GetInputByName name = .ok node) ∧
    ((∃ e, (name, e) ∈ m.outputElementsMap) →
      ∃ e, (name, e) ∈ m.outputElementsMap ∧ m.GetOutputByName name = .ok e) ∧
    (∀ h : i < m.GetNumSinkNodes, m.GetSinkNode i = .ok (m.GetSinkNodes.get ⟨i, h⟩)) := by
  obtain ⟨hin, hout⟩ := hm
  refine ⟨?_, ?_, ?_, ?_, ?_, ?_, ?_, ?_, ?_, ?_, ?_, ?_, ?_, ?_⟩
  · unfold GetInput NumInputs
    by_cases h : i ≥ m.inputNodes.length <;> simp [h]
  · unfold GetInputName NumInputs
    rw [← hin]
    by_cases h : i ≥ m.inputNames.length <;> simp [h]
  · unfold GetOutput NumOutputs
    by_cases h : i ≥ m.outputElements.length <;> simp [h]
  · unfold GetOutputName NumOutputs
    by_cases h : i ≥ m.outputElements.length
    · simp [h]
    · have h2 : i < m.outputNames.length := by omega
      simp [h, h2]
  · unfold GetInputByName
    rw [← NameMap_find_eq_none_iff]
    cases hf : m.inputNodeMap.find name <;> simp
  · unfold GetOutputByName
    rw [← NameMap_find_eq_none_iff]
    cases hf : m.outputElementsMap.find name <;> simp
  · unfold GetSinkNode GetNumSinkNodes
    by_cases h : i ≥ m.GetSinkNodes.length <;> simp [h]
  · intro h
    unfold NumInputs at h
    have h2 : ¬ i ≥ m.inputNodes.length := by omega
    simp [GetInput, h2]
  · intro h
    have h2 : ¬ i ≥ m.inputNames.length := by omega
    simp [GetInputName, h2]
  · intro h
    unfold NumOutputs at h
    have h2 : ¬ i ≥ m.outputElements.length := by omega
    simp [GetOutput, h2]
  · intro h
    have h2 : ¬ i ≥ m.outputElements.length := by omega
    simp [GetOutputName, h2, h]
  · rintro ⟨node, hnode⟩
    cases hf : m.inputNodeMap.find name with
    | none => exact absurd hnode ((NameMap_find_eq_none_iff _ _).1 hf node)
    | some v => exact ⟨v, NameMap_find_mem _ _ _ hf, by simp [GetInputByName, hf]⟩
  · rintro ⟨e, he⟩
    cases hf : m.outputElementsMap.find name with
    | none => exact absurd he ((NameMap_find_eq_none_iff _ _).1 hf e)
    | some v => exact ⟨v, NameMap_find_mem _ _ _ hf, by simp [GetOutputByName, hf]⟩
  · intro h
    unfold GetNumSinkNodes at h
    have h2 : ¬ i ≥ m.GetSinkNodes.length := by omega
    simp [GetSinkNode, h2]

/-- Witness for C4: index 2 and the name `c` on the two-input map `exMap`. -/
theorem getters_reject_exactly_invalid_references_witness :
    exMap.lengthsAgree ∧
    (exMap.GetInput 2 = .error (.InputException .invalidArgument) ↔ 2 ≥ exMap.NumInputs) :=
  ⟨⟨rfl, rfl⟩, (getters_reject_exactly_invalid_references exMap ⟨rfl, rfl⟩ 2 "c").1⟩

/-- C5: `Refine` with `maxIterations = 0`, with or without a context, returns with
the `Map` exactly as it was: model, positional lists and name-indexed maps; no
transformation and no `Prune` is run. -/
theorem refine_zero_is_noop (E : Externals) (m : Map) :
    m.Refine E 0 = .ok m ∧ m.RefineWithContext E 0 = .ok m := by
  simp [Refine, RefineWithContext]

/-! ### Positional and by-name lookup -/

theorem NameMap_find_zip_get {V : Type} (names : List String) (vals : List V)
    (hnodup : names.Nodup) (i : Nat) (h1 : i < names.length) (h2 : i < vals.length) :
    NameMap.find (names.zip vals) names[i] = some vals[i] := by
  induction names generalizing vals i with
  | nil => simp at h1
  | cons n ns ih =>
    cases vals with
    | nil => simp at h2
    | cons v vs =>
      cases i with
      | zero => simp [NameMap.find]
      | succ i =>
        have hi : i < ns.length := by simpa using h1
        have hne : ¬ n = ns[i] := by
          intro heq
          have hmem : ns[i] ∈ ns := List.getElem_mem _
          rw [← heq] at hmem
          exact (List.nodup_cons.1 hnodup).1 hmem
        have := ih vs (List.nodup_cons.1 hnodup).2 i (by simpa using h1) (by simpa using h2)
        simpa [NameMap.find, hne] using this

theorem NameMap_find_zip_none {V : Type} (names : List String) (vals : List V) (k : String)
    (hk : k ∉ names) : NameMap.find (names.zip vals) k = none := by
  rw [NameMap_find_eq_none_iff]
  intro v hv
  exact hk (List.of_mem_zip hv).1

theorem NameMap_insert_zip {V : Type} (names : List String) (vals : List V) (k : String) (v : V)
    (hk : k ∉ names) (hlen : names.length = vals.length) :
    NameMap.insert (names.zip vals) k v = (names ++ [k]).zip (vals ++ [v]) := by
  unfold NameMap.insert
  rw [NameMap_find_zip_none names vals k hk, List.zip_append hlen]
  simp

theorem NameMap_mapValues_zip {V : Type} (f : V → V) (names : List String) (vals : List V) :
    NameMap.mapValues f (names.zip vals) = names.zip (vals.map f) := by
  unfold NameMap.mapValues
  induction names generalizing vals with
  | nil => simp
  | cons n ns ih =>
    cases vals with
    | nil => simp
    | cons v vs => simp [ih]

theorem addInputs_aligned (f : Node → Node) (inputs : List (String × Node)) (m : Map)
    (hmap : m.inputNodeMap = m.inputNames.zip m.inputNodes)
    (hlen : m.inputNames.length = m.inputNodes.length)
    (hnodup : (m.inputNames ++ inputs.map Prod.fst).Nodup) :
    (addInputs f inputs m).inputNodeMap =
      (addInputs f inputs m).inputNames.zip (addInputs f inputs m).inputNodes := by
  induction inputs generalizing m with
  | nil => simpa [addInputs] using hmap
  | cons i rest ih =>
    have hi : i.1 ∉ m.inputNames := by
      intro hmem
      have := List.nodup_append.1 hnodup
      exact this.2.2 hmem (by simp)
    have hstep := ih (m.AddInput i.1 (f i.2))
      (by
        simp only [AddInput]
        rw [hmap]
        exact NameMap_insert_zip _ _ _ _ hi hlen)
      (by simp [AddInput, hlen])
      (by simpa [AddInput, List.append_assoc] using hnodup)
    simpa [addInputs] using hstep

theorem addOutputs_aligned (E : Externals) (f : PortElementsBase → PortElementsBase)
    (outputs : List (String × PortElementsBase)) (m m1 : Map)
    (h : addOutputs E f outputs m = .ok m1)
    (hmap : m.outputElementsMap = m.outputNames.zip m.outputElements)
    (hlen : m.outputNames.length = m.outputElements.length)
    (hnodup : (m.outputNames ++ outputs.map Prod.fst).Nodup) :
    m1.outputElementsMap = m1.outputNames.zip m1.outputElements := by
  induction outputs generalizing m with
  | nil =>
    simp only [addOutputs, Except.ok.injEq] at h
    subst h; exact hmap
  | cons o rest ih =>
    unfold addOutputs at h
    by_cases ho : o.2.IsFullPortOutput = true
    · simp only [ho, Bool.not_true, Bool.false_eq_true, if_false] at h
      have hi : o.1 ∉ m.outputNames := by
        intro hmem
        have := List.nodup_append.1 hnodup
        exact this.2.2 hmem (by simp)
      refine ih _ h ?_ ?_ ?_
      · simp only [AddOutput]
        rw [hmap]
        exact NameMap_insert_zip _ _ _ _ hi hlen
      · simp [AddOutput, hlen]
      · simpa [AddOutput, List.append_assoc] using hnodup
    · simp [ho] at h

/-- C3 (as amended): for a `Map` built by either constructor from bindings whose
input names are pairwise distinct and whose output names are pairwise
distinct, positional and by-name lookup agree: the node found under the name
at position `i` is the node at position `i`, and the elements found under the
name at position `j` are the elements at position `j`. -/
theorem lookup_by_name_agrees_with_position (E : Externals) (model : Model)
    (inputs : List (String × Node)) (outputs : List (String × PortElementsBase)) (m : Map)
    (hin : (inputs.map Prod.fst).Nodup) (hout : (outputs.map Prod.fst).Nodup)
    (h : ofModel E model inputs outputs = .ok m ∨ ofModelMove E model inputs outputs = .ok m) :
    (∀ i, i < m.NumInputs → ∃ name node,
      m.GetInputName i = .ok name ∧ m.GetInput i = .ok node ∧
      m.GetInputByName name = .ok node) ∧
    (∀ j, j < m.NumOutputs → ∃ name e,
      m.GetOutputName j = .ok name ∧ m.GetOutput j = .ok e ∧
      m.GetOutputByName name = .ok e) := by
  obtain ⟨f, g, model0, m2, h2, rfl⟩ := constructed_eq E model inputs outputs m h
  obtain ⟨o1, o2, o3, o4, o5⟩ := addOutputs_spec E g outputs _ m2 h2
  obtain ⟨i1, i2, i3, i4, i5⟩ := addInputs_spec f inputs (init model0)
  have hinMap := addInputs_aligned f inputs (init model0) (by simp [init]) (by simp [init])
    (by simpa [init] using hin)
  have houtMap := addOutputs_aligned E g outputs _ m2 h2 (by rw [i5, i3, i4]; simp [init])
    (by rw [i3, i4]; simp [init]) (by rw [i3]; simpa [init] using hout)
  have hinNames : m2.inputNames = inputs.map Prod.fst := by rw [o3, i1]; simp [init]
  have hinLen : m2.inputNames.length = m2.inputNodes.length := by
    rw [o3, o4, i1, i2]; simp [init]
  have houtNames : m2.outputNames = outputs.map Prod.fst := by rw [o1, i3]; simp [init]
  have houtLen : m2.outputNames.length = m2.outputElements.length := by
    rw [o1, o2, i3, i4]; simp [init]
  constructor
  · intro i hi
    have hi1 : i < m2.inputNodes.length := by simpa [NumInputs, pruned, FixTransformedIO] using hi
    have hi2 : i < m2.inputNames.length := by omega
    refine ⟨m2.inputNames[i], (CopySubmodel E.cloneId m2.model m2.pruneOutputPorts).2.GetCorrespondingInputNode
      m2.inputNodes[i], ?_, ?_, ?_⟩
    · have hlt : ¬ i ≥ m2.inputNames.length := by omega
      simp [GetInputName, pruned, FixTransformedIO, hlt]
    · have hlt : ¬ i ≥ m2.inputNodes.length := by omega
      simp [GetInput, pruned, FixTransformedIO, hlt]
    · have hfind : NameMap.find (m2.pruned E.cloneId).inputNodeMap m2.inputNames[i] =
          some ((CopySubmodel E.cloneId m2.model m2.pruneOutputPorts).2.GetCorrespondingInputNode
            m2.inputNodes[i]) := by
        simp only [pruned, FixTransformedIO]
        rw [o5, hinMap, ← o3, ← o4, NameMap_mapValues_zip]
        have := NameMap_find_zip_get m2.inputNames
          (m2.inputNodes.map
            (CopySubmodel E.cloneId m2.model m2.pruneOutputPorts).2.GetCorrespondingInputNode)
          (by rw [hinNames]; exact hin) i hi2 (by simpa using hi1)
        simpa using this
      simp [GetInputByName, hfind]
  · intro j hj
    have hj1 : j < m2.outputElements.length := by
      simpa [NumOutputs, pruned, FixTransformedIO] using hj
    have hj2 : j < m2.outputNames.length := by omega
    refine ⟨m2.outputNames[j], PortElementsBase.ofPort
      ((CopySubmodel E.cloneId m2.model m2.pruneOutputPorts).2.GetCorrespondingOutputs
        m2.outputElements[j]), ?_, ?_, ?_⟩
    · have hlt : ¬ j ≥ m2.outputElements.length := by omega
      simp [GetOutputName, pruned, FixTransformedIO, hlt, hj2]
    · have hlt : ¬ j ≥ m2.outputElements.length := by omega
      simp [GetOutput, pruned, FixTransformedIO, hlt]
    · have hfind : NameMap.find (m2.pruned E.cloneId).outputElementsMap m2.outputNames[j] =
          some (PortElementsBase.ofPort
            ((CopySubmodel E.cloneId m2.model m2.pruneOutputPorts).2.GetCorrespondingOutputs
              m2.outputElements[j])) := by
        simp only [pruned, FixTransformedIO]
        rw [houtMap, NameMap_mapValues_zip]
        have := NameMap_find_zip_get m2.outputNames
          (m2.outputElements.map (fun e => PortElementsBase.ofPort
            ((CopySubmodel E.cloneId m2.model m2.pruneOutputPorts).2.GetCorrespondingOutputs e)))
          (by rw [houtNames]; exact hout) j hj2 (by simpa using hj1)
        simpa using this
      simp [GetOutputByName, hfind]

/-- Witness for C3 (as amended): the map `exMap`, with inputs `a`, `b` and output `sum`. -/
theorem lookup_by_name_agrees_with_position_witness :
    (["a", "b"] : List String).Nodup ∧ (["sum"] : List String).Nodup ∧
    ofModelMove plainExternals exModel [("a", exInput), ("b", exInput2)] [("sum", exSumOutput)]
      = .ok exMap ∧
    (∀ i, i < exMap.NumInputs → ∃ name node,
      exMap.GetInputName i = .ok name ∧ exMap.GetInput i = .ok node ∧
      exMap.GetInputByName name = .ok node) :=
  ⟨by decide, by decide, rfl,
    (lookup_by_name_agrees_with_position plainExternals exModel
      [("a", exInput), ("b", exInput2)] [("sum", exSumOutput)] exMap
      (by decide) (by decide) (Or.inr rfl)).1⟩

/-- Counterexample for C3 as stated: with two input bindings named `a` and two output
bindings named `y`, the name at position 1 leads to the entry of position 0. -/
theorem lookup_by_name_disagrees_for_repeated_names :
    ofModelMove plainExternals exModel [("a", exInput), ("a", exInput2)]
      [("y", exSumOutput), ("y", PortElementsBase.ofPort ⟨0, 0, 2⟩)] = .ok exDupMap ∧
    exDupMap.NumInputs = 2 ∧ exDupMap.NumOutputs = 2 ∧
    exDupMap.GetInputName 1 = .ok "a" ∧
    exDupMap.GetInput 1 = .ok exInput2 ∧
    exDupMap.GetInputByName "a" = .ok exInput ∧
    exInput ≠ exInput2 ∧
    exDupMap.GetOutputName 1 = .ok "y" ∧
    exDupMap.GetOutput 1 = .ok (PortElementsBase.ofPort ⟨0, 0, 2⟩) ∧
    exDupMap.GetOutputByName "y" = .ok exSumOutput ∧
    exSumOutput ≠ PortElementsBase.ofPort ⟨0, 0, 2⟩ := by
  refine ⟨rfl, by decide, by decide, rfl, rfl, rfl, by decide, rfl, rfl, rfl, by decide⟩

/-! ### The frontier of `Prune` -/

theorem mem_GetMatchingNodesByType (m : Map) (name : String) (n : Node) :
    n ∈ m.GetMatchingNodesByType name ↔ n ∈ m.model.nodes ∧ n.typeNameContains name = true := by
  simp [GetMatchingNodesByType, List.mem_dedup, List.mem_filter]

theorem mem_GetAllOutputNodes (m : Map) (n : Node) :
    n ∈ m.GetAllOutputNodes ↔
      ∃ e ∈ m.outputElements, ∃ r ∈ e.ranges, n ∈ m.model.nodes ∧ n.id = r.port.node := by
  simp only [GetAllOutputNodes, GetOutputs, PortElementsBase.GetRanges, List.mem_dedup,
    List.mem_flatMap, Model.nodesWithId, List.mem_filter, PortRange.referencedNode, beq_iff_eq]
  constructor
  · rintro ⟨r, ⟨e, he, hr⟩, hn, hid⟩
    exact ⟨e, he, r, hr, hn, hid⟩
  · rintro ⟨e, he, r, hr, hn, hid⟩
    exact ⟨r, ⟨e, he, hr⟩, hn, hid⟩

theorem sink_mem_pruneOutputNodes (m : Map) (n : Node) (hn : n ∈ m.model.nodes)
    (hs : n.typeNameContains "SinkNode" = true) : n ∈ m.pruneOutputNodes := by
  unfold pruneOutputNodes pruneAddedSinkNodes
  by_cases hd : n ∈ m.pruneDeclaredNodes
  · exact List.mem_append_left _ hd
  · refine List.mem_append_right _ (List.mem_filter.2 ⟨?_, by simpa using hd⟩)
    exact (mem_GetMatchingNodesByType m "SinkNode" n).2 ⟨hn, hs⟩

/-- C7: the port frontier that `Prune` hands to the submodel copy contains every
output port of every node referenced by a declared output and every output
port of every node of the model whose runtime type name contains `SinkNode`;
the loop over the sink nodes appends no node that is already among the declared
output nodes (nor one of the debug sinks added before it), and appends no node
twice. -/
theorem prune_frontier_contains_outputs_and_sinks (m : Map) :
    (∀ e ∈ m.outputElements, ∀ r ∈ e.ranges, ∀ n ∈ m.model.nodes, n.id = r.port.node →
      ∀ p ∈ n.GetOutputPorts, p ∈ m.pruneOutputPorts) ∧
    (∀ n ∈ m.model.nodes, n.typeNameContains "SinkNode" = true →
      ∀ p ∈ n.GetOutputPorts, p ∈ m.pruneOutputPorts) ∧
    (∀ n ∈ m.pruneAddedSinkNodes, n ∉ m.GetAllOutputNodes ∧ n ∉ m.GetDebugSinkNodes) ∧
    m.pruneAddedSinkNodes.Nodup ∧
    (∀ n ∈ m.GetAllOutputNodes, m.pruneOutputNodes.count n = m.pruneDeclaredNodes.count n) ∧
    (∀ ren, (m.pruned ren).model = (CopySubmodel ren m.model m.pruneOutputPorts).1) := by
  refine ⟨?_, ?_, ?_, ?_, ?_, fun _ => rfl⟩
  · intro e he r hr n hn hid p hp
    have hmem : n ∈ m.pruneOutputNodes := by
      unfold pruneOutputNodes pruneDeclaredNodes
      exact List.mem_append_left _ (List.mem_append_left _
        ((mem_GetAllOutputNodes m n).2 ⟨e, he, r, hr, hn, hid⟩))
    exact List.mem_flatMap.2 ⟨n, hmem, hp⟩
  · intro n hn hs p hp
    exact List.mem_flatMap.2 ⟨n, sink_mem_pruneOutputNodes m n hn hs, hp⟩
  · intro n hn
    have hnot : n ∉ m.pruneDeclaredNodes := by
      have := (List.mem_filter.1 hn).2
      simpa using this
    unfold pruneDeclaredNodes at hnot
    exact ⟨fun h => hnot (List.mem_append_left _ h), fun h => hnot (List.mem_append_right _ h)⟩
  · unfold pruneAddedSinkNodes GetSinkNodes GetMatchingNodesByType
    exact (List.nodup_dedup _).filter _
  · intro n hn
    have hnot : n ∉ m.pruneAddedSinkNodes := by
      intro hmem
      have := (List.mem_filter.1 hmem).2
      have hd : n ∈ m.pruneDeclaredNodes := List.mem_append_left _ hn
      simp [hd] at this
    unfold pruneOutputNodes
    rw [List.count_append, List.count_eq_zero_of_not_mem hnot]
    rfl

/-- Witness for C7: in `exDebugMap` the ports of the declared output node and of the
sink are both in the frontier. -/
theorem prune_frontier_contains_outputs_and_sinks_witness :
    (⟨2, 0, 2⟩ : OutputPort) ∈ exDebugMap.pruneOutputPorts ∧
    (⟨3, 0, 2⟩ : OutputPort) ∈ exDebugMap.pruneOutputPorts :=
  ⟨(prune_frontier_contains_outputs_and_sinks exDebugMap).1 (PortElementsBase.ofPort ⟨2, 0, 2⟩)
      (by decide) ⟨⟨2, 0, 2⟩, 0, 2⟩ (by decide) exOutputNode (by decide) rfl ⟨2, 0, 2⟩ (by decide),
   (prune_frontier_contains_outputs_and_sinks exDebugMap).2.1 exDebugSink (by decide) (by decide)
      ⟨3, 0, 2⟩ (by decide)⟩

theorem debugSink_is_sink (n : Node) (h : n.typeNameContains "DebugSinkNode" = true) :
    n.typeNameContains "SinkNode" = true := by
  unfold Node.typeNameContains at h ⊢
  have h1 : "DebugSinkNode".data <:+: n.runtimeTypeName.data := by simpa using h
  have h2 : "SinkNode".data <:+: "DebugSinkNode".data := by decide
  simpa using h2.trans h1

/-- Every debug sink of the model is in the vector of nodes whose ports make the
frontier of `Prune`, whatever consumers its parents have. -/
theorem debug_sink_always_in_frontier (m : Map) (n : Node) (hn : n ∈ m.model.nodes)
    (h : n.typeNameContains "DebugSinkNode" = true) :
    n ∈ m.pruneOutputNodes ∧ ∀ p ∈ n.GetOutputPorts, p ∈ m.pruneOutputPorts :=
  ⟨sink_mem_pruneOutputNodes m n hn (debugSink_is_sink n h),
    fun _ hp => List.mem_flatMap.2 ⟨n, sink_mem_pruneOutputNodes m n hn (debugSink_is_sink n h), hp⟩⟩

/-- C8 (evaluation at the failing input): in `exDebugMap`, the map the move constructor
returns for `exDebugModel`, the debug sink is the only consumer of its only
parent and is not a declared output, `GetDebugSinkNodes` leaves it out, and
yet `Prune` puts its port in the frontier and keeps the node, because its type
name also contains `SinkNode`. -/
theorem lone_debug_sink_is_retained :
    ofModelMove plainExternals exDebugModel [("input", exInput)]
      [("output", PortElementsBase.ofPort ⟨2, 0, 2⟩)] = .ok exDebugMap ∧
    exDebugSink.typeNameContains "DebugSinkNode" = true ∧
    exDebugSink.GetParentNodes = [2] ∧
    exDebugModel.GetDependentNodes 2 = [exDebugSink] ∧
    exDebugSink ∉ exDebugMap.GetAllOutputNodes ∧
    exDebugMap.GetDebugSinkNodes = [] ∧
    exDebugSink ∈ exDebugMap.GetSinkNodes ∧
    exDebugSink ∈ exDebugMap.pruneOutputNodes ∧
    (⟨3, 0, 2⟩ : OutputPort) ∈ exDebugMap.pruneOutputPorts ∧
    exDebugSink ∈ (exDebugMap.pruned id).model.nodes := by
  refine ⟨rfl, by decide, by decide, by decide, by decide, by decide, by decide, by decide,
    by decide, by decide⟩

/-! ### The copy constructor -/

theorem foldl_AddOutput_spec (E : Externals) (f : PortElementsBase → PortElementsBase)
    (outputs : List (String × PortElementsBase)) (m : Map) :
    (outputs.foldl (fun acc output => acc.AddOutput E output.1 (f output.2)) m).outputNames =
      m.outputNames ++ outputs.map Prod.fst ∧
    (outputs.foldl (fun acc output => acc.AddOutput E output.1 (f output.2)) m).outputElements.length
      = m.outputElements.length + outputs.length ∧
    (outputs.foldl (fun acc output => acc.AddOutput E output.1 (f output.2)) m).inputNames =
      m.inputNames ∧
    (outputs.foldl (fun acc output => acc.AddOutput E output.1 (f output.2)) m).inputNodes =
      m.inputNodes := by
  induction outputs generalizing m with
  | nil => simp
  | cons o rest ih =>
    obtain ⟨h1, h2, h3, h4⟩ := ih (m.AddOutput E o.1 (f o.2))
    simp only [List.foldl_cons]
    refine ⟨?_, ?_, ?_, ?_⟩
    · rw [h1]; simp [AddOutput]
    · rw [h2]; simp [AddOutput]; omega
    · rw [h3]; simp [AddOutput]
    · rw [h4]; simp [AddOutput]

theorem copy_spec (E : Externals) (order : (V : Type) → NameMap V → List (String × V))
    (other c : Map) (h : copy E order other = .ok c) :
    c.inputNames = (order Node other.inputNodeMap).map Prod.fst ∧
    c.inputNodes = (order Node other.inputNodeMap).map
      (fun i => (E.CopyModel other.model).2.GetCorrespondingInputNode i.2) ∧
    c.outputNames = (order PortElementsBase other.outputElementsMap).map Prod.fst ∧
    c.outputElements.length = (order PortElementsBase other.outputElementsMap).length := by
  unfold copy at h
  simp only at h
  split at h
  · have hc := (Except.ok.inj h).symm
    subst hc
    obtain ⟨o1, o2, o3, o4⟩ := foldl_AddOutput_spec E
      (fun e => PortElementsBase.ofPort ((E.CopyModel other.model).2.GetCorrespondingOutputs e))
      (order PortElementsBase other.outputElementsMap)
      (addInputs (E.CopyModel other.model).2.GetCorrespondingInputNode
        (order Node other.inputNodeMap) (init (E.CopyModel other.model).1))
    obtain ⟨i1, i2, i3, i4, _⟩ := addInputs_spec
      (E.CopyModel other.model).2.GetCorrespondingInputNode
      (order Node other.inputNodeMap) (init (E.CopyModel other.model).1)
    refine ⟨?_, ?_, ?_, ?_⟩
    · rw [o3, i1]; simp [init]
    · rw [o4, i2]; simp [init]
    · rw [o1, i3]; simp [init]
    · rw [o2, i4]; simp [init]
  · cases h

/-- C9 (evaluation at the failing inputs): the copy constructor fills the positional
lists from the name-indexed maps.  For `exMap` (inputs `a`, `b`) and a map
iterated in another order than insertion, position 0 of the copy is `b` with
the second node; for `exDupMap` (two bindings named `a`, two named `y`) the
copy has one input and one output instead of two, however the map is iterated. -/
theorem copy_follows_the_name_indexed_maps :
    (∃ c, copy plainExternals (fun _ l => l.reverse) exMap = .ok c ∧
      exMap.GetInputName 0 = .ok "a" ∧ c.GetInputName 0 = .ok "b" ∧
      exMap.GetInput 0 = .ok exInput ∧ c.GetInput 0 = .ok exInput2) ∧
    (∀ (order : (V : Type) → NameMap V → List (String × V)),
      (∀ V l, (order V l).length = l.length) →
      ∀ c, copy plainExternals order exDupMap = .ok c →
        exDupMap.NumInputs = 2 ∧ c.NumInputs = 1 ∧ exDupMap.NumOutputs = 2 ∧ c.NumOutputs = 1) := by
  refine ⟨⟨_, rfl, rfl, rfl, rfl, rfl⟩, ?_⟩
  intro order horder c hc
  obtain ⟨_, h2, _, h4⟩ := copy_spec plainExternals order exDupMap c hc
  refine ⟨by decide, ?_, by decide, ?_⟩
  · unfold NumInputs
    rw [h2, List.length_map, horder]
    decide
  · unfold NumOutputs
    rw [h4, horder]
    decide

/-! ### Archive -/

theorem foldl_pair_fst {α β γ : Type} (F : α → γ → α) (G : β → γ → β) (xs : List γ) (a : α)
    (b : β) :
    (xs.foldl (fun acc x => (F acc.1 x, G acc.2 x)) (a, b)).1 = xs.foldl F a := by
  induction xs generalizing a b with
  | nil => rfl
  | cons x rest ih => simp [List.foldl_cons, ih]

theorem foldl_set_length {α : Type} (g : Nat → α) (k : Nat) (l : List α) :
    ((List.range k).foldl (fun acc i => acc.set i (g i)) l).length = l.length := by
  induction k with
  | zero => simp
  | succ k ih => simp [List.range_succ, List.foldl_append, ih]

theorem foldl_set_getElem? {α : Type} (g : Nat → α) (k : Nat) (l : List α) (j : Nat) :
    ((List.range k).foldl (fun acc i => acc.set i (g i)) l)[j]? =
      if j < k ∧ j < l.length then some (g j) else l[j]? := by
  induction k with
  | zero => simp
  | succ k ih =>
    simp only [List.range_succ, List.foldl_append, List.foldl_cons, List.foldl_nil]
    rw [List.getElem?_set]
    by_cases hjk : k = j
    · subst hjk
      simp only [if_true, foldl_set_length]
      by_cases hl : k < l.length
      · simp [hl]
      · have : l.length ≤ k := by omega
        simp [hl, List.getElem?_eq_none this]
    · rw [if_neg hjk, ih]
      by_cases h1 : j < k
      · have : j < k + 1 := by omega
        simp [h1, this]
      · have : ¬ j < k + 1 := by omega
        simp [h1, this]

theorem readInputs_nodes (resolve : NodeId → Node) (names : List String) (ids : List NodeId)
    (old : List Node) (hlen : names.length = ids.length) :
    (readInputs resolve names ids old).1 = ids.map resolve := by
  unfold readInputs
  rw [foldl_pair_fst (fun (acc : List Node) index => acc.set index (resolve (ids.getD index 0)))
    (fun (acc : NameMap Node) index =>
      acc.assign (names.getD index "") (resolve (ids.getD index 0)))]
  have hres : (resize old ids.length nullNode).length = ids.length := by
    simp [resize]; omega
  apply List.ext_getElem?
  intro j
  rw [foldl_set_getElem?, hres, hlen]
  by_cases hj : j < ids.length
  · simp [hj, List.getD_eq_getElem?_getD]
  · have h1 : ids.length ≤ j := by omega
    have h2 : (resize old ids.length nullNode).length ≤ j := by omega
    simp [hj, List.getElem?_eq_none h2, List.getElem?_eq_none, h1]

/-- C10: when `ReadFromArchive` reads what `WriteToArchive` wrote for a `Map` whose
positional lists are aligned, it returns a `Map` with the same ordered input
names, as many input nodes, the node at position `i` being the one the context
resolves the identity written at position `i` to, the same ordered output
names and the same ordered output elements. -/
theorem archive_round_trip_of_interface_lists (resolve : NodeId → Node) (m target : Map)
    (hm : m.lengthsAgree) :
    ∃ r, ReadFromArchive resolve m.WriteToArchive target = .ok r ∧
      r.inputNames = m.inputNames ∧
      r.NumInputs = m.NumInputs ∧
      r.inputNodes = m.inputNodes.map (fun n => resolve n.id) ∧
      r.outputNames = m.outputNames ∧
      r.outputElements = m.outputElements := by
  obtain ⟨hin, hout⟩ := hm
  have h1 : m.WriteToArchive.inputNames.length = m.WriteToArchive.inputIds.length := by
    simp [WriteToArchive, hin]
  have h2 : m.WriteToArchive.outputNames.length = m.WriteToArchive.outputElements.length := by
    simp [WriteToArchive, hout]
  have hnodes := readInputs_nodes resolve m.WriteToArchive.inputNames m.WriteToArchive.inputIds
    target.inputNodes h1
  simp only [ReadFromArchive, h1, h2, ne_eq, not_true_eq_false, if_false]
  refine ⟨_, rfl, rfl, ?_, ?_, rfl, rfl⟩
  · simp only [NumInputs]
    rw [hnodes]
    simp [WriteToArchive]
  · show (readInputs resolve m.WriteToArchive.inputNames m.WriteToArchive.inputIds
      target.inputNodes).1 = _
    rw [hnodes]
    simp [WriteToArchive]

/-- Witness for C10: the archive of `exMap`, read into `exDebugMap` with a context
that resolves every identity to the node of `exModel` carrying it. -/
theorem archive_round_trip_of_interface_lists_witness :
    exMap.lengthsAgree ∧
    ∃ r, ReadFromArchive (fun id => (exModel.nodesWithId id).headD nullNode)
        exMap.WriteToArchive exDebugMap = .ok r ∧
      r.inputNames = exMap.inputNames ∧
      r.NumInputs = exMap.NumInputs ∧
      r.inputNodes = exMap.inputNodes.map
        (fun n => (fun id => (exModel.nodesWithId id).headD nullNode) n.id) ∧
      r.outputNames = exMap.outputNames ∧
      r.outputElements = exMap.outputElements :=
  ⟨⟨rfl, rfl⟩, archive_round_trip_of_interface_lists
    (fun id => (exModel.nodesWithId id).headD nullNode) exMap exDebugMap ⟨rfl, rfl⟩⟩

end Map

/-! ### The dependency closure -/

namespace Model

theorem mem_closureStep (m : Model) (s : List NodeId) (x : NodeId) :
    x ∈ m.closureStep s ↔
      x ∈ s ∨ (x ∈ m.ids ∧ ∃ n ∈ m.nodes, n.id ∈ s ∧ x ∈ n.GetParentNodes) := by
  simp only [closureStep, List.mem_dedup, List.mem_append, List.mem_filter, List.mem_flatMap,
    decide_eq_true_eq]
  constructor
  · rintro (h | ⟨⟨n, ⟨hn, hs⟩, hx⟩, hid⟩)
    · exact Or.inl h
    · exact Or.inr ⟨hid, n, hn, hs, hx⟩
  · rintro (h | ⟨hid, n, hn, hs, hx⟩)
    · exact Or.inl h
    · exact Or.inr ⟨⟨n, ⟨hn, hs⟩, hx⟩, hid⟩

theorem iterate_subset_ids (m : Model) (s0 : List NodeId) (h0 : ∀ x ∈ s0, x ∈ m.ids) (k : Nat) :
    ∀ x ∈ (m.closureStep)^[k] s0, x ∈ m.ids := by
  induction k with
  | zero => simpa using h0
  | succ k ih =>
    intro x hx
    rw [Function.iterate_succ_apply'] at hx
    rcases (mem_closureStep m _ x).1 hx with h | ⟨h, _⟩
    · exact ih x h
    · exact h

theorem iterate_grows (m : Model) (s0 : List NodeId) (k j : Nat) :
    ∀ x ∈ (m.closureStep)^[k] s0, x ∈ (m.closureStep)^[k + j] s0 := by
  induction j with
  | zero => intro x hx; simpa using hx
  | succ j ih =>
    intro x hx
    rw [← Nat.add_assoc, Function.iterate_succ_apply']
    exact (mem_closureStep m _ x).2 (Or.inl (ih x hx))

theorem closureStep_stable_of_stable (m : Model) (s : List NodeId)
    (h : ∀ x ∈ m.closureStep s, x ∈ s) :
    ∀ x ∈ m.closureStep (m.closureStep s), x ∈ m.closureStep s := by
  intro x hx
  rcases (mem_closureStep m _ x).1 hx with hx1 | ⟨hid, n, hn, hs, hp⟩
  · exact hx1
  · exact (mem_closureStep m _ x).2 (Or.inr ⟨hid, n, hn, h _ hs, hp⟩)

theorem iterate_stable_or_large (m : Model) (s0 : List NodeId) (k : Nat) :
    (∀ x ∈ m.closureStep ((m.closureStep)^[k] s0), x ∈ (m.closureStep)^[k] s0) ∨
      k ≤ ((m.closureStep)^[k] s0).toFinset.card := by
  induction k with
  | zero => exact Or.inr (Nat.zero_le _)
  | succ k ih =>
    rw [Function.iterate_succ_apply']
    by_cases hfix : ∀ x ∈ m.closureStep ((m.closureStep)^[k] s0), x ∈ (m.closureStep)^[k] s0
    · exact Or.inl (closureStep_stable_of_stable m _ hfix)
    · rcases ih with h | hcard
      · exact absurd h hfix
      · right
        have hsub : ((m.closureStep)^[k] s0).toFinset ⊂
            (m.closureStep ((m.closureStep)^[k] s0)).toFinset := by
          refine Finset.ssubset_iff_subset_ne.2 ⟨?_, ?_⟩
          · intro x hx
            rw [List.mem_toFinset] at hx ⊢
            exact (mem_closureStep m _ x).2 (Or.inl hx)
          · intro heq
            apply hfix
            intro x hx
            have : x ∈ (m.closureStep ((m.closureStep)^[k] s0)).toFinset :=
              List.mem_toFinset.2 hx
            rw [← heq] at this
            exact List.mem_toFinset.1 this
        have := Finset.card_lt_card hsub
        omega

/-- The closure is closed: a parent, present in the model, of a node of the
closure is in the closure.  The rounds of `closure` are enough. -/
theorem closure_closed (m : Model) (frontier : List NodeId) :
    ∀ x ∈ m.closureStep (m.closure frontier), x ∈ m.closure frontier := by
  have h0 : ∀ x ∈ (frontier.filter (fun p => decide (p ∈ m.ids))).dedup, x ∈ m.ids := by
    intro x hx
    have := (List.mem_filter.1 (List.mem_dedup.1 hx)).2
    simpa using this
  rcases iterate_stable_or_large m ((frontier.filter (fun p => decide (p ∈ m.ids))).dedup)
    m.nodes.length with h | hcard
  · exact h
  · intro x hx
    have hsub : (m.closure frontier).toFinset ⊆ m.ids.toFinset := by
      intro y hy
      rw [List.mem_toFinset] at hy ⊢
      exact iterate_subset_ids m _ h0 _ y hy
    have hle : m.ids.toFinset.card ≤ (m.closure frontier).toFinset.card := by
      have h1 : m.ids.toFinset.card ≤ m.ids.length := List.toFinset_card_le _
      have h2 : m.ids.length = m.nodes.length := by simp [ids]
      unfold closure
      omega
    have heq := Finset.eq_of_subset_of_card_le hsub hle
    have hxid : x ∈ m.ids := by
      have := iterate_subset_ids m _ h0 (m.nodes.length + 1) x
      rw [Function.iterate_succ_apply'] at this
      exact this hx
    have : x ∈ (m.closure frontier).toFinset := by
      rw [heq]; exact List.mem_toFinset.2 hxid
    exact List.mem_toFinset.1 this

theorem frontier_subset_closure (m : Model) (frontier : List NodeId) (x : NodeId)
    (hx : x ∈ frontier) (hid : x ∈ m.ids) : x ∈ m.closure frontier := by
  have h0 : x ∈ (m.closureStep)^[0] ((frontier.filter (fun p => decide (p ∈ m.ids))).dedup) := by
    simp [List.mem_dedup, List.mem_filter, hx, hid]
  have := iterate_grows m _ 0 m.nodes.length x h0
  simpa [closure] using this

/-- Induction over the closure: a property of the frontier that passes from a
node of the closure to its parents holds on the closure. -/
theorem closure_induction (m : Model) (frontier : List NodeId) (P : NodeId → Prop)
    (hbase : ∀ x ∈ frontier, x ∈ m.ids → P x)
    (hstep : ∀ n ∈ m.nodes, n.id ∈ m.closure frontier → P n.id →
      ∀ x ∈ n.GetParentNodes, x ∈ m.ids → x ∈ m.closure frontier → P x) :
    ∀ x ∈ m.closure frontier, P x := by
  have key : ∀ k, k ≤ m.nodes.length →
      ∀ x ∈ (m.closureStep)^[k] ((frontier.filter (fun p => decide (p ∈ m.ids))).dedup), P x := by
    intro k
    induction k with
    | zero =>
      intro _ x hx
      have hx1 : x ∈ (frontier.filter (fun p => decide (p ∈ m.ids))).dedup := hx
      have := List.mem_filter.1 (List.mem_dedup.1 hx1)
      exact hbase x this.1 (by simpa using this.2)
    | succ k ih =>
      intro hk x hx
      have hin : ∀ y ∈ (m.closureStep)^[k]
          ((frontier.filter (fun p => decide (p ∈ m.ids))).dedup), y ∈ m.closure frontier := by
        intro y hy
        have := iterate_grows m _ k (m.nodes.length - k) y hy
        have hkk : k + (m.nodes.length - k) = m.nodes.length := by omega
        rw [hkk] at this
        exact this
      have hxc : x ∈ m.closure frontier := by
        have := iterate_grows m _ (k + 1) (m.nodes.length - (k + 1)) x hx
        have hkk : k + 1 + (m.nodes.length - (k + 1)) = m.nodes.length := by omega
        rw [hkk] at this
        exact this
      rw [Function.iterate_succ_apply'] at hx
      rcases (mem_closureStep m _ x).1 hx with h | ⟨hid, n, hn, hs, hp⟩
      · exact ih (by omega) x h
      · exact hstep n hn (hin _ hs) (ih (by omega) _ hs) x hp hid hxc
  exact key m.nodes.length (le_refl _)

end Model

namespace Map

/-! ### `Prune` twice -/

theorem renameNode_GetParentNodes (ren : NodeId → NodeId) (n : Node) :
    (renameNode ren n).GetParentNodes = n.GetParentNodes.map ren := by
  simp [Node.GetParentNodes, renameNode, renameElements, List.map_flatMap, List.flatMap_map,
    PortRange.referencedNode, renameRange, renamePort, Function.comp_def]

theorem renameNode_typeNameContains (ren : NodeId → NodeId) (n : Node) (name : String) :
    (renameNode ren n).typeNameContains name = n.typeNameContains name := rfl

theorem zipWith_port_node (id : NodeId) (l1 l2 : List Nat) (p : OutputPort)
    (hp : p ∈ List.zipWith (fun i s => (⟨id, i, s⟩ : OutputPort)) l1 l2) : p.node = id := by
  induction l1 generalizing l2 with
  | nil => simp at hp
  | cons a l1 ih =>
    cases l2 with
    | nil => simp at hp
    | cons b l2 =>
      rcases List.mem_cons.1 hp with rfl | h
      · rfl
      · exact ih l2 h

theorem GetOutputPorts_node (n : Node) (p : OutputPort) (hp : p ∈ n.GetOutputPorts) :
    p.node = n.id :=
  zipWith_port_node n.id _ _ p hp

theorem Prune_eq_ok (E : Externals) (m m1 : Map) (h : m.Prune E = .ok m1) :
    m1 = m.pruned E.cloneId := by
  unfold Prune at h
  by_cases hv : E.Verify (m.pruned E.cloneId).model = true
  · simp only [hv, if_true] at h
    exact (Except.ok.inj h).symm
  · simp [hv] at h

theorem GetOutputPorts_length (n : Node) : n.GetOutputPorts.length = n.outputSizes.length := by
  simp [Node.GetOutputPorts]

theorem renameNode_has_port (ren : NodeId → NodeId) (n : Node) (p : OutputPort)
    (hp : p ∈ n.GetOutputPorts) : ∃ q ∈ (renameNode ren n).GetOutputPorts, q.node = ren n.id := by
  have hlen : 0 < (renameNode ren n).GetOutputPorts.length := by
    rw [GetOutputPorts_length]
    have : 0 < n.GetOutputPorts.length := List.length_pos_of_mem hp
    rw [GetOutputPorts_length] at this
    exact this
  obtain ⟨q, hq⟩ := List.exists_mem_of_length_pos hlen
  exact ⟨q, hq, GetOutputPorts_node _ q hq⟩

theorem mem_pruned_nodes (ren : NodeId → NodeId) (m : Map) (k : Node) :
    k ∈ (m.pruned ren).model.nodes ↔
      ∃ n ∈ m.model.nodes,
        n.id ∈ m.model.closure (m.pruneOutputPorts.map (fun p => p.node)) ∧
        renameNode ren n = k := by
  simp [pruned, CopySubmodel, List.mem_map, List.mem_filter, and_assoc]

theorem pruned_outputElements (ren : NodeId → NodeId) (m : Map) :
    (m.pruned ren).outputElements = m.outputElements.map (fun e => PortElementsBase.ofPort
      (renamePort ren ((e.ranges.head?.map (fun r => r.port)).getD ⟨0, 0, 0⟩))) := rfl

theorem pruned_outputsArePorts (ren : NodeId → NodeId) (m : Map) :
    (m.pruned ren).outputsArePorts := by
  intro e he
  rw [pruned_outputElements] at he
  obtain ⟨e0, _, rfl⟩ := List.mem_map.1 he
  exact ⟨_, rfl⟩

theorem mem_pruneOutputNodes_cases (m : Map) (n : Node) (h : n ∈ m.pruneOutputNodes) :
    n ∈ m.GetAllOutputNodes ∨ (n ∈ m.model.nodes ∧ n.typeNameContains "SinkNode" = true) := by
  unfold pruneOutputNodes pruneDeclaredNodes pruneAddedSinkNodes at h
  rcases List.mem_append.1 h with h1 | h1
  · rcases List.mem_append.1 h1 with h2 | h2
    · exact Or.inl h2
    · unfold GetDebugSinkNodes at h2
      have h3 := (List.mem_filter.1 (List.mem_dedup.1 h2)).1
      have h4 := (mem_GetMatchingNodesByType m "DebugSinkNode" n).1 h3
      exact Or.inr ⟨h4.1, debugSink_is_sink n h4.2⟩
  · have h3 := (List.mem_filter.1 h1).1
    exact Or.inr ((mem_GetMatchingNodesByType m "SinkNode" n).1 h3)

theorem frontier_node_survives (ren : NodeId → NodeId) (m : Map) (hm : m.outputsArePorts)
    (n : Node) (hn : n ∈ m.pruneOutputNodes)
    (hc : n.id ∈ m.model.closure (m.pruneOutputPorts.map (fun p => p.node))) :
    renameNode ren n ∈ (m.pruned ren).pruneOutputNodes := by
  have hnodes : ∀ k ∈ m.model.nodes, k.id = n.id → renameNode ren k ∈ (m.pruned ren).model.nodes :=
    fun k hk hid => (mem_pruned_nodes ren m _).2 ⟨k, hk, by rw [hid]; exact hc, rfl⟩
  rcases mem_pruneOutputNodes_cases m n hn with h | ⟨hmem, hsink⟩
  · obtain ⟨e, he, r, hr, hmem, hid⟩ := (mem_GetAllOutputNodes m n).1 h
    obtain ⟨p0, rfl⟩ := hm e he
    have hr0 : r = ⟨p0, 0, p0.size⟩ := by simpa [PortElementsBase.ofPort] using hr
    subst hr0
    unfold pruneOutputNodes pruneDeclaredNodes
    refine List.mem_append_left _ (List.mem_append_left _ ?_)
    refine (mem_GetAllOutputNodes _ _).2
      ⟨PortElementsBase.ofPort (renamePort ren p0), ?_, ⟨renamePort ren p0, 0, p0.size⟩, ?_,
        hnodes n hmem rfl, ?_⟩
    · rw [pruned_outputElements]
      exact List.mem_map.2 ⟨PortElementsBase.ofPort p0, he, rfl⟩
    · simp [PortElementsBase.ofPort, renamePort]
    · simp only [renameNode, renamePort]
      rw [hid]
  · exact sink_mem_pruneOutputNodes _ _ (hnodes n hmem rfl)
      (by rw [renameNode_typeNameContains]; exact hsink)

theorem renamed_closure_is_retained (ren : NodeId → NodeId) (m : Map) (hm : m.outputsArePorts) :
    ∀ x ∈ m.model.closure (m.pruneOutputPorts.map (fun p => p.node)),
      ren x ∈ (m.pruned ren).model.closure
        ((m.pruned ren).pruneOutputPorts.map (fun p => p.node)) := by
  have hids : ∀ x, x ∈ m.model.ids →
      x ∈ m.model.closure (m.pruneOutputPorts.map (fun p => p.node)) →
      ren x ∈ (m.pruned ren).model.ids := by
    intro x hx hc
    obtain ⟨k, hk, rfl⟩ := List.mem_map.1 hx
    exact List.mem_map.2 ⟨renameNode ren k, (mem_pruned_nodes ren m _).2 ⟨k, hk, hc, rfl⟩, rfl⟩
  apply Model.closure_induction
  · intro x hx hid
    obtain ⟨p, hp, rfl⟩ := List.mem_map.1 hx
    obtain ⟨n, hn, hpn⟩ := List.mem_flatMap.1 hp
    have hpid : p.node = n.id := GetOutputPorts_node n p hpn
    have hc : p.node ∈ m.model.closure (m.pruneOutputPorts.map (fun p => p.node)) :=
      Model.frontier_subset_closure _ _ _ hx hid
    have hn1 := frontier_node_survives ren m hm n hn (by rw [← hpid]; exact hc)
    obtain ⟨q, hq, hqid⟩ := renameNode_has_port ren n p hpn
    apply Model.frontier_subset_closure
    · refine List.mem_map.2 ⟨q, List.mem_flatMap.2 ⟨_, hn1, hq⟩, ?_⟩
      rw [hqid, hpid]
    · exact hids _ hid hc
  · intro n hn hnc hPn x hx hid hxc
    apply Model.closure_closed
    refine (Model.mem_closureStep _ _ _).2 (Or.inr ⟨hids x hid hxc, renameNode ren n,
      (mem_pruned_nodes ren m _).2 ⟨n, hn, hnc, rfl⟩, hPn, ?_⟩)
    rw [renameNode_GetParentNodes]
    exact List.mem_map.2 ⟨x, hx, rfl⟩

/-- C6: for a `Map` whose recorded outputs are whole ports, a second `Prune` drops no
node: the nodes it keeps are exactly the clones of the nodes kept by the first
`Prune`, in the same order.  `ren1` and `ren2` are the identities the two
copies give to their clones; the same holds for `Prune` with its final
`Verify`, whenever both calls return. -/
theorem prune_twice_keeps_the_retained_nodes (ren1 ren2 : NodeId → NodeId) (m : Map)
    (hm : m.outputsArePorts) :
    ((m.pruned ren1).pruned ren2).model.nodes =
      (m.pruned ren1).model.nodes.map (renameNode ren2) ∧
    (∀ k ∈ (m.pruned ren1).model.nodes,
      k.id ∈ (m.pruned ren1).model.closure
        ((m.pruned ren1).pruneOutputPorts.map (fun p => p.node))) ∧
    (∀ (E1 E2 : Externals) (m1 m2 : Map), m.Prune E1 = .ok m1 → m1.Prune E2 = .ok m2 →
      m2.model.nodes = m1.model.nodes.map (renameNode E2.cloneId)) := by
  have hall : ∀ (ren : NodeId → NodeId), ∀ k ∈ (m.pruned ren).model.nodes,
      k.id ∈ (m.pruned ren).model.closure
        ((m.pruned ren).pruneOutputPorts.map (fun p => p.node)) := by
    intro ren k hk
    obtain ⟨n, _, hc, rfl⟩ := (mem_pruned_nodes ren m k).1 hk
    exact renamed_closure_is_retained ren m hm n.id hc
  have hnodes : ∀ (ren ren' : NodeId → NodeId), ((m.pruned ren).pruned ren').model.nodes =
      (m.pruned ren).model.nodes.map (renameNode ren') := by
    intro ren ren'
    have hfilter : (m.pruned ren).model.nodes.filter (fun n => decide (n.id ∈
        (m.pruned ren).model.closure ((m.pruned ren).pruneOutputPorts.map (fun p => p.node)))) =
        (m.pruned ren).model.nodes :=
      List.filter_eq_self.2 (fun k hk => by simpa using hall ren k hk)
    show ((m.pruned ren).model.nodes.filter _).map (renameNode ren') = _
    rw [hfilter]
  refine ⟨hnodes ren1 ren2, hall ren1, ?_⟩
  intro E1 E2 m1 m2 h1 h2
  have e1 : m1 = m.pruned E1.cloneId := Prune_eq_ok E1 m m1 h1
  have e2 : m2 = m1.pruned E2.cloneId := Prune_eq_ok E2 m1 m2 h2
  rw [e2, e1]
  exact hnodes _ _

/-- Witness for C6: `exUnusedMap`, pruned with the identities kept (which drops two
of its three nodes) and then with the identities shifted by 10. -/
theorem prune_twice_keeps_the_retained_nodes_witness :
    exUnusedMap.outputsArePorts ∧
    exUnusedMap.model.nodes.length = 3 ∧
    (exUnusedMap.pruned id).model.nodes = [exInput] ∧
    ((exUnusedMap.pruned id).pruned exShift).model.nodes =
      (exUnusedMap.pruned id).model.nodes.map (renameNode exShift) :=
  have hports : exUnusedMap.outputsArePorts := by
    intro e he
    have : e = PortElementsBase.ofPort ⟨0, 0, 2⟩ := by simpa [exUnusedMap] using he
    exact ⟨_, this⟩
  ⟨hports, by decide, by decide,
    (prune_twice_keeps_the_retained_nodes id exShift exUnusedMap hports).1⟩

/-! ### Archive round trip of the name-indexed maps -/

theorem foldl_pair_snd {α β γ : Type} (F : α → γ → α) (G : β → γ → β) (xs : List γ) (a : α)
    (b : β) :
    (xs.foldl (fun acc x => (F acc.1 x, G acc.2 x)) (a, b)).2 = xs.foldl G b := by
  induction xs generalizing a b with
  | nil => rfl
  | cons x rest ih => simp [List.foldl_cons, ih]

theorem getElem_not_mem_take (names : List String) (hn : names.Nodup) (k : Nat)
    (hk : k < names.length) : names[k] ∉ names.take k := by
  intro hmem
  obtain ⟨j, hj, hjk⟩ := List.mem_iff_getElem.1 hmem
  have hj1 : j < k := by
    have := hj
    simp at this
    omega
  rw [List.getElem_take] at hjk
  have := (List.Nodup.getElem_inj_iff hn).1 hjk
  omega

theorem foldl_assign_zip {V : Type} (names : List String) (vals : Nat → V) (hn : names.Nodup)
    (k : Nat) (hk : k ≤ names.length) :
    (List.range k).foldl (fun acc i => NameMap.assign acc (names.getD i "") (vals i)) [] =
      (names.take k).zip ((List.range k).map vals) := by
  induction k with
  | zero => simp
  | succ k ih =>
    have hlt : k < names.length := by omega
    rw [List.range_succ, List.foldl_append, ih (by omega)]
    simp only [List.foldl_cons, List.foldl_nil]
    have hget : names.getD k "" = names[k] := by
      simp [List.getD_eq_getElem?_getD, List.getElem?_eq_getElem hlt]
    rw [hget]
    unfold NameMap.assign
    rw [NameMap_find_zip_none _ _ _ (getElem_not_mem_take names hn k hlt)]
    simp only [Option.isSome_none, Bool.false_eq_true, if_false]
    rw [List.take_succ, List.getElem?_eq_getElem hlt, List.map_append]
    simp only [Option.toList_some, List.map_cons, List.map_nil]
    rw [List.zip_append (by simp; omega)]
    simp

theorem map_range_getD {α β : Type} (l : List α) (d : α) (f : α → β) :
    (List.range l.length).map (fun i => f (l.getD i d)) = l.map f := by
  apply List.ext_getElem?
  intro j
  by_cases hj : j < l.length
  · simp [hj, List.getD_eq_getElem?_getD, List.getElem?_eq_getElem hj]
  · have : l.length ≤ j := by omega
    simp [List.getElem?_eq_none, this]

theorem readInputs_map (resolve : NodeId → Node) (names : List String) (ids : List NodeId)
    (old : List Node) (hn : names.Nodup) (hlen : names.length = ids.length) :
    (readInputs resolve names ids old).2 = names.zip (ids.map resolve) := by
  unfold readInputs
  rw [foldl_pair_snd (fun (acc : List Node) index => acc.set index (resolve (ids.getD index 0)))
    (fun (acc : NameMap Node) index =>
      acc.assign (names.getD index "") (resolve (ids.getD index 0)))]
  rw [foldl_assign_zip names (fun i => resolve (ids.getD i 0)) hn names.length (le_refl _)]
  rw [List.take_length, hlen, map_range_getD ids 0 resolve]

theorem readOutputs_map (names : List String) (elements : List PortElementsBase)
    (hn : names.Nodup) (hlen : names.length = elements.length) :
    readOutputs names elements = names.zip elements := by
  unfold readOutputs
  rw [foldl_assign_zip names (fun i => elements.getD i ⟨[]⟩) hn names.length (le_refl _)]
  rw [List.take_length, hlen]
  have := map_range_getD elements ⟨[]⟩ id
  simp only [id] at this
  rw [this, List.map_id]

theorem Built_lengths (E : Externals) (m : Map) (h : Built E m) : m.lengthsAgree := by
  induction h with
  | init model => exact ⟨rfl, rfl⟩
  | addInput m name node _ ih => exact ⟨by simp [AddInput, ih.1], by simpa [AddInput] using ih.2⟩
  | addOutput m name e _ ih => exact ⟨by simpa [AddOutput] using ih.1, by simp [AddOutput, ih.2]⟩

theorem Built_aligned (E : Externals) (m : Map) (h : Built E m) :
    (m.inputNames.Nodup → m.inputNodeMap = m.inputNames.zip m.inputNodes) ∧
    (m.outputNames.Nodup → m.outputElementsMap = m.outputNames.zip m.outputElements) := by
  induction h with
  | init model => exact ⟨fun _ => rfl, fun _ => rfl⟩
  | addInput m name node hb ih =>
    refine ⟨?_, ?_⟩
    · intro hn
      have hn1 : (m.inputNames ++ [name]).Nodup := hn
      have hparts := List.nodup_append.1 hn1
      have hfresh : name ∉ m.inputNames := fun hmem => hparts.2.2 hmem (by simp)
      show NameMap.insert m.inputNodeMap name node = (m.inputNames ++ [name]).zip (m.inputNodes ++ [node])
      rw [ih.1 hparts.1]
      exact NameMap_insert_zip _ _ _ _ hfresh (Built_lengths E m hb).1
    · intro hn
      exact ih.2 hn
  | addOutput m name e hb ih =>
    refine ⟨?_, ?_⟩
    · intro hn
      exact ih.1 hn
    · intro hn
      have hn1 : (m.outputNames ++ [name]).Nodup := hn
      have hparts := List.nodup_append.1 hn1
      have hfresh : name ∉ m.outputNames := fun hmem => hparts.2.2 hmem (by simp)
      show NameMap.insert m.outputElementsMap name _ =
        (m.outputNames ++ [name]).zip (m.outputElements ++ [_])
      rw [ih.2 hparts.1]
      exact NameMap_insert_zip _ _ _ _ hfresh (Built_lengths E m hb).2

theorem NameMap_find_mapValues {V : Type} (f : V → V) (m : NameMap V) (k : String) :
    NameMap.find (NameMap.mapValues f m) k = (NameMap.find m k).map f := by
  unfold NameMap.find NameMap.mapValues
  induction m with
  | nil => rfl
  | cons e rest ih =>
    by_cases hk : e.1 = k
    · simp [List.find?_cons, hk]
    · simp only [List.map_cons, List.find?_cons]
      have h2 : (e.1 == k) = false := by simpa using hk
      rw [h2]
      exact ih

/-- C11 (as amended): for a `Map` built through `AddInput` and `AddOutput` under pairwise
distinct input names and pairwise distinct output names, after
`ReadFromArchive` of what `WriteToArchive` wrote the name-indexed maps are the
original ones up to node identity: `GetInput(name)` succeeds for exactly the
same names and returns the node the context resolves the original node's
identity to, and `GetOutput(name)` returns what it returned before. -/
theorem archive_round_trip_of_lookup_by_name (E : Externals) (resolve : NodeId → Node)
    (m target : Map) (hb : Built E m) (hin : m.inputNames.Nodup) (hout : m.outputNames.Nodup) :
    ∃ r, ReadFromArchive resolve m.WriteToArchive target = .ok r ∧
      r.inputNodeMap = NameMap.mapValues (fun n => resolve n.id) m.inputNodeMap ∧
      r.outputElementsMap = m.outputElementsMap ∧
      (∀ name, r.GetInputByName name =
        match m.GetInputByName name with
        | .ok node => .ok (resolve node.id)
        | .error e => .error e) ∧
      (∀ name, r.GetOutputByName name = m.GetOutputByName name) := by
  obtain ⟨hl1, hl2⟩ := Built_lengths E m hb
  obtain ⟨ha1, ha2⟩ := Built_aligned E m hb
  have h1 : m.WriteToArchive.inputNames.length = m.WriteToArchive.inputIds.length := by
    simp [WriteToArchive, hl1]
  have h2 : m.WriteToArchive.outputNames.length = m.WriteToArchive.outputElements.length := by
    simp [WriteToArchive, hl2]
  have hmapIn : (readInputs resolve m.WriteToArchive.inputNames m.WriteToArchive.inputIds
      target.inputNodes).2 = NameMap.mapValues (fun n => resolve n.id) m.inputNodeMap := by
    rw [readInputs_map resolve m.WriteToArchive.inputNames m.WriteToArchive.inputIds
      target.inputNodes hin h1, ha1 hin, NameMap_mapValues_zip]
    simp [WriteToArchive, Function.comp_def]
  have hmapOut : readOutputs m.WriteToArchive.outputNames m.WriteToArchive.outputElements =
      m.outputElementsMap := by
    rw [readOutputs_map m.WriteToArchive.outputNames m.WriteToArchive.outputElements hout h2,
      ha2 hout]
    rfl
  simp only [ReadFromArchive, h1, h2, ne_eq, not_true_eq_false, if_false]
  refine ⟨_, rfl, hmapIn, hmapOut, ?_, ?_⟩
  · intro name
    simp only [GetInputByName]
    rw [hmapIn, NameMap_find_mapValues]
    cases NameMap.find m.inputNodeMap name <;> rfl
  · intro name
    simp only [GetOutputByName]
    rw [hmapOut]

/-- Witness for C11 (as amended): the map built with inputs `a`, `b` and output `sum`. -/
theorem archive_round_trip_of_lookup_by_name_witness :
    Built plainExternals exBuilt ∧ exBuilt.inputNames.Nodup ∧ exBuilt.outputNames.Nodup ∧
    ∃ r, ReadFromArchive exResolve exBuilt.WriteToArchive exDebugMap = .ok r ∧
      r.inputNodeMap = NameMap.mapValues (fun n => exResolve n.id) exBuilt.inputNodeMap ∧
      r.outputElementsMap = exBuilt.outputElementsMap ∧
      (∀ name, r.GetInputByName name =
        match exBuilt.GetInputByName name with
        | .ok node => .ok (exResolve node.id)
        | .error e => .error e) ∧
      (∀ name, r.GetOutputByName name = exBuilt.GetOutputByName name) :=
  have hb : Built plainExternals exBuilt :=
    Built.addOutput _ _ _ (Built.addInput _ _ _ (Built.addInput _ _ _ (Built.init exModel)))
  ⟨hb, by decide, by decide,
    archive_round_trip_of_lookup_by_name plainExternals exResolve exBuilt exDebugMap hb
      (by decide) (by decide)⟩

/-- Counterexample for C11 as stated: for the map built with two inputs named `a` and
two outputs named `y`, the original finds the first binding under the name and
the map read back from the archive finds the last one. -/
theorem archive_round_trip_changes_repeated_names :
    Built plainExternals exDupBuilt ∧
    (∃ r, ReadFromArchive exResolve exDupBuilt.WriteToArchive exDebugMap = .ok r ∧
      exDupBuilt.GetInputByName "a" = .ok exInput ∧
      r.GetInputByName "a" = .ok exInput2 ∧
      exResolve exInput.id = exInput ∧ exInput ≠ exInput2 ∧
      exDupBuilt.GetOutputByName "y" = .ok exSumOutput ∧
      r.GetOutputByName "y" = .ok (PortElementsBase.ofPort ⟨0, 0, 2⟩) ∧
      exSumOutput ≠ PortElementsBase.ofPort ⟨0, 0, 2⟩) :=
  ⟨Built.addOutput _ _ _ (Built.addOutput _ _ _
      (Built.addInput _ _ _ (Built.addInput _ _ _ (Built.init exModel)))),
    ⟨_, rfl, rfl, rfl, by decide, by decide, rfl, rfl, by decide⟩⟩

/-! ### Archive versions -/

/-- C12: `GetArchiveVersion` returns the with-metadata version exactly when the metadata
is non-empty and the no-metadata version otherwise, `WriteToArchive` writes a
`metadata` section exactly when that version is the with-metadata one, and
`CanReadArchiveVersion` accepts both versions, hence the version of every
`Map`.  The numbers of the two versions are any two with `v2` below
`v3_model_metadata`. -/
theorem archive_version_follows_metadata (V : ArchiveVersionNumbers)
    (hV : V.v2 < V.v3_model_metadata) (m : Map) :
    (m.GetArchiveVersion V = metadataArchiveVersion V ↔ m.metadata ≠ []) ∧
    (m.GetArchiveVersion V = noMetadataArchiveVersion V ↔ m.metadata = []) ∧
    (m.WriteToArchive.metadata.isSome = true ↔
      m.GetArchiveVersion V = metadataArchiveVersion V) ∧
    (m.WriteToArchive.metadata = none ↔ m.GetArchiveVersion V = noMetadataArchiveVersion V) ∧
    m.CanReadArchiveVersion V (noMetadataArchiveVersion V) = true ∧
    m.CanReadArchiveVersion V (metadataArchiveVersion V) = true ∧
    m.CanReadArchiveVersion V (m.GetArchiveVersion V) = true := by
  have hne : noMetadataArchiveVersion V ≠ metadataArchiveVersion V := by
    intro h
    have := congrArg ArchiveVersion.versionNumber h
    simp only [noMetadataArchiveVersion, metadataArchiveVersion] at this
    omega
  have hno : m.CanReadArchiveVersion V (noMetadataArchiveVersion V) = true := by
    simp [CanReadArchiveVersion, noMetadataArchiveVersion, metadataArchiveVersion]
    omega
  have hyes : m.CanReadArchiveVersion V (metadataArchiveVersion V) = true := by
    simp [CanReadArchiveVersion, noMetadataArchiveVersion, metadataArchiveVersion]
    omega
  cases hmeta : m.metadata with
  | nil =>
    have hv : m.GetArchiveVersion V = noMetadataArchiveVersion V := by
      simp [GetArchiveVersion, hmeta]
    refine ⟨?_, ?_, ?_, ?_, hno, hyes, by rw [hv]; exact hno⟩
    · rw [hv]; simp [hne]
    · rw [hv]; simp
    · rw [hv]; simp [WriteToArchive, hmeta, hne]
    · rw [hv]; simp [WriteToArchive, hmeta]
  | cons e rest =>
    have hv : m.GetArchiveVersion V = metadataArchiveVersion V := by
      simp [GetArchiveVersion, hmeta]
    refine ⟨?_, ?_, ?_, ?_, hno, hyes, by rw [hv]; exact hyes⟩
    · rw [hv]; simp
    · rw [hv]; simp [hne.symm]
    · rw [hv]; simp [WriteToArchive, hmeta]
    · rw [hv]; simp [WriteToArchive, hmeta, hne.symm]

/-- Witness for C12: versions 2 and 3, on a map with one metadata entry. -/
theorem archive_version_follows_metadata_witness :
    exVersions.v2 < exVersions.v3_model_metadata ∧
    exMetadataMap.GetArchiveVersion exVersions = ⟨3⟩ ∧
    exMetadataMap.WriteToArchive.metadata.isSome = true ∧
    exMetadataMap.CanReadArchiveVersion exVersions (exMetadataMap.GetArchiveVersion exVersions)
      = true :=
  have h := archive_version_follows_metadata exVersions (by decide) exMetadataMap
  ⟨by decide, h.1.2 (by decide), h.2.2.1.2 (h.1.2 (by decide)), h.2.2.2.2.2.2⟩

/-! ### Input introspection -/

/-- C13: `GetInputShape(i)` is the shape of the source node at index `i` when the model
has one, and otherwise what `GetInput(i)` leads to: the shape of the input node
at position `i`, or `InputException(invalidArgument)` when `i` is at or past
`NumInputs()`; and `GetInputSize(i)` is the number of elements of
`GetInputShape(i)`, failing exactly as it does. -/
theorem input_shape_prefers_source_nodes (IsSourceNode : Node → Bool)
    (GetShape : Node → MemoryShape) (m : Map) (i : Nat) :
    (∀ h : i < (m.GetSourceNodes IsSourceNode).length,
      m.GetInputShape IsSourceNode GetShape i =
        .ok (GetShape ((m.GetSourceNodes IsSourceNode).get ⟨i, h⟩))) ∧
    ((m.GetSourceNodes IsSourceNode).length ≤ i → ∀ h : i < m.NumInputs,
      m.GetInputShape IsSourceNode GetShape i = .ok (GetShape (m.inputNodes.get ⟨i, h⟩))) ∧
    ((m.GetSourceNodes IsSourceNode).length ≤ i → m.NumInputs ≤ i →
      m.GetInputShape IsSourceNode GetShape i = .error (.InputException .invalidArgument)) ∧
    (m.GetInputSize IsSourceNode GetShape i =
      match m.GetInputShape IsSourceNode GetShape i with
      | .ok shape => .ok shape.NumElements
      | .error e => .error e) := by
  refine ⟨?_, ?_, ?_, ?_⟩
  · intro h
    simp [GetInputShape, h]
  · intro hs h
    have h1 : ¬ i < (m.GetSourceNodes IsSourceNode).length := by omega
    have h2 : ¬ i ≥ m.inputNodes.length := by
      unfold NumInputs at h
      omega
    simp [GetInputShape, h1, GetInput, h2]
  · intro hs h
    have h1 : ¬ i < (m.GetSourceNodes IsSourceNode).length := by omega
    have h2 : i ≥ m.inputNodes.length := h
    simp [GetInputShape, h1, GetInput, h2]
  · by_cases h : i < (m.GetSourceNodes IsSourceNode).length
    · simp [GetInputSize, GetInputShape, h]
    · simp only [GetInputSize, h, dif_neg, not_false_eq_true]
      cases m.GetInputShape IsSourceNode GetShape i <;> rfl

/-- Witness for C13: on `exSourceMap`, index 0 reports the source node and index 1 the
second input node. -/
theorem input_shape_prefers_source_nodes_witness :
    exSourceMap.GetInputShape exIsSourceNode exGetShape 0 = .ok [5] ∧
    exSourceMap.GetInputShape exIsSourceNode exGetShape 1 = .ok [2] ∧
    exSourceMap.GetInputShape exIsSourceNode exGetShape 2
      = .error (.InputException .invalidArgument) ∧
    exSourceMap.GetInputSize exIsSourceNode exGetShape 0 = .ok 5 :=
  have h0 := input_shape_prefers_source_nodes exIsSourceNode exGetShape exSourceMap 0
  have h1 := input_shape_prefers_source_nodes exIsSourceNode exGetShape exSourceMap 1
  have h2 := input_shape_prefers_source_nodes exIsSourceNode exGetShape exSourceMap 2
  ⟨h0.1 (by decide), h1.2.1 (by decide) (by decide), h2.2.2.1 (by decide) (by decide),
    h0.2.2.2.trans rfl⟩

end Map

/-! ## Properties of the convolution nodes -/

namespace nodes

namespace SimpleConvolutionNode

/-- C14 (as amended): refining a `SimpleConvolutionNode` returns `true` and adds exactly two
nodes: a constant node holding the filter weights flattened in (row, column),
channel order, and a compute node wired to the transformed input and to the
constant's output, with the original's layouts, stride and depthwise flag and
with `filterSize` the column count of the weights converted to `int`, which is
the column count when it is below `2 ^ 31`; the original's output is mapped to
the compute node's output. -/
theorem refine_adds_constant_and_compute_node {R : Type} (n : SimpleConvolutionNode R)
    (t : TransformerState R) :
    (n.Refine t).1 = true ∧
    (n.Refine t).2.added = t.added ++
      [AddedNode.constant ⟨t.nextId, n.filterWeights.ToArray⟩,
       AddedNode.convolutionCompute
        { id := t.nextId + 1
          input := t.TransformPortElements n.input
          filterWeights := PortElementsBase.ofPort ⟨t.nextId, 0, n.filterWeights.ToArray.length⟩
          outputSize := GetOutputSize n.outputMemoryLayout
          inputMemoryLayout := n.inputMemoryLayout
          outputMemoryLayout := n.outputMemoryLayout
          filterSize := toInt32 n.filterWeights.NumColumns
          stride := n.stride
          isDepthwiseSeparable := n.isDepthwiseSeparable }] ∧
    (n.filterWeights.NumColumns < 2 ^ 31 →
      toInt32 n.filterWeights.NumColumns = (n.filterWeights.NumColumns : Int)) ∧
    (n.Refine t).2.outputMap = t.outputMap ++
      [(n.output, ⟨t.nextId + 1, 0, GetOutputSize n.outputMemoryLayout⟩)] ∧
    (n.Refine t).2.nextId = t.nextId + 2 := by
  refine ⟨rfl, ?_, ?_, rfl, rfl⟩
  · simp [Refine, TransformerState.AddConstantNode,
      TransformerState.AddSimpleConvolutionComputeNode, TransformerState.MapNodeOutput,
      SimpleConvolutionComputeNode.create, ConstantNode.output]
  · intro h
    unfold toInt32
    omega

/-- Witness for C14 (as amended): refining `exConvolution` gives a compute node with filter size 3. -/
theorem refine_adds_constant_and_compute_node_witness :
    (exConvolution.Refine exTransformer).1 = true ∧
    exConvolution.filterWeights.NumColumns < 2 ^ 31 ∧
    toInt32 exConvolution.filterWeights.NumColumns = 3 ∧
    (exConvolution.Refine exTransformer).2.nextId = 12 :=
  have h := refine_adds_constant_and_compute_node exConvolution exTransformer
  ⟨h.1, by decide, h.2.2.1 (by decide), h.2.2.2.2⟩

/-- Counterexample for C14 as stated: for weights with `2 ^ 31` columns the compute
node gets `filterSize = -2 ^ 31`, which is not the column count. -/
theorem refine_filter_size_wraps :
    exWideConvolution.filterWeights.NumColumns = 2 ^ 31 ∧
    ∃ c, (exWideConvolution.Refine exTransformer).2.added.getLast? =
        some (AddedNode.convolutionCompute c) ∧
      c.filterSize = -2147483648 ∧
      c.filterSize ≠ (exWideConvolution.filterWeights.NumColumns : Int) :=
  ⟨rfl, _, rfl, by decide, by decide⟩

/-- C15: the depthwise-separable flag set by the constructor is true exactly when the
weights have one channel and the input layout has more than one active
channel (dimension 2); `ReadFromArchive` of what `WriteToArchive` wrote gives
the same flag, and so does `Copy`, for a constructed node and for a node read
from an archive. -/
theorem depthwise_flag_is_determined_by_weights_and_layout {R : Type} (id : NodeId)
    (input : PortElementsBase) (inputMemoryLayout outputMemoryLayout : PortMemoryLayout)
    (filterWeights : Tensor R) (stride : Nat) (other : SimpleConvolutionNode R)
    (archive : Archive R) (t : TransformerState R) :
    ((create id input inputMemoryLayout outputMemoryLayout filterWeights stride).isDepthwiseSeparable
      = true ↔ filterWeights.NumChannels = 1 ∧ inputMemoryLayout.size.getD 2 0 > 1) ∧
    (other.ReadFromArchive
        (create id input inputMemoryLayout outputMemoryLayout filterWeights stride).WriteToArchive
      ).isDepthwiseSeparable =
      (create id input inputMemoryLayout outputMemoryLayout filterWeights stride).isDepthwiseSeparable ∧
    ((other.ReadFromArchive archive).isDepthwiseSeparable = true ↔
      archive.weights.NumChannels = 1 ∧ archive.inputLayout.size.getD 2 0 > 1) ∧
    (∃ c, ((create id input inputMemoryLayout outputMemoryLayout filterWeights stride).Copy t).added
        = t.added ++ [AddedNode.convolution c] ∧
      c.isDepthwiseSeparable =
        (create id input inputMemoryLayout outputMemoryLayout filterWeights stride).isDepthwiseSeparable)
    ∧
    (∃ c, ((other.ReadFromArchive archive).Copy t).added = t.added ++ [AddedNode.convolution c] ∧
      c.isDepthwiseSeparable = (other.ReadFromArchive archive).isDepthwiseSeparable) := by
  refine ⟨?_, rfl, ?_, ⟨_, rfl, rfl⟩, ⟨_, rfl, rfl⟩⟩
  · simp [create]
  · simp [ReadFromArchive]

/-- Witness for C15: the flag of the one-channel example is false, that of the
two-channel example with one-channel filters is true. -/
theorem depthwise_flag_is_determined_by_weights_and_layout_witness :
    exConvolution.isDepthwiseSeparable = false ∧
    exDepthwiseConvolution.isDepthwiseSeparable = true ∧
    (exConvolution.ReadFromArchive exDepthwiseConvolution.WriteToArchive).isDepthwiseSeparable
      = exDepthwiseConvolution.isDepthwiseSeparable :=
  ⟨by decide, by decide,
    (depthwise_flag_is_determined_by_weights_and_layout 4 (PortElementsBase.ofPort ⟨0, 0, 98⟩)
      exPaddedLayout2 exOutputLayout2 exDepthwiseFilter 1 exConvolution
      exDepthwiseConvolution.WriteToArchive exTransformer).2.1⟩

/-- C19: `Compute` of a `SimpleConvolutionNode` and of a `SimpleConvolutionComputeNode`
fails with `LogicException(notImplemented)` whatever the node holds, and so
returns no values. -/
theorem compute_is_not_implemented {R : Type} (n : SimpleConvolutionNode R)
    (c : SimpleConvolutionComputeNode) :
    n.Compute = .error (.LogicException .notImplemented) ∧
    (c.Compute : Except Exception (List R)) = .error (.LogicException .notImplemented) ∧
    (∀ values : List R, n.Compute ≠ .ok values) ∧
    (∀ values : List R, (c.Compute : Except Exception (List R)) ≠ .ok values) := by
  refine ⟨rfl, rfl, ?_, ?_⟩
  · intro values h
    cases h
  · intro values h
    cases h

end SimpleConvolutionNode

/-! ### The emitted convolution code -/

section emitted

variable {R : Type} [CommSemiring R]

theorem foldl_range_add (g : Nat → R) (n : Nat) (init : R) :
    (List.range n).foldl (fun acc t => acc + g t) init = init + ∑ t ∈ Finset.range n, g t := by
  induction n with
  | zero => simp
  | succ n ih =>
    rw [List.range_succ, List.foldl_append, ih, Finset.sum_range_succ]
    simp [add_assoc]

theorem DotProduct_eq_sum (size : Nat) (a b : Nat → R) :
    emitters.DotProduct size a b = ∑ t ∈ Finset.range size, a t * b t := by
  unfold emitters.DotProduct
  rw [foldl_range_add]
  simp

theorem windowColumns_eq_sum (input filterWeights : Nat → R) (inc : MemoryShape)
    (d k s f r c wr : Nat) (val : R) :
    windowColumns input filterWeights inc d k s f r c wr val =
      val + ∑ wc ∈ Finset.range k, ∑ ch ∈ Finset.range d,
        input ((r * s + wr) * inc.getD 0 0 + (c * s + wc) * inc.getD 1 0 + ch) *
          filterWeights (f * k * k * d + (wr * k + wc) * d + ch) := by
  unfold windowColumns
  simp only [DotProduct_eq_sum, emitters.PointerOffset]
  rw [foldl_range_add]
  congr 1
  apply Finset.sum_congr rfl
  intro wc _
  apply Finset.sum_congr rfl
  intro ch _
  congr 2
  ring

theorem windowRowValue_general (input filterWeights : Nat → R) (inc : MemoryShape)
    (d k s f r c wr : Nat) (val : R) :
    windowRowValue input filterWeights inc false d k s f r c wr val =
      val + ∑ wc ∈ Finset.range k, ∑ ch ∈ Finset.range d,
        input ((r * s + wr) * inc.getD 0 0 + (c * s + wc) * inc.getD 1 0 + ch) *
          filterWeights (f * k * k * d + (wr * k + wc) * d + ch) := by
  simp only [windowRowValue, Bool.false_eq_true, if_false]
  exact windowColumns_eq_sum input filterWeights inc d k s f r c wr val

theorem windowRowValue_combined (input filterWeights : Nat → R) (inc : MemoryShape)
    (d k s f r c wr : Nat) (val : R) :
    windowRowValue input filterWeights inc true d k s f r c wr val =
      val + ∑ t ∈ Finset.range (k * d),
        input ((r + wr) * inc.getD 0 0 + c * inc.getD 1 0 + t) *
          filterWeights (d * (k * wr) + f * (k * k * d) + t) := by
  simp only [windowRowValue, if_true, DotProduct_eq_sum, emitters.PointerOffset]

theorem windowRowValue_add (input filterWeights : Nat → R) (inc : MemoryShape) (combine : Bool)
    (d k s f r c wr : Nat) (val : R) :
    windowRowValue input filterWeights inc combine d k s f r c wr val =
      val + windowRowValue input filterWeights inc combine d k s f r c wr 0 := by
  cases combine
  · rw [windowRowValue_general, windowRowValue_general]
    simp
  · rw [windowRowValue_combined, windowRowValue_combined]
    simp

/-- The loop over the window rows leaves the running sum in the output entry: after
the first window row every store overwrites the same entry. -/
theorem foldl_store_running_sum (g : Nat → R → R) (hg : ∀ w val, g w val = val + g w 0)
    (a : Nat) (n : Nat) (result : Nat → R) :
    (List.range n).foldl
      (fun (state : R × (Nat → R)) w => (g w state.1, Function.update state.2 a (g w state.1)))
      (0, result) =
    (∑ w ∈ Finset.range n, g w 0,
      if n = 0 then result else Function.update result a (∑ w ∈ Finset.range n, g w 0)) := by
  induction n with
  | zero => simp
  | succ n ih =>
    rw [List.range_succ, List.foldl_append, ih]
    simp only [List.foldl_cons, List.foldl_nil, Finset.sum_range_succ, Nat.succ_ne_zero, if_false]
    rw [hg n (∑ w ∈ Finset.range n, g w 0)]
    by_cases hn : n = 0
    · simp [hn]
    · simp [hn]

theorem convolutionEntry_eq (input filterWeights : Nat → R) (inc : MemoryShape) (combine : Bool)
    (outputDims : MemoryShape) (d k s f r c : Nat) (hk : 1 ≤ k) (result : Nat → R) :
    convolutionEntry input filterWeights inc combine outputDims d k s f r c result =
      Function.update result (emitters.tensorIndex outputDims r c f)
        (∑ wr ∈ Finset.range k, windowRowValue input filterWeights inc combine d k s f r c wr 0) := by
  unfold convolutionEntry
  have h := foldl_store_running_sum
    (fun wr val => windowRowValue input filterWeights inc combine d k s f r c wr val)
    (fun wr val => windowRowValue_add input filterWeights inc combine d k s f r c wr val)
    (emitters.tensorIndex outputDims r c f) k result
  simp only at h
  rw [h]
  have hk0 : k ≠ 0 := by omega
  simp [hk0]

end emitted

theorem foldl_flatMap_eq {α β γ : Type} (l : List α) (g : α → List β) (f : γ → β → γ) (b : γ) :
    (l.flatMap g).foldl f b = l.foldl (fun b x => (g x).foldl f b) b := by
  induction l generalizing b with
  | nil => rfl
  | cons x xs ih => simp [List.flatMap_cons, List.foldl_append, ih]

theorem foldl_update_keeps {R ι : Type} (addr : ι → Nat) (v : ι → R) (l : List ι) (b : Nat → R)
    (a : Nat) (w : R) (hb : b a = w) (h : ∀ i ∈ l, addr i = a → v i = w) :
    (l.foldl (fun b i => Function.update b (addr i) (v i)) b) a = w := by
  induction l generalizing b with
  | nil => exact hb
  | cons x xs ih =>
    rw [List.foldl_cons]
    apply ih
    · by_cases hx : addr x = a
      · rw [← hx, Function.update_same]
        exact h x (List.mem_cons_self _ _) hx
      · rw [Function.update_noteq (Ne.symm hx)]
        exact hb
    · intro i hi
      exact h i (List.mem_cons_of_mem _ hi)

theorem foldl_update_of_mem {R ι : Type} (addr : ι → Nat) (v : ι → R) (l : List ι) (b : Nat → R)
    (i0 : ι) (hmem : i0 ∈ l) (h : ∀ i ∈ l, addr i = addr i0 → v i = v i0) :
    (l.foldl (fun b i => Function.update b (addr i) (v i)) b) (addr i0) = v i0 := by
  induction l generalizing b with
  | nil => simp at hmem
  | cons x xs ih =>
    rw [List.foldl_cons]
    by_cases hxs : i0 ∈ xs
    · exact ih _ hxs (fun i hi => h i (List.mem_cons_of_mem _ hi))
    · have hx : i0 = x := by
        rcases List.mem_cons.1 hmem with h1 | h1
        · exact h1
        · exact absurd h1 hxs
      subst hx
      apply foldl_update_keeps
      · rw [Function.update_same]
      · intro i hi
        exact h i (List.mem_cons_of_mem _ hi)

theorem foldl_update_frame {R ι : Type} (addr : ι → Nat) (v : ι → R) (l : List ι) (b : Nat → R)
    (a : Nat) (h : ∀ i ∈ l, addr i ≠ a) :
    (l.foldl (fun b i => Function.update b (addr i) (v i)) b) a = b a :=
  foldl_update_keeps addr v l b a (b a) rfl (fun i hi hia => absurd hia (h i hi))

theorem mul_add_eq_cancel (n a b a1 b1 : Nat) (hb : b < n) (hb1 : b1 < n)
    (h : a * n + b = a1 * n + b1) : a = a1 ∧ b = b1 := by
  have hn : 0 < n := by omega
  have h1 : (b + a * n) % n = (b1 + a1 * n) % n := by rw [Nat.add_comm, h, Nat.add_comm]
  rw [Nat.add_mul_mod_self_right, Nat.add_mul_mod_self_right, Nat.mod_eq_of_lt hb,
    Nat.mod_eq_of_lt hb1] at h1
  subst h1
  have h2 : a * n = a1 * n := by omega
  exact ⟨Nat.eq_of_mul_eq_mul_right hn h2, rfl⟩

theorem tensorIndex_inj (dims : MemoryShape) (r c f r1 c1 f1 : Nat)
    (hc : c < dims.getD 1 0) (hc1 : c1 < dims.getD 1 0)
    (hf : f < dims.getD 2 0) (hf1 : f1 < dims.getD 2 0)
    (h : emitters.tensorIndex dims r c f = emitters.tensorIndex dims r1 c1 f1) :
    r = r1 ∧ c = c1 ∧ f = f1 := by
  unfold emitters.tensorIndex at h
  obtain ⟨h1, h2⟩ := mul_add_eq_cancel _ _ _ _ _ hf hf1 h
  obtain ⟨h3, h4⟩ := mul_add_eq_cancel _ _ _ _ _ hc hc1 h1
  exact ⟨h3, h4, h2⟩

/-- The output entries in the order in which the three loops visit them:
`(filterIndex, outputRow, outputColumn)`. -/
theorem mem_entries (F Rw C : Nat) (x : Nat × Nat × Nat) :
    x ∈ (List.range F).flatMap (fun f => (List.range Rw).flatMap (fun r =>
      (List.range C).map (fun c => (f, r, c)))) ↔ x.1 < F ∧ x.2.1 < Rw ∧ x.2.2 < C := by
  obtain ⟨f, r, c⟩ := x
  simp only [List.mem_flatMap, List.mem_map, List.mem_range, Prod.mk.injEq]
  constructor
  · rintro ⟨f1, hf1, r1, hr1, c1, hc1, rfl, rfl, rfl⟩
    exact ⟨hf1, hr1, hc1⟩
  · rintro ⟨hf, hr, hc⟩
    exact ⟨f, hf, r, hr, c, hc, rfl, rfl, rfl⟩

/-- Three nested loops that store one value per output entry leave in each entry the
value computed for it, when different entries are different places of the
buffer. -/
theorem nested_store_loops {R : Type} (dims : MemoryShape) (V : Nat → Nat → Nat → R) (F Rw C : Nat)
    (hC : C ≤ dims.getD 1 0) (hF : F ≤ dims.getD 2 0) (result : Nat → R)
    (r c f : Nat) (hr : r < Rw) (hc : c < C) (hf : f < F) :
    ((List.range F).foldl
      (fun result filterIndex =>
        (List.range Rw).foldl
          (fun result outputRow =>
            (List.range C).foldl
              (fun result outputColumn =>
                Function.update result (emitters.tensorIndex dims outputRow outputColumn filterIndex)
                  (V filterIndex outputRow outputColumn))
              result)
          result)
      result) (emitters.tensorIndex dims r c f) = V f r c := by
  have hflat : ((List.range F).foldl
      (fun result filterIndex =>
        (List.range Rw).foldl
          (fun result outputRow =>
            (List.range C).foldl
              (fun result outputColumn =>
                Function.update result (emitters.tensorIndex dims outputRow outputColumn filterIndex)
                  (V filterIndex outputRow outputColumn))
              result)
          result)
      result) =
      ((List.range F).flatMap (fun f => (List.range Rw).flatMap (fun r =>
        (List.range C).map (fun c => (f, r, c))))).foldl
        (fun result (x : Nat × Nat × Nat) =>
          Function.update result (emitters.tensorIndex dims x.2.1 x.2.2 x.1) (V x.1 x.2.1 x.2.2))
        result := by
    rw [foldl_flatMap_eq]
    congr 1
    funext result f
    rw [foldl_flatMap_eq]
    congr 1
    funext result r
    rw [List.foldl_map]
  rw [hflat]
  have := foldl_update_of_mem (fun x : Nat × Nat × Nat => emitters.tensorIndex dims x.2.1 x.2.2 x.1)
    (fun x : Nat × Nat × Nat => V x.1 x.2.1 x.2.2)
    ((List.range F).flatMap (fun f => (List.range Rw).flatMap (fun r =>
        (List.range C).map (fun c => (f, r, c))))) result (f, r, c)
    ((mem_entries F Rw C (f, r, c)).2 ⟨hf, hr, hc⟩)
    (by
      intro x hx hxa
      obtain ⟨h1, h2, h3⟩ := (mem_entries F Rw C x).1 hx
      obtain ⟨e1, e2, e3⟩ := tensorIndex_inj dims x.2.1 x.2.2 x.1 r c f (by omega) (by omega)
        (by omega) (by omega) hxa
      simp only at e1 e2 e3 ⊢
      rw [e1, e2, e3])
  exact this

section convolution

variable {R : Type} [CommSemiring R]

/-- C16: on the general path (the columns are not combined), for `filterSize = k ≥ 1` and
an output layout whose active columns and channels fit in its strides, the
emitted code returns, and the value left at output position `(r, c, f)` is the
sum over `wr < k`, `wc < k`, `ch < d` of
`input[(r*s + wr)*inc0 + (c*s + wc)*inc1 + ch] * weights[f*k*k*d + (wr*k + wc)*d + ch]`;
the stores after each window row amount to one store of that sum. -/
theorem general_path_stores_the_window_sum (input filterWeights result : Nat → R)
    (inputLayout outputLayout : PortMemoryLayout) (k s : Nat) (hk : 1 ≤ k)
    (hpad : inputLayout.GetOffset 0 = k / 2)
    (hgeneral : ¬ (inputLayout.GetActiveSize 1 = inputLayout.GetStride 1 ∧ s = 1))
    (hC : outputLayout.GetActiveSize 1 ≤ outputLayout.GetStride 1)
    (hF : outputLayout.GetActiveSize 2 ≤ outputLayout.GetStride 2)
    (r c f : Nat) (hr : r < outputLayout.GetActiveSize 0) (hc : c < outputLayout.GetActiveSize 1)
    (hf : f < outputLayout.GetActiveSize 2) :
    (∃ out, EmitSimpleConvolutionCode input filterWeights inputLayout outputLayout k s result
        = .ok out ∧
      out (emitters.tensorIndex outputLayout.stride r c f) =
        ∑ wr ∈ Finset.range k, ∑ wc ∈ Finset.range k,
          ∑ ch ∈ Finset.range (inputLayout.GetActiveSize 2),
            input ((r * s + wr) * inputLayout.GetCumulativeIncrement.getD 0 0 +
                (c * s + wc) * inputLayout.GetCumulativeIncrement.getD 1 0 + ch) *
              filterWeights (f * k * k * inputLayout.GetActiveSize 2 +
                (wr * k + wc) * inputLayout.GetActiveSize 2 + ch)) ∧
    (∀ buffer : Nat → R,
      convolutionEntry input filterWeights inputLayout.GetCumulativeIncrement false
          outputLayout.stride (inputLayout.GetActiveSize 2) k s f r c buffer =
        Function.update buffer (emitters.tensorIndex outputLayout.stride r c f)
          (∑ wr ∈ Finset.range k, ∑ wc ∈ Finset.range k,
            ∑ ch ∈ Finset.range (inputLayout.GetActiveSize 2),
              input ((r * s + wr) * inputLayout.GetCumulativeIncrement.getD 0 0 +
                  (c * s + wc) * inputLayout.GetCumulativeIncrement.getD 1 0 + ch) *
                filterWeights (f * k * k * inputLayout.GetActiveSize 2 +
                  (wr * k + wc) * inputLayout.GetActiveSize 2 + ch))) := by
  have hcombine : (decide (inputLayout.GetActiveSize 1 = inputLayout.GetStride 1) &&
      decide (s = 1)) = false := by
    simpa using hgeneral
  have hentry : ∀ (f r c : Nat) (buffer : Nat → R),
      convolutionEntry input filterWeights inputLayout.GetCumulativeIncrement false
          outputLayout.stride (inputLayout.GetActiveSize 2) k s f r c buffer =
        Function.update buffer (emitters.tensorIndex outputLayout.stride r c f)
          (∑ wr ∈ Finset.range k, ∑ wc ∈ Finset.range k,
            ∑ ch ∈ Finset.range (inputLayout.GetActiveSize 2),
              input ((r * s + wr) * inputLayout.GetCumulativeIncrement.getD 0 0 +
                  (c * s + wc) * inputLayout.GetCumulativeIncrement.getD 1 0 + ch) *
                filterWeights (f * k * k * inputLayout.GetActiveSize 2 +
                  (wr * k + wc) * inputLayout.GetActiveSize 2 + ch)) := by
    intro f r c buffer
    rw [convolutionEntry_eq _ _ _ _ _ _ _ _ _ _ _ hk]
    simp only [windowRowValue_general, zero_add]
  refine ⟨?_, hentry f r c⟩
  simp only [EmitSimpleConvolutionCode, hpad, ne_eq, not_true_eq_false, if_false, hcombine]
  refine ⟨_, rfl, ?_⟩
  simp only [convolutionLoops, hentry]
  exact nested_store_loops outputLayout.stride _ _ _ _ hC hF result r c f hr hc hf

/-- The value of one output entry of the depthwise code: the sum over the window of
the products of the input entry and the filter entry of the same channel. -/
theorem depthwiseEntry_eq (input filterWeights : Nat → R)
    (inputDims filterDims outputDims : MemoryShape) (k s f r c : Nat) (buffer : Nat → R) :
    depthwiseEntry input filterWeights inputDims filterDims outputDims k s f r c buffer =
      Function.update buffer (emitters.tensorIndex outputDims r c f)
        (∑ wr ∈ Finset.range k, ∑ wc ∈ Finset.range k,
          input (emitters.tensorIndex inputDims (r * s + wr) (c * s + wc) f) *
            filterWeights (emitters.tensorIndex filterDims f wr wc)) := by
  unfold depthwiseEntry
  simp only [foldl_range_add, zero_add]

/-- C18: the depthwise-separable code returns when its two assertions hold, and the
value left at output position `(r, c, f)` is the sum over `wr < k`, `wc < k` of
`input(r*s + wr, c*s + wc, f) * filter(f, wr, wc)`: only channel `f` of the
input and filter `f` of the weights enter it, so two runs whose inputs agree
on channel `f` and whose weights agree on filter `f` leave the same value
there. -/
theorem depthwise_output_depends_on_its_channel_only (input filterWeights result : Nat → R)
    (inputLayout outputLayout : PortMemoryLayout) (k s : Nat)
    (hpad : inputLayout.GetOffset 0 = k / 2)
    (hfilters : outputLayout.GetActiveSize 2 = inputLayout.GetActiveSize 2)
    (hC : outputLayout.GetActiveSize 1 ≤ outputLayout.GetStride 1)
    (hF : outputLayout.GetActiveSize 2 ≤ outputLayout.GetStride 2)
    (r c f : Nat) (hr : r < outputLayout.GetActiveSize 0) (hc : c < outputLayout.GetActiveSize 1)
    (hf : f < outputLayout.GetActiveSize 2) :
    (∃ out, EmitSimpleDepthwiseSeparableConvolutionCode input filterWeights inputLayout
        outputLayout k s result = .ok out ∧
      out (emitters.tensorIndex outputLayout.stride r c f) =
        ∑ wr ∈ Finset.range k, ∑ wc ∈ Finset.range k,
          input (emitters.tensorIndex inputLayout.stride (r * s + wr) (c * s + wc) f) *
            filterWeights (emitters.tensorIndex [inputLayout.GetStride 2, k, k] f wr wc)) ∧
    (∀ (input2 filterWeights2 result2 : Nat → R),
      (∀ i j, input2 (emitters.tensorIndex inputLayout.stride i j f) =
        input (emitters.tensorIndex inputLayout.stride i j f)) →
      (∀ wr wc, filterWeights2 (emitters.tensorIndex [inputLayout.GetStride 2, k, k] f wr wc) =
        filterWeights (emitters.tensorIndex [inputLayout.GetStride 2, k, k] f wr wc)) →
      ∃ out out2,
        EmitSimpleDepthwiseSeparableConvolutionCode input filterWeights inputLayout
          outputLayout k s result = .ok out ∧
        EmitSimpleDepthwiseSeparableConvolutionCode input2 filterWeights2 inputLayout
          outputLayout k s result2 = .ok out2 ∧
        out2 (emitters.tensorIndex outputLayout.stride r c f) =
          out (emitters.tensorIndex outputLayout.stride r c f)) := by
  have hvalue : ∀ (input filterWeights result : Nat → R),
      ∃ out, EmitSimpleDepthwiseSeparableConvolutionCode input filterWeights inputLayout
          outputLayout k s result = .ok out ∧
        out (emitters.tensorIndex outputLayout.stride r c f) =
          ∑ wr ∈ Finset.range k, ∑ wc ∈ Finset.range k,
            input (emitters.tensorIndex inputLayout.stride (r * s + wr) (c * s + wc) f) *
              filterWeights (emitters.tensorIndex [inputLayout.GetStride 2, k, k] f wr wc) := by
    intro input filterWeights result
    simp only [EmitSimpleDepthwiseSeparableConvolutionCode, hpad, hfilters, ne_eq,
      not_true_eq_false, if_false]
    refine ⟨_, rfl, ?_⟩
    simp only [depthwiseEntry_eq]
    rw [← hfilters]
    exact nested_store_loops outputLayout.stride _ _ _ _ hC hF result r c f hr hc hf
  refine ⟨hvalue input filterWeights result, ?_⟩
  intro input2 filterWeights2 result2 hin hw
  obtain ⟨out, hout, hval⟩ := hvalue input filterWeights result
  obtain ⟨out2, hout2, hval2⟩ := hvalue input2 filterWeights2 result2
  refine ⟨out, out2, hout, hout2, ?_⟩
  rw [hval, hval2]
  apply Finset.sum_congr rfl
  intro wr _
  apply Finset.sum_congr rfl
  intro wc _
  rw [hin, hw]

/-- Witness for C16: the 5 by 5 input padded by 1, one 3 by 3 filter, stride 1. -/
theorem general_path_stores_the_window_sum_witness :
    1 ≤ 3 ∧ exPaddedLayout.GetOffset 0 = 3 / 2 ∧
    ¬ (exPaddedLayout.GetActiveSize 1 = exPaddedLayout.GetStride 1 ∧ 1 = 1) ∧
    ∃ out, EmitSimpleConvolutionCode exRamp exRamp exPaddedLayout exOutputLayout 3 1 exZeros
        = .ok out ∧
      out (emitters.tensorIndex exOutputLayout.stride 4 4 0) =
        ∑ wr ∈ Finset.range 3, ∑ wc ∈ Finset.range 3,
          ∑ ch ∈ Finset.range (exPaddedLayout.GetActiveSize 2),
            exRamp ((4 * 1 + wr) * exPaddedLayout.GetCumulativeIncrement.getD 0 0 +
                (4 * 1 + wc) * exPaddedLayout.GetCumulativeIncrement.getD 1 0 + ch) *
              exRamp (0 * 3 * 3 * exPaddedLayout.GetActiveSize 2 +
                (wr * 3 + wc) * exPaddedLayout.GetActiveSize 2 + ch) :=
  ⟨by decide, by decide, by decide,
    (general_path_stores_the_window_sum exRamp exRamp exZeros exPaddedLayout exOutputLayout 3 1
      (by decide) (by decide) (by decide) (by decide) (by decide) 4 4 0 (by decide) (by decide)
      (by decide)).1⟩

/-- Witness for C18: two channels, two 3 by 3 filters, stride 1; output channel 1 does
not change when channel 0 of the input is replaced. -/
theorem depthwise_output_depends_on_its_channel_only_witness :
    exPaddedLayout2.GetOffset 0 = 3 / 2 ∧
    exOutputLayout2.GetActiveSize 2 = exPaddedLayout2.GetActiveSize 2 ∧
    ∃ out, EmitSimpleDepthwiseSeparableConvolutionCode exRamp exRamp exPaddedLayout2
        exOutputLayout2 3 1 exZeros = .ok out ∧
      out (emitters.tensorIndex exOutputLayout2.stride 0 0 1) =
        ∑ wr ∈ Finset.range 3, ∑ wc ∈ Finset.range 3,
          exRamp (emitters.tensorIndex exPaddedLayout2.stride (0 * 1 + wr) (0 * 1 + wc) 1) *
            exRamp (emitters.tensorIndex [exPaddedLayout2.GetStride 2, 3, 3] 1 wr wc) :=
  ⟨by decide, by decide,
    (depthwise_output_depends_on_its_channel_only exRamp exRamp exZeros exPaddedLayout2
      exOutputLayout2 3 1 (by decide) (by decide) (by decide) (by decide) 0 0 1 (by decide)
      (by decide) (by decide)).1⟩

/-! ### The combined-columns path -/

theorem sum_range_mul (F : Nat → R) (k d : Nat) :
    ∑ t ∈ Finset.range (k * d), F t =
      ∑ wc ∈ Finset.range k, ∑ ch ∈ Finset.range d, F (wc * d + ch) := by
  induction k with
  | zero => simp
  | succ k ih =>
    rw [Nat.succ_mul, Finset.sum_range_add, ih, Finset.sum_range_succ]

/-- When the increment between consecutive columns is the input depth (the channel
dimension is not padded), the combined-columns path adds to `val` what the
per-column path adds. -/
theorem windowRowValue_combined_eq_general (input filterWeights : Nat → R) (inc : MemoryShape)
    (d k f r c wr : Nat) (val : R) (hd : inc.getD 1 0 = d) :
    windowRowValue input filterWeights inc true d k 1 f r c wr val =
      windowRowValue input filterWeights inc false d k 1 f r c wr val := by
  rw [windowRowValue_combined, windowRowValue_general, sum_range_mul, hd]
  congr 1
  apply Finset.sum_congr rfl
  intro wc _
  apply Finset.sum_congr rfl
  intro ch _
  congr 2
  · ring
  · ring

/-- When the emitter combines the columns and the channel dimension of the input is
not padded (the increment between columns is the input depth), the output
buffer is the one the per-column path produces. -/
theorem combined_path_agrees_when_channels_are_dense (input filterWeights result : Nat → R)
    (inputLayout outputLayout : PortMemoryLayout) (k : Nat)
    (hd : inputLayout.GetCumulativeIncrement.getD 1 0 = inputLayout.GetActiveSize 2) :
    convolutionLoops input filterWeights inputLayout outputLayout true k 1 result =
      convolutionLoops input filterWeights inputLayout outputLayout false k 1 result := by
  simp only [convolutionLoops, convolutionEntry,
    windowRowValue_combined_eq_general input filterWeights _ _ _ _ _ _ _ _ hd]

end convolution

/-- C17 (evaluation at the failing input): for an input layout whose columns are not
padded but whose channel dimension is (one active channel, stride 2), with a
2 by 2 filter and stride 1, the emitter combines the columns and leaves 14 at
output position `(0, 0, 0)`, while the per-column path on the same buffers and
layouts leaves 16, the value of the windowed sum. -/
theorem combined_path_differs_under_channel_padding :
    exChannelPaddedLayout.GetActiveSize 1 = exChannelPaddedLayout.GetStride 1 ∧
    exChannelPaddedLayout.GetOffset 0 = 2 / 2 ∧
    exChannelPaddedLayout.GetCumulativeIncrement = [6, 2, 1] ∧
    exChannelPaddedLayout.GetActiveSize 2 = 1 ∧
    (∃ out, EmitSimpleConvolutionCode exRamp exOnes exChannelPaddedLayout exUnitOutputLayout
        2 1 exZeros = .ok out ∧
      out (emitters.tensorIndex exUnitOutputLayout.stride 0 0 0) = 14) ∧
    convolutionLoops exRamp exOnes exChannelPaddedLayout exUnitOutputLayout false 2 1 exZeros
      (emitters.tensorIndex exUnitOutputLayout.stride 0 0 0) = 16 ∧
    exRamp 0 * exOnes 0 + exRamp 2 * exOnes 1 + exRamp 6 * exOnes 2 + exRamp 8 * exOnes 3 = 16 :=
  ⟨by decide, by decide, by decide, by decide, ⟨_, rfl, by decide⟩, by decide, by decide⟩

end nodes

/-! ## Properties of `DoubleMatrixBase::Gemv` -/

namespace linear

namespace DoubleMatrixBase

theorem toInt32_of_lt (n : Nat) (h : n < 2 ^ 31) : (toInt32 n).toNat = n := by
  unfold toInt32
  omega

/-- A loop that replaces entry `i` by a function of its current value leaves in every
entry below the bound that function of the initial value, and the others as
they were. -/
theorem foldl_update_pointwise {R : Type} (g : Nat → R → R) (n : Nat) (y : Nat → R) (i : Nat) :
    ((List.range n).foldl (fun p_y i => Function.update p_y i (g i (p_y i))) y) i =
      if i < n then g i (y i) else y i := by
  induction n with
  | zero => simp
  | succ n ih =>
    rw [List.range_succ, List.foldl_append]
    simp only [List.foldl_cons, List.foldl_nil]
    by_cases hi : i = n
    · subst hi
      rw [Function.update_same, ih]
      simp
    · rw [Function.update_noteq hi, ih]
      by_cases h1 : i < n
      · have : i < n + 1 := by omega
        simp [h1, this]
      · have : ¬ i < n + 1 := by omega
        simp [h1, this]

theorem RowDot_eq_sum {R : Type} [CommSemiring R] (A : DoubleMatrixBase R) (i : Nat)
    (p_x : Nat → R) :
    A.RowDot i p_x = ∑ j ∈ Finset.range A.NumColumns, A.get i j * p_x j := by
  unfold RowDot
  rw [nodes.foldl_range_add]
  simp

section gemv

variable {R : Type} [CommSemiring R] [DecidableEq R]

/-- C20 (as amended): for a matrix with fewer than `2 ^ 31` rows, in exact arithmetic,
`Gemv` leaves `y[i] = alpha * (sum over j < c of A(i,j) * x[j]) + beta * y_old[i]`
for every row `i`, on each of its six branches, and leaves the entries of `y`
past the rows as they were. -/
theorem gemv_computes_scaled_product (A : DoubleMatrixBase R) (p_x p_y : Nat → R)
    (alpha beta : R) (hrows : A.NumRows < 2 ^ 31) (i : Nat) :
    (i < A.NumRows → A.Gemv p_x p_y alpha beta i =
      alpha * (∑ j ∈ Finset.range A.NumColumns, A.get i j * p_x j) + beta * p_y i) ∧
    (A.NumRows ≤ i → A.Gemv p_x p_y alpha beta i = p_y i) := by
  have hsize : (toInt32 A.NumRows).toNat = A.NumRows := toInt32_of_lt _ hrows
  have h1 := foldl_update_pointwise (fun i _ => A.RowDot i p_x) A.NumRows p_y i
  have h2 := foldl_update_pointwise (fun i v => v + A.RowDot i p_x) A.NumRows p_y i
  have h3 := foldl_update_pointwise (fun i v => A.RowDot i p_x + v * beta) A.NumRows p_y i
  have h4 := foldl_update_pointwise (fun i _ => A.RowDot i p_x * alpha) A.NumRows p_y i
  have h5 := foldl_update_pointwise (fun i v => v + A.RowDot i p_x * alpha) A.NumRows p_y i
  have h6 := foldl_update_pointwise (fun i v => A.RowDot i p_x * alpha + v * beta) A.NumRows p_y i
  simp only at h1 h2 h3 h4 h5 h6
  constructor
  · intro hi
    simp only [hi, if_true] at h1 h2 h3 h4 h5 h6
    unfold Gemv
    simp only [hsize]
    rw [← RowDot_eq_sum]
    by_cases ha : alpha = 1
    · by_cases hb0 : beta = 0
      · simp only [ha, hb0, if_true]
        rw [h1]; ring
      · by_cases hb1 : beta = 1
        · simp only [ha, hb0, hb1, if_true, if_false]
          have hne : ¬ ((1 : R) = 0) := by rw [← hb1]; exact hb0
          simp only [hne, if_false]
          rw [h2]; ring
        · simp only [ha, hb0, hb1, if_true, if_false]
          rw [h3]; ring
    · by_cases hb0 : beta = 0
      · simp only [ha, hb0, if_true, if_false]
        rw [h4]; ring
      · by_cases hb1 : beta = 1
        · simp only [ha, hb0, hb1, if_true, if_false]
          have hne : ¬ ((1 : R) = 0) := by rw [← hb1]; exact hb0
          simp only [hne, if_false]
          rw [h5]; ring
        · simp only [ha, hb0, hb1, if_false]
          rw [h6]; ring
  · intro hi
    have hno : ¬ i < A.NumRows := by omega
    simp only [hno, if_false] at h1 h2 h3 h4 h5 h6
    unfold Gemv
    simp only [hsize]
    by_cases ha : alpha = 1
    · by_cases hb0 : beta = 0
      · simp only [ha, hb0, if_true]
        exact h1
      · by_cases hb1 : beta = 1
        · simp only [ha, hb0, hb1, if_true, if_false]
          have hne : ¬ ((1 : R) = 0) := by rw [← hb1]; exact hb0
          simp only [hne, if_false]
          exact h2
        · simp only [ha, hb0, hb1, if_true, if_false]
          exact h3
    · by_cases hb0 : beta = 0
      · simp only [ha, hb0, if_true, if_false]
        exact h4
      · by_cases hb1 : beta = 1
        · simp only [ha, hb0, hb1, if_true, if_false]
          have hne : ¬ ((1 : R) = 0) := by rw [← hb1]; exact hb0
          simp only [hne, if_false]
          exact h5
        · simp only [ha, hb0, hb1, if_false]
          exact h6

end gemv

/-- Witness for C20 (as amended): the dense 3 by 3 matrix `exDense`, `x = [1, 2, 3]`,
`y = [10, 20, 30]` and every `alpha`, `beta` among 0, 1 and 2.5; for
`alpha = beta = 2.5` the first entry becomes 60. -/
theorem gemv_computes_scaled_product_witness :
    exDense.NumRows < 2 ^ 31 ∧
    (∀ alpha ∈ ([0, 1, 5 / 2] : List ℚ), ∀ beta ∈ ([0, 1, 5 / 2] : List ℚ), ∀ i, i < 3 →
      exDense.Gemv exX exY alpha beta i =
        alpha * (∑ j ∈ Finset.range exDense.NumColumns, exDense.get i j * exX j) + beta * exY i) ∧
    exDense.Gemv exX exY (5 / 2) (5 / 2) 0 = 60 :=
  ⟨by decide,
    fun alpha _ beta _ i hi =>
      (gemv_computes_scaled_product exDense exX exY alpha beta (by decide) i).1 hi,
    by
      rw [(gemv_computes_scaled_product exDense exX exY (5 / 2) (5 / 2) (by decide) 0).1
        (by decide)]
      simp [exDense, exX, exY, NumColumns, Finset.sum_range_succ]
      norm_num⟩

/-- Counterexample for C20 as stated: for a matrix with `2 ^ 31` rows the row count
converted to `int` is negative, no row is visited, and `y[0]` keeps its old
value 1 where `alpha * (A x)[0] + beta * y[0]` is 0. -/
theorem gemv_skips_the_rows_of_a_tall_matrix :
    exTall.NumRows = 2 ^ 31 ∧
    toInt32 exTall.NumRows = -2147483648 ∧
    exTall.Gemv exZeros exOnes 1 0 0 = 1 ∧
    (1 : Int) * (∑ j ∈ Finset.range exTall.NumColumns, exTall.get 0 j * exZeros j)
      + 0 * exOnes 0 = 0 :=
  ⟨by decide, by decide, by decide, by decide⟩

end DoubleMatrixBase

end linear

/-! ## Properties of `DoubleMatrixBase::Gevm` -/

namespace linear

namespace DoubleMatrixBase

theorem ColumnDot_eq_sum {R : Type} [CommSemiring R] (A : DoubleMatrixBase R) (j : Nat)
    (p_x : Nat → R) :
    A.ColumnDot j p_x = ∑ i ∈ Finset.range A.NumRows, A.get i j * p_x i := by
  unfold ColumnDot
  rw [nodes.foldl_range_add]
  simp

section gevm

variable {R : Type} [CommSemiring R] [DecidableEq R]

/-- C21 (as amended): for a matrix with fewer than `2 ^ 31` columns, in exact arithmetic,
`Gevm` leaves `y[j] = alpha * (sum over i < r of A(i,j) * x[i]) + beta * y_old[j]`
for every column `j`, on each of its six branches, and leaves the entries of `y`
past the columns as they were. -/
theorem gevm_computes_scaled_transposed_product (A : DoubleMatrixBase R) (p_x p_y : Nat → R)
    (alpha beta : R) (hcolumns : A.NumColumns < 2 ^ 31) (j : Nat) :
    (j < A.NumColumns → A.Gevm p_x p_y alpha beta j =
      alpha * (∑ i ∈ Finset.range A.NumRows, A.get i j * p_x i) + beta * p_y j) ∧
    (A.NumColumns ≤ j → A.Gevm p_x p_y alpha beta j = p_y j) := by
  have hsize : (toInt32 A.NumColumns).toNat = A.NumColumns := toInt32_of_lt _ hcolumns
  have h1 := foldl_update_pointwise (fun j _ => A.ColumnDot j p_x) A.NumColumns p_y j
  have h2 := foldl_update_pointwise (fun j v => v + A.ColumnDot j p_x) A.NumColumns p_y j
  have h3 := foldl_update_pointwise (fun j v => A.ColumnDot j p_x + v * beta) A.NumColumns p_y j
  have h4 := foldl_update_pointwise (fun j _ => A.ColumnDot j p_x * alpha) A.NumColumns p_y j
  have h5 := foldl_update_pointwise (fun j v => v + A.ColumnDot j p_x * alpha) A.NumColumns p_y j
  have h6 := foldl_update_pointwise (fun j v => A.ColumnDot j p_x * alpha + v * beta)
    A.NumColumns p_y j
  simp only at h1 h2 h3 h4 h5 h6
  by_cases hj : j < A.NumColumns
  · refine ⟨fun _ => ?_, fun hle => absurd hj (by omega)⟩
    simp only [hj, if_true] at h1 h2 h3 h4 h5 h6
    unfold Gevm
    simp only [hsize]
    rw [← ColumnDot_eq_sum]
    by_cases ha : alpha = 1
    · by_cases hb0 : beta = 0
      · simp only [ha, hb0, if_true]
        rw [h1]; ring
      · by_cases hb1 : beta = 1
        · have hne : ¬ ((1 : R) = 0) := by rw [← hb1]; exact hb0
          simp only [ha, hb1, hne, if_true, if_false]
          rw [h2]; ring
        · simp only [ha, hb0, hb1, if_true, if_false]
          rw [h3]; ring
    · by_cases hb0 : beta = 0
      · simp only [ha, hb0, if_true, if_false]
        rw [h4]; ring
      · by_cases hb1 : beta = 1
        · have hne : ¬ ((1 : R) = 0) := by rw [← hb1]; exact hb0
          simp only [ha, hb1, hne, if_true, if_false]
          rw [h5]; ring
        · simp only [ha, hb0, hb1, if_false]
          rw [h6]; ring
  · refine ⟨fun h => absurd h hj, fun _ => ?_⟩
    simp only [hj, if_false] at h1 h2 h3 h4 h5 h6
    unfold Gevm
    simp only [hsize]
    by_cases ha : alpha = 1
    · by_cases hb0 : beta = 0
      · simp only [ha, hb0, if_true]
        exact h1
      · by_cases hb1 : beta = 1
        · have hne : ¬ ((1 : R) = 0) := by rw [← hb1]; exact hb0
          simp only [ha, hb1, hne, if_true, if_false]
          exact h2
        · simp only [ha, hb0, hb1, if_true, if_false]
          exact h3
    · by_cases hb0 : beta = 0
      · simp only [ha, hb0, if_true, if_false]
        exact h4
      · by_cases hb1 : beta = 1
        · have hne : ¬ ((1 : R) = 0) := by rw [← hb1]; exact hb0
          simp only [ha, hb1, hne, if_true, if_false]
          exact h5
        · simp only [ha, hb0, hb1, if_false]
          exact h6

end gevm

/-- Witness for C21 (as amended): the dense 3 by 3 matrix `exDense`, `x = [1, 2, 3]`,
`y = [10, 20, 30]` and every `alpha`, `beta` among 0, 1 and 2.5; for
`alpha = beta = 2.5` the first entry becomes 100. -/
theorem gevm_computes_scaled_transposed_product_witness :
    exDense.NumColumns < 2 ^ 31 ∧
    (∀ alpha ∈ ([0, 1, 5 / 2] : List ℚ), ∀ beta ∈ ([0, 1, 5 / 2] : List ℚ), ∀ j, j < 3 →
      exDense.Gevm exX exY alpha beta j =
        alpha * (∑ i ∈ Finset.range exDense.NumRows, exDense.get i j * exX i) + beta * exY j) ∧
    exDense.Gevm exX exY (5 / 2) (5 / 2) 0 = 100 :=
  ⟨by decide,
    fun alpha _ beta _ j hj =>
      (gevm_computes_scaled_transposed_product exDense exX exY alpha beta (by decide) j).1 hj,
    by
      rw [(gevm_computes_scaled_transposed_product exDense exX exY (5 / 2) (5 / 2)
        (by decide) 0).1 (by decide)]
      simp [exDense, exX, exY, NumRows, Finset.sum_range_succ]
      norm_num⟩

/-- Counterexample for C21 as stated: for a matrix with `2 ^ 31` columns the column
count converted to `int` is negative, no column is visited, and `y[0]` keeps
its old value 1 where `alpha * (x A)[0] + beta * y[0]` is 0. -/
theorem gevm_skips_the_columns_of_a_wide_matrix :
    exWide.NumColumns = 2 ^ 31 ∧
    toInt32 exWide.NumColumns = -2147483648 ∧
    exWide.Gevm exZeros exOnes 1 0 0 = 1 ∧
    (1 : Int) * (∑ i ∈ Finset.range exWide.NumRows, exWide.get i 0 * exZeros i)
      + 0 * exOnes 0 = 0 :=
  ⟨by decide, by decide, by decide, by decide⟩

end DoubleMatrixBase

end linear

/-! ## Properties of `Map::GetInputType`, of the copy constructor and of `swap` -/

namespace Map

/-- Where `GetInputType` differs from `GetInputShape`: with at least one source node, every
index at or past the number of source nodes reads `sourceNodes[index]` past the
end of the vector. -/
theorem GetInputType_past_the_source_nodes {PortType : Type} (IsSourceNode : Node → Bool)
    (GetOutputType : Node → PortType) (m : Map) (index : Nat)
    (h0 : 0 < (m.GetSourceNodes IsSourceNode).length)
    (h1 : (m.GetSourceNodes IsSourceNode).length ≤ index) :
    m.GetInputType IsSourceNode GetOutputType index = .error .AssertionFailure := by
  unfold GetInputType
  have hne : (m.GetSourceNodes IsSourceNode).isEmpty = false := by
    cases hs : m.GetSourceNodes IsSourceNode with
    | nil => rw [hs] at h0; simp at h0
    | cons a l => rfl
  have hnot : ¬ index < (m.GetSourceNodes IsSourceNode).length := by omega
  simp [hne, hnot]

/-- C27 (evaluation at the failing input): `exSourceMap` has two declared inputs and one
source node.  At index 1, which is smaller than `NumInputs()`, `GetInputShape`
reports the shape of the second declared input node, while `GetInputType` takes
the source-node branch and reads `sourceNodes[1]`, past the end of the list of
length 1; at index 0 both report the source node. -/
theorem input_type_reads_past_the_source_nodes :
    exSourceMap.NumInputs = 2 ∧
    (exSourceMap.GetSourceNodes exIsSourceNode).length = 1 ∧
    exSourceMap.GetInputShape exIsSourceNode exGetShape 0 = .ok (exGetShape exSource) ∧
    exSourceMap.GetInputType exIsSourceNode exGetOutputType 0 = .ok (exGetOutputType exSource) ∧
    exSourceMap.GetInputShape exIsSourceNode exGetShape 1 = .ok (exGetShape exInput2) ∧
    exSourceMap.GetInputType exIsSourceNode exGetOutputType 1 = .error .AssertionFailure :=
  ⟨by decide, by decide, rfl, rfl, rfl, rfl⟩

theorem addInputs_metadata (f : Node → Node) (inputs : List (String × Node)) (m : Map) :
    (addInputs f inputs m).metadata = m.metadata := by
  unfold addInputs
  induction inputs generalizing m with
  | nil => rfl
  | cons i rest ih =>
    simp only [List.foldl_cons]
    rw [ih]
    rfl

theorem foldl_AddOutput_metadata (E : Externals) (f : PortElementsBase → PortElementsBase)
    (outputs : List (String × PortElementsBase)) (m : Map) :
    (outputs.foldl (fun acc output => acc.AddOutput E output.1 (f output.2)) m).metadata =
      m.metadata := by
  induction outputs generalizing m with
  | nil => rfl
  | cons o rest ih =>
    simp only [List.foldl_cons]
    rw [ih]
    rfl

/-- The copy constructor leaves `_metadata` default-constructed. -/
theorem copy_metadata (E : Externals) (order : (V : Type) → NameMap V → List (String × V))
    (other c : Map) (h : copy E order other = .ok c) : c.metadata = [] := by
  unfold copy at h
  simp only at h
  split at h
  · have hc := (Except.ok.inj h).symm
    subst hc
    rw [foldl_AddOutput_metadata E
      (fun e => PortElementsBase.ofPort ((E.CopyModel other.model).2.GetCorrespondingOutputs e)),
      addInputs_metadata]
    rfl
  · cases h

/-- C28 (evaluation at the failing input): `swap` leaves the metadata of both maps in
place, and the copy constructor leaves the metadata of the copy empty, whatever
the collaborators and the iteration order are.  For `exMap` (no metadata,
archive version 2) and `exMetadataMap` (one metadata entry, archive version 3):
the copy of `exMetadataMap` reports version 2, and after `exMap = exMetadataMap`
the assigned map still has no metadata and reports version 2. -/
theorem copy_and_swap_leave_metadata_behind :
    (∀ a b : Map, (swap a b).1.metadata = a.metadata ∧ (swap a b).2.metadata = b.metadata) ∧
    (∀ E order other c, copy E order other = .ok c → c.metadata = []) ∧
    GetArchiveVersion exVersions exMap = ⟨2⟩ ∧
    GetArchiveVersion exVersions exMetadataMap = ⟨3⟩ ∧
    (∃ c, copy plainExternals (fun _ l => l) exMetadataMap = .ok c ∧
      GetArchiveVersion exVersions c = ⟨2⟩) ∧
    (∃ a, assign plainExternals (fun _ l => l) exMap exMetadataMap = .ok a ∧
      a.metadata = [] ∧ GetArchiveVersion exVersions a = ⟨2⟩) ∧
    ((swap exMap exMetadataMap).1.metadata = [] ∧
      GetArchiveVersion exVersions (swap exMap exMetadataMap).1 = ⟨2⟩) :=
  ⟨fun _ _ => ⟨rfl, rfl⟩, copy_metadata, by decide, by decide, ⟨_, rfl, by decide⟩,
    ⟨_, rfl, by decide, by decide⟩, by decide, by decide⟩

end Map

/-! ## The input indices read by the general path -/

namespace nodes

/-- An index made of a row below `s0`, a column below `s1` and a channel below `s2`
lies inside a row-major buffer of `s0 * s1 * s2` entries. -/
theorem row_major_index_lt (s0 s1 s2 a b c : Nat) (ha : a < s0) (hb : b < s1) (hc : c < s2) :
    a * (s1 * s2) + b * s2 + c < s0 * s1 * s2 := by
  have h1 : b * s2 + c < s1 * s2 := by
    have : (b + 1) * s2 ≤ s1 * s2 := Nat.mul_le_mul_right s2 hb
    rw [Nat.add_mul, Nat.one_mul] at this
    omega
  have h2 : (a + 1) * (s1 * s2) ≤ s0 * (s1 * s2) := Nat.mul_le_mul_right (s1 * s2) ha
  rw [Nat.add_mul, Nat.one_mul] at h2
  rw [Nat.mul_assoc s0 s1 s2]
  omega

/-- The increments of a three-dimensional layout. -/
theorem GetCumulativeIncrement_of_three (layout : PortMemoryLayout) (s0 s1 s2 : Nat)
    (h : layout.stride = [s0, s1, s2]) :
    layout.GetCumulativeIncrement = [s1 * s2, s2, 1] := by
  simp [PortMemoryLayout.GetCumulativeIncrement, h, List.tails]

/-- The bound on the indices read by the general path, for a layout with strides
`s0`, `s1`, `s2`. -/
theorem general_read_index_lt (inputLayout outputLayout : PortMemoryLayout) (filterSize : Nat)
    (s0 s1 s2 : Nat) (hstride : inputLayout.stride = [s0, s1, s2])
    (hpad0 : inputLayout.GetOffset 0 = filterSize / 2)
    (hpad1 : inputLayout.GetOffset 1 = filterSize / 2)
    (hinv : ∀ d, d < 3 →
      inputLayout.GetActiveSize d + 2 * inputLayout.GetOffset d ≤ inputLayout.GetStride d)
    (hrows : outputLayout.GetActiveSize 0 = inputLayout.GetActiveSize 0)
    (hcolumns : outputLayout.GetActiveSize 1 = inputLayout.GetActiveSize 1)
    (r c wr wc ch : Nat) (hr : r < outputLayout.GetActiveSize 0)
    (hc : c < outputLayout.GetActiveSize 1) (hwr : wr < filterSize) (hwc : wc < filterSize)
    (hch : ch < inputLayout.GetActiveSize 2) :
    (r * 1 + wr) * inputLayout.GetCumulativeIncrement.getD 0 0 +
      (c * 1 + wc) * inputLayout.GetCumulativeIncrement.getD 1 0 + ch < s0 * s1 * s2 := by
  rw [GetCumulativeIncrement_of_three inputLayout s0 s1 s2 hstride]
  have h0 := hinv 0 (by decide)
  have h1 := hinv 1 (by decide)
  have h2 := hinv 2 (by decide)
  have e0 : inputLayout.GetStride 0 = s0 := by simp [PortMemoryLayout.GetStride, hstride]
  have e1 : inputLayout.GetStride 1 = s1 := by simp [PortMemoryLayout.GetStride, hstride]
  have e2 : inputLayout.GetStride 2 = s2 := by simp [PortMemoryLayout.GetStride, hstride]
  rw [e0, hpad0] at h0
  rw [e1, hpad1] at h1
  rw [e2] at h2
  simp only [List.getD_cons_zero, List.getD_cons_succ, Nat.mul_one]
  exact row_major_index_lt s0 s1 s2 (r + wr) (c + wc) ch (by omega) (by omega) (by omega)

/-- C26: for stride 1, an input layout with three dimensions whose row and column padding
is `filterSize / 2` and whose active size plus twice the offset is at most the
stride in every dimension, and an output layout with the active rows and
columns of the input: every index `(r + wr) * inc0 + (c + wc) * inc1 + ch` read
by the general path, with `r`, `c` in the output range, `wr`, `wc` below the
filter size and `ch` below the input depth, is smaller than the size
`stride0 * stride1 * stride2` of the input buffer; so the general path gives the
same output for two input buffers that agree below that size. -/
theorem general_path_reads_inside_the_padded_input {R : Type} [CommSemiring R]
    (inputLayout outputLayout : PortMemoryLayout) (filterSize : Nat)
    (hdims : inputLayout.stride.length = 3)
    (hpad0 : inputLayout.GetOffset 0 = filterSize / 2)
    (hpad1 : inputLayout.GetOffset 1 = filterSize / 2)
    (hinv : ∀ d, d < 3 →
      inputLayout.GetActiveSize d + 2 * inputLayout.GetOffset d ≤ inputLayout.GetStride d)
    (hrows : outputLayout.GetActiveSize 0 = inputLayout.GetActiveSize 0)
    (hcolumns : outputLayout.GetActiveSize 1 = inputLayout.GetActiveSize 1) :
    (∀ r c wr wc ch, r < outputLayout.GetActiveSize 0 → c < outputLayout.GetActiveSize 1 →
      wr < filterSize → wc < filterSize → ch < inputLayout.GetActiveSize 2 →
      (r * 1 + wr) * inputLayout.GetCumulativeIncrement.getD 0 0 +
        (c * 1 + wc) * inputLayout.GetCumulativeIncrement.getD 1 0 + ch <
        inputLayout.GetStride 0 * inputLayout.GetStride 1 * inputLayout.GetStride 2) ∧
    (∀ input input2 filterWeights result : Nat → R,
      (∀ t, t < inputLayout.GetStride 0 * inputLayout.GetStride 1 * inputLayout.GetStride 2 →
        input t = input2 t) →
      convolutionLoops input filterWeights inputLayout outputLayout false filterSize 1 result =
        convolutionLoops input2 filterWeights inputLayout outputLayout false filterSize 1
          result) := by
  obtain ⟨s0, s1, s2, hstride⟩ : ∃ s0 s1 s2, inputLayout.stride = [s0, s1, s2] := by
    match hs : inputLayout.stride, hdims with
    | [a, b, c], _ => exact ⟨a, b, c, rfl⟩
  have e0 : inputLayout.GetStride 0 = s0 := by simp [PortMemoryLayout.GetStride, hstride]
  have e1 : inputLayout.GetStride 1 = s1 := by simp [PortMemoryLayout.GetStride, hstride]
  have e2 : inputLayout.GetStride 2 = s2 := by simp [PortMemoryLayout.GetStride, hstride]
  rw [e0, e1, e2]
  have hbound := general_read_index_lt inputLayout outputLayout filterSize s0 s1 s2 hstride
    hpad0 hpad1 hinv hrows hcolumns
  refine ⟨hbound, ?_⟩
  intro input input2 filterWeights result hagree
  unfold convolutionLoops
  simp only
  apply List.foldl_ext
  intro result1 filterIndex _
  apply List.foldl_ext
  intro result2 outputRow hrow
  apply List.foldl_ext
  intro result3 outputColumn hcolumn
  unfold convolutionEntry
  congr 1
  apply List.foldl_ext
  intro state windowRow hwindowRow
  have hval : windowRowValue input filterWeights inputLayout.GetCumulativeIncrement false
      (inputLayout.GetActiveSize 2) filterSize 1 filterIndex outputRow outputColumn windowRow
        state.1 =
      windowRowValue input2 filterWeights inputLayout.GetCumulativeIncrement false
        (inputLayout.GetActiveSize 2) filterSize 1 filterIndex outputRow outputColumn windowRow
        state.1 := by
    unfold windowRowValue windowColumns
    simp only [Bool.false_eq_true, if_false]
    apply List.foldl_ext
    intro val windowColumn hwindowColumn
    congr 1
    unfold emitters.DotProduct
    apply List.foldl_ext
    intro acc t ht
    unfold emitters.PointerOffset
    have hlt := hbound outputRow outputColumn windowRow windowColumn t
      (List.mem_range.mp hrow) (List.mem_range.mp hcolumn) (List.mem_range.mp hwindowRow)
      (List.mem_range.mp hwindowColumn) (List.mem_range.mp ht)
    rw [hagree _ hlt]
  simp only [hval]

/-- Witness for C26: the 5 by 5 one-channel input padded by 1 to 7 by 7, a 3 by 3 filter
and the 5 by 5 output; the last read, at `r = c = 4`, `wr = wc = 2`, `ch = 0`, is
entry 48 of the 49 entries of the input buffer. -/
theorem general_path_reads_inside_the_padded_input_witness :
    exPaddedLayout.GetOffset 0 = 3 / 2 ∧ exPaddedLayout.GetOffset 1 = 3 / 2 ∧
    (4 * 1 + 2) * exPaddedLayout.GetCumulativeIncrement.getD 0 0 +
      (4 * 1 + 2) * exPaddedLayout.GetCumulativeIncrement.getD 1 0 + 0 = 48 ∧
    (4 * 1 + 2) * exPaddedLayout.GetCumulativeIncrement.getD 0 0 +
      (4 * 1 + 2) * exPaddedLayout.GetCumulativeIncrement.getD 1 0 + 0 <
      exPaddedLayout.GetStride 0 * exPaddedLayout.GetStride 1 * exPaddedLayout.GetStride 2 :=
  ⟨by decide, by decide, by decide,
    (@general_path_reads_inside_the_padded_input Int _ exPaddedLayout exOutputLayout 3
      (by decide) (by decide) (by decide) (by decide) (by decide) (by decide)).1 4 4 2 2 0
      (by decide) (by decide) (by decide) (by decide) (by decide)⟩

end nodes

/-! ## Properties of the structured matrices -/

namespace linear

namespace DoubleMatrix

namespace row_square_uptriangular

theorem uint_of_lt (n : Nat) (h : n < 2 ^ 32) : uint n = n := Nat.mod_eq_of_lt h

theorem two_mul_triangle (i : Nat) : 2 * ((i + 1) * i / 2) = (i + 1) * i := by
  have h : 2 ∣ (i + 1) * i := by
    have := Nat.even_mul_succ_self i
    rw [Nat.mul_comm] at this
    exact this.two_dvd
  exact Nat.mul_div_cancel' h

/-- The packed index of a legal pair, for a dimension whose storage size fits in a
`uint`: the subtraction does not wrap, the index is the exact value of the
expression, and it is smaller than the storage size. -/
theorem index_exact (n i j : Nat) (hn : n * (n + 1) < 2 ^ 32) (hij : i ≤ j) (hj : j < n) :
    uint (uint (i + 1) * i) / 2 ≤ uint (i * n) ∧
    index n i j = i * n - (i + 1) * i / 2 + j ∧
    2 * (i * n - (i + 1) * i / 2 + j) + (i + 1) * i = 2 * (i * n) + 2 * j ∧
    i * n - (i + 1) * i / 2 + j < n * (n + 1) / 2 := by
  have ht := two_mul_triangle i
  have h1 : (i + 1) * i ≤ i * n := by
    rw [Nat.mul_comm (i + 1) i]
    exact Nat.mul_le_mul_left i (by omega)
  have hle : (i + 1) * i / 2 ≤ i * n := by omega
  have hin : i * n ≤ n * n := Nat.mul_le_mul_right n (by omega)
  have hnn : n * (n + 1) = n * n + n := by ring
  have hsum : 2 * (i * n - (i + 1) * i / 2 + j) + (i + 1) * i = 2 * (i * n) + 2 * j := by omega
  have hbound : 2 * (i * n - (i + 1) * i / 2 + j) + 2 ≤ n * (n + 1) := by
    obtain ⟨m, rfl⟩ : ∃ m, n = i + m + 1 := ⟨n - i - 1, by omega⟩
    have hjm : j ≤ i + m := by omega
    have : 2 * (i * (i + m + 1) - (i + 1) * i / 2 + j) + (i + 1) * i =
        2 * (i * (i + m + 1)) + 2 * j := hsum
    nlinarith [Nat.zero_le (m * m), Nat.zero_le m]
  have hlt : i * n - (i + 1) * i / 2 + j < n * (n + 1) / 2 := by omega
  have e1 : uint (i * n) = i * n := uint_of_lt _ (by omega)
  have e2 : uint (i + 1) = i + 1 := uint_of_lt _ (by omega)
  have e3 : uint ((i + 1) * i) = (i + 1) * i := uint_of_lt _ (by omega)
  refine ⟨by rw [e1, e2, e3]; exact hle, ?_, hsum, hlt⟩
  unfold index
  rw [e1, e2, e3]
  have e4 : uint (i * n + 2 ^ 32 - (i + 1) * i / 2) = i * n - (i + 1) * i / 2 := by
    unfold uint
    have : i * n + 2 ^ 32 - (i + 1) * i / 2 = (i * n - (i + 1) * i / 2) + 2 ^ 32 := by omega
    rw [this, Nat.add_mod_right]
    exact Nat.mod_eq_of_lt (by omega)
  rw [e4]
  exact uint_of_lt _ (by omega)

/-- Two rows of the packed storage do not overlap. -/
theorem packed_rows_disjoint (n i j i2 j2 : ℤ) (hlt : i + 1 ≤ i2) (hj : j + 1 ≤ n)
    (hi2 : i2 ≤ j2) (hj2 : j2 + 1 ≤ n)
    (key : (i + 1) * i + 2 * (i2 * n) + 2 * j2 = (i2 + 1) * i2 + 2 * (i * n) + 2 * j) :
    False := by
  nlinarith [mul_nonneg (show 0 ≤ i2 - i - 1 by linarith)
    (show 0 ≤ 2 * n - i - i2 - 2 by linarith)]

theorem index_inj (n i j i2 j2 : Nat) (hn : n * (n + 1) < 2 ^ 32) (hij : i ≤ j) (hj : j < n)
    (hij2 : i2 ≤ j2) (hj2 : j2 < n) (h : index n i j = index n i2 j2) : i = i2 ∧ j = j2 := by
  obtain ⟨_, e1, s1, _⟩ := index_exact n i j hn hij hj
  obtain ⟨_, e2, s2, _⟩ := index_exact n i2 j2 hn hij2 hj2
  rw [e1, e2] at h
  rw [h] at s1
  clear hn e1 e2
  have key : (i + 1) * i + 2 * (i2 * n) + 2 * j2 = (i2 + 1) * i2 + 2 * (i * n) + 2 * j := by
    omega
  have keyZ : ((i : ℤ) + 1) * i + 2 * (i2 * n) + 2 * j2 =
      (i2 + 1) * i2 + 2 * (i * n) + 2 * j := by
    exact_mod_cast key
  have hi : i = i2 := by
    rcases Nat.lt_trichotomy i i2 with hlt | heq | hgt
    · exact (packed_rows_disjoint n i j i2 j2 (by exact_mod_cast hlt) (by exact_mod_cast hj)
        (by exact_mod_cast hij2) (by exact_mod_cast hj2) keyZ).elim
    · exact heq
    · exact (packed_rows_disjoint n i2 j2 i j (by exact_mod_cast hgt) (by exact_mod_cast hj2)
        (by exact_mod_cast hij) (by exact_mod_cast hj) keyZ.symm).elim
  subst hi
  exact ⟨rfl, by omega⟩

theorem storageSize_exact (n : Nat) (hn : n * (n + 1) < 2 ^ 32) :
    storageSize n = n * (n + 1) / 2 := by
  unfold storageSize
  have h1 : n + 1 < 2 ^ 32 := by
    rcases Nat.eq_zero_or_pos n with h0 | hpos
    · subst h0; decide
    · have : n + 1 ≤ n * (n + 1) := Nat.le_mul_of_pos_left (n + 1) hpos
      omega
  rw [uint_of_lt _ h1, uint_of_lt _ hn]

/-- C29 (as amended): for a dimension `n` with `n * (n + 1) < 2 ^ 32`, that is `n` below
65536, the storage holds `n * (n + 1) / 2` elements; for every `i <= j < n` the
subtraction in the index `i*n - (i+1)*i/2 + j` does not wrap, the index has the
exact value of that expression and is smaller than the storage size; two
different legal pairs have different indices; and after `set(i, j, v)` with
`i <= j` reading `(i, j)` gives `v` and every other entry reads as before. -/
theorem packed_index_is_injective_into_the_storage {R : Type} [Zero R] (n : Nat)
    (hn : n * (n + 1) < 2 ^ 32) :
    storageSize n = n * (n + 1) / 2 ∧
    (∀ i j, i ≤ j → j < n →
      uint (uint (i + 1) * i) / 2 ≤ uint (i * n) ∧
      index n i j = i * n - (i + 1) * i / 2 + j ∧
      index n i j < storageSize n) ∧
    (∀ i j i2 j2, i ≤ j → j < n → i2 ≤ j2 → j2 < n → index n i j = index n i2 j2 →
      i = i2 ∧ j = j2) ∧
    (∀ (M : DoubleMatrix R) (v : R), M.num_rows = n → M.num_columns = n →
      ∀ i j, i ≤ j → j < n →
        (set M i j v).1 = .ok () ∧
        element (set M i j v).2 i j = .ok v ∧
        ∀ i2 j2, i2 < n → j2 < n → (i2, j2) ≠ (i, j) →
          element (set M i j v).2 i2 j2 = element M i2 j2) := by
  refine ⟨storageSize_exact n hn, ?_, ?_, ?_⟩
  · intro i j hij hj
    obtain ⟨h1, h2, _, h4⟩ := index_exact n i j hn hij hj
    refine ⟨h1, h2, ?_⟩
    rw [h2, storageSize_exact n hn]
    exact h4
  · intro i j i2 j2 hij hj hij2 hj2 h
    exact index_inj n i j i2 j2 hn hij hj hij2 hj2 h
  · intro M v hrows hcolumns i j hij hj
    obtain ⟨size, elements, num_rows, num_columns, dummy⟩ := M
    simp only at hrows hcolumns
    subst hrows
    subst hcolumns
    have hi : i < num_columns := by omega
    have hnot : ¬ i > j := by omega
    have hnj : ¬ num_columns ≤ j := by omega
    have hni : ¬ num_columns ≤ i := by omega
    have hset : set (⟨size, elements, num_columns, num_columns, dummy⟩ : DoubleMatrix R) i j v =
        (.ok (), ⟨size, Function.update elements (index num_columns i j) v, num_columns,
          num_columns, 0⟩) := by
      simp [set, DoubleMatrixBase.set, elementRef, hi, hj, hnot, write]
    rw [hset]
    refine ⟨rfl, ?_, ?_⟩
    · simp [element, hi, hj, hnot]
    · intro i2 j2 hi2 hj2 hne
      by_cases hgt : i2 > j2
      · simp [element, hi2, hj2, hgt]
      · have hidx : index num_columns i2 j2 ≠ index num_columns i j := by
          intro h
          obtain ⟨ha, hb⟩ := index_inj num_columns i2 j2 i j hn (by omega) hj2 hij hj h
          exact hne (by rw [ha, hb])
        simp [element, hi2, hj2, hgt, Function.update_noteq hidx]

/-- Witness for C29 (as amended): dimension 3 and the matrix `exUpper`; the index of
`(1, 2)` is 4, below the storage size 6, and after `set(1, 1, 8)` reading
`(1, 1)` gives 8 while `(1, 2)` still reads 7. -/
theorem packed_index_is_injective_into_the_storage_witness :
    3 * (3 + 1) < 2 ^ 32 ∧ storageSize 3 = 6 ∧ index 3 1 2 = 4 ∧
    element (set exUpper 1 1 8).2 1 1 = .ok 8 ∧
    element (set exUpper 1 1 8).2 1 2 = .ok 7 :=
  have h := @packed_index_is_injective_into_the_storage Int _ 3 (by decide)
  have hs := h.2.2.2 exUpper 8 rfl rfl 1 1 (by decide) (by decide)
  ⟨by decide, h.1.trans (by decide), ((h.2.1 1 2 (by decide) (by decide)).2.1).trans (by decide),
    hs.2.1, (hs.2.2 1 2 (by decide) (by decide) (by decide)).trans rfl⟩

/-- Counterexample for C29 as stated: for dimension 65536 the size passed to the vector,
`dimension*(dimension + 1) / 2` in `uint` arithmetic, is 32768 and not
`65536 * 65537 / 2`, while the legal pair `(0, 65535)` has index 65535, which is
not smaller than the size of the storage; and for dimension 131072 the two
legal pairs `(0, 9929)` and `(38390, 38390)` have the same index 9929. -/
theorem packed_storage_is_too_small_for_dimension_65536 :
    65536 * (65536 + 1) / 2 = 2147516416 ∧
    storageSize 65536 = 32768 ∧
    (create 65536 (0 : Int)).size = 32768 ∧
    index 65536 0 65535 = 65535 ∧
    ¬ index 65536 0 65535 < storageSize 65536 ∧
    index 131072 0 9929 = 9929 ∧
    index 131072 38390 38390 = 9929 :=
  ⟨by decide, by decide, by decide, by decide, by decide, by decide, by decide⟩

end row_square_uptriangular

namespace diagonal

/-- C23: for a diagonal matrix of dimension `n` in any state and `i, j < n`, `set(i, j, v)`
fails if and only if `i != j`; it then throws `runtime_error` and leaves the
whole state of the matrix as it was; reading `(i, j)` with `i != j` gives 0,
through the const `operator()` and through the non-const one; and after a
successful `set(i, i, v)` reading `(i, i)` gives `v` and every other diagonal
entry reads as before. -/
theorem diagonal_set_fails_exactly_off_the_diagonal {R : Type} [Zero R]
    (M : DoubleMatrix R) (n i j : Nat) (v : R) (hrows : M.num_rows = n)
    (hcolumns : M.num_columns = n) (hi : i < n) (hj : j < n) :
    ((∃ e, (set M i j v).1 = .error e) ↔ i ≠ j) ∧
    (i ≠ j →
      (set M i j v).1 = .error (.runtime_error
        "Cannot set off-diagonal elements of a diagonal matrix") ∧
      (set M i j v).2 = M) ∧
    (i ≠ j →
      element M i j = .ok 0 ∧ (elementRef M i j).1 = .ok .dummy ∧
      (elementRef M i j).2.read .dummy = 0 ∧ (elementRef M i j).2.elements = M.elements) ∧
    (i = j →
      (set M i j v).1 = .ok () ∧
      element (set M i j v).2 i i = .ok v ∧
      ∀ k, k < n → k ≠ i → element (set M i j v).2 k k = element M k k) := by
  have hin : i < M.num_rows ∧ j < M.num_columns := by rw [hrows, hcolumns]; exact ⟨hi, hj⟩
  refine ⟨?_, ?_, ?_, ?_⟩
  · constructor
    · rintro ⟨e, he⟩
      by_contra heq
      subst heq
      simp [set, DoubleMatrixBase.set, elementRef, hin] at he
    · intro hne
      refine ⟨.runtime_error "Cannot set off-diagonal elements of a diagonal matrix", ?_⟩
      simp [set, hne]
  · intro hne
    simp [set, hne]
  · intro hne
    simp [element, elementRef, hin, hne, read]
  · intro heq
    subst heq
    have hset : set M i i v = (.ok (), { M with
        dummy := 0, elements := Function.update M.elements i v }) := by
      simp [set, DoubleMatrixBase.set, elementRef, hin, write]
    rw [hset]
    refine ⟨rfl, ?_, ?_⟩
    · simp [element, hin]
    · intro k hk hne
      have hink : k < M.num_rows ∧ k < M.num_columns := by
        rw [hrows, hcolumns]; exact ⟨hk, hk⟩
      simp [element, hink, Function.update_noteq hne]

/-- Witness for C23: on the 3 by 3 matrix `exDiagonal`, whose `_dummy` holds 4,
`set(0, 1, 8)` throws and reading `(0, 1)` gives 0; after `set(1, 1, 8)` reading
`(1, 1)` gives 8 and `(2, 2)` still reads 7. -/
theorem diagonal_set_fails_exactly_off_the_diagonal_witness :
    exDiagonal.num_rows = 3 ∧ exDiagonal.num_columns = 3 ∧ exDiagonal.dummy = 4 ∧
    (set exDiagonal 0 1 8).1 = .error (.runtime_error
      "Cannot set off-diagonal elements of a diagonal matrix") ∧
    element exDiagonal 0 1 = .ok 0 ∧
    element (set exDiagonal 1 1 8).2 1 1 = .ok 8 ∧
    element (set exDiagonal 1 1 8).2 2 2 = .ok 7 :=
  have h := diagonal_set_fails_exactly_off_the_diagonal exDiagonal 3 0 1 8 rfl rfl
    (by decide) (by decide)
  have h1 := diagonal_set_fails_exactly_off_the_diagonal exDiagonal 3 1 1 8 rfl rfl
    (by decide) (by decide)
  ⟨rfl, rfl, rfl, (h.2.1 (by decide)).1, (h.2.2.1 (by decide)).1, (h1.2.2.2 rfl).2.1,
    ((h1.2.2.2 rfl).2.2 2 (by decide) (by decide)).trans rfl⟩

end diagonal

end DoubleMatrix

end linear

/-! ## Properties of `PeekStack` -/

namespace utilities

namespace Tokenizer

theorem ReadNextToken_PutBackToken (t : Tokenizer) (token : String) :
    (t.PutBackToken token).ReadNextToken = (token, t) := rfl

theorem readN_append (xs peeked input : List String) :
    readN xs.length ⟨xs ++ peeked, input⟩ = (xs, ⟨peeked, input⟩) := by
  induction xs with
  | nil => rfl
  | cons x rest ih =>
    simp only [List.length_cons, readN, List.cons_append, ReadNextToken]
    rw [ih]

theorem readN_length (n : Nat) (t : Tokenizer) : (readN n t).1.length = n := by
  induction n generalizing t with
  | zero => rfl
  | succ n ih => simp [readN, ih]

theorem readN_add (a b : Nat) (t : Tokenizer) :
    readN (a + b) t = ((readN a t).1 ++ (readN b (readN a t).2).1, (readN b (readN a t).2).2) := by
  induction a generalizing t with
  | zero => simp [readN]
  | succ a ih =>
    rw [Nat.add_right_comm]
    simp only [readN]
    rw [ih]
    rfl

/-- The tokens of a shorter run of reads are the first tokens of a longer run. -/
theorem readN_take (k n : Nat) (t : Tokenizer) (h : k ≤ n) :
    (readN k t).1 = (readN n t).1.take k := by
  obtain ⟨m, rfl⟩ : ∃ m, n = k + m := ⟨n - k, by omega⟩
  rw [readN_add]
  simp only
  rw [List.take_append_of_le_length (by rw [readN_length]), List.take_of_length_le
    (by rw [readN_length])]

end Tokenizer

namespace PeekStack

open Tokenizer

theorem peekN_spec (n : Nat) (p : PeekStack) :
    (peekN n p).1 = (readN n p.tokenizer).1 ∧
    (peekN n p).2.tokenizer = (readN n p.tokenizer).2 ∧
    (peekN n p).2.tokens = (readN n p.tokenizer).1.reverse ++ p.tokens := by
  induction n generalizing p with
  | zero => simp [peekN, readN]
  | succ n ih =>
    obtain ⟨h1, h2, h3⟩ := ih p.Peek.2
    simp only [peekN, readN]
    refine ⟨?_, ?_, ?_⟩
    · rw [h1]; rfl
    · rw [h2]; rfl
    · rw [h3]; simp [Peek]

theorem putBackAll_spec (tokens : List String) (t : Tokenizer) :
    putBackAll tokens t = ⟨tokens.reverse ++ t.peekedTokens, t.input⟩ := by
  induction tokens generalizing t with
  | nil => rfl
  | cons top rest ih =>
    simp only [putBackAll]
    rw [ih]
    simp [PutBackToken]

/-- After `n` peeks on a fresh `PeekStack` and its destruction, the peeked tokens lie on
top of the put-back stack of the tokenizer, first peeked on top. -/
theorem destroy_peekN (n : Nat) (t : Tokenizer) :
    (peekN n (create t)).2.destroy =
      ⟨(readN n t).1 ++ (readN n t).2.peekedTokens, (readN n t).2.input⟩ := by
  obtain ⟨_, h2, h3⟩ := peekN_spec n (create t)
  unfold destroy
  rw [putBackAll_spec, h2, h3]
  simp [create]

theorem readN_destroy_peekN (n : Nat) (t : Tokenizer) :
    readN n (peekN n (create t)).2.destroy = readN n t := by
  rw [destroy_peekN]
  have h := readN_append (readN n t).1 (readN n t).2.peekedTokens (readN n t).2.input
  rw [readN_length] at h
  rw [h]

/-- C25: for every tokenizer state and every `n`: `n` calls of `Peek` return the tokens
`t_1..t_n` that `n` calls of `ReadNextToken` would return; after destruction of
the `PeekStack` without `Consume`, the next `n` calls of `ReadNextToken` return
`t_1..t_n` in that order and leave the tokenizer in the state it has after `n`
reads without peeks, so that any number of reads returns what it returns
without peeks; if `Consume` is called after the `n` peeks, destruction puts
nothing back, and after `m` further peeks it restores those `m` tokens only. -/
theorem peek_stack_restores_what_it_peeked (t : Tokenizer) (n : Nat) :
    (peekN n (create t)).1 = (readN n t).1 ∧
    readN n (peekN n (create t)).2.destroy = ((peekN n (create t)).1, (readN n t).2) ∧
    (∀ k, (readN k (peekN n (create t)).2.destroy).1 = (readN k t).1) ∧
    (peekN n (create t)).2.Consume.destroy = (readN n t).2 ∧
    (∀ m,
      (peekN m (peekN n (create t)).2.Consume).1 = (readN m (readN n t).2).1 ∧
      readN m (peekN m (peekN n (create t)).2.Consume).2.destroy =
        ((peekN m (peekN n (create t)).2.Consume).1, (readN (n + m) t).2)) := by
  obtain ⟨h1, h2, _⟩ := peekN_spec n (create t)
  have hconsume : (peekN n (create t)).2.Consume = create (readN n t).2 := by
    have h2b : (peekN n (create t)).2.tokenizer = (readN n t).2 := h2
    unfold Consume
    rw [h2b]
    rfl
  refine ⟨h1, ?_, ?_, ?_, ?_⟩
  · rw [readN_destroy_peekN, h1]
    rfl
  · intro k
    rcases Nat.le_total k n with hk | hk
    · rw [readN_take k n _ hk, readN_take k n t hk, readN_destroy_peekN]
    · obtain ⟨m, rfl⟩ : ∃ m, k = n + m := ⟨k - n, by omega⟩
      rw [readN_add, readN_add, readN_destroy_peekN]
  · rw [hconsume]
    rfl
  · intro m
    rw [hconsume]
    obtain ⟨g1, _, _⟩ := peekN_spec m (create (readN n t).2)
    refine ⟨g1, ?_⟩
    rw [readN_destroy_peekN, g1, readN_add]
    rfl

end PeekStack

end utilities

/-- The example run of `PeekStack`: three peeks on `exTokenizer` return `<`, `map`, `>`;
after destruction four reads return `<`, `map`, `>`, `x`; after `Consume` the
three tokens are gone and the next read returns `x`. -/
theorem peek_stack_example :
    (utilities.PeekStack.peekN 3 (utilities.PeekStack.create exTokenizer)).1 = ["<", "map", ">"] ∧
    (utilities.Tokenizer.readN 4
      (utilities.PeekStack.peekN 3 (utilities.PeekStack.create exTokenizer)).2.destroy).1 =
      ["<", "map", ">", "x"] ∧
    (utilities.Tokenizer.readN 1
      (utilities.PeekStack.peekN 3
        (utilities.PeekStack.create exTokenizer)).2.Consume.destroy).1 = ["x"] := by
  decide

/-! ## Properties of the double arithmetic -/

namespace Double

theorem bitLength_spec (fuel n : Nat) (hfuel : n ≤ fuel) (hn : n ≠ 0) :
    2 ^ (bitLength fuel n - 1) ≤ n ∧ n < 2 ^ bitLength fuel n := by
  induction fuel generalizing n with
  | zero => omega
  | succ fuel ih =>
    simp only [bitLength, hn, if_false]
    by_cases h2 : n / 2 = 0
    · have h1 : n = 1 := by omega
      subst h1
      have : bitLength fuel (1 / 2) = 0 := by
        cases fuel <;> simp [bitLength]
      rw [this]
      simp
    · obtain ⟨ha, hb⟩ := ih (n / 2) (by omega) h2
      have hpos : 0 < bitLength fuel (n / 2) := by
        rcases Nat.eq_zero_or_pos (bitLength fuel (n / 2)) with h0 | h0
        · rw [h0] at hb; omega
        · exact h0
      obtain ⟨b, hb2⟩ : ∃ b, bitLength fuel (n / 2) = b + 1 :=
        ⟨_, (Nat.succ_pred_eq_of_pos hpos).symm⟩
      rw [hb2] at ha hb ⊢
      simp only [Nat.add_sub_cancel] at ha ⊢
      rw [pow_succ] at hb ⊢
      rw [pow_succ]
      constructor <;> omega

/-- The comparison of `2 ^ e * d` with `n` in integers, for an exponent of either sign. -/
theorem scaled_le_iff (n d : Nat) (e : Int) :
    d * 2 ^ e.toNat ≤ n * 2 ^ (-e).toNat ↔ (2 : ℚ) ^ e * d ≤ n := by
  rcases le_total 0 e with h | h
  · obtain ⟨k, rfl⟩ := Int.eq_ofNat_of_zero_le h
    simp only [Int.toNat_ofNat, zpow_natCast]
    have : (-(k : Int)).toNat = 0 := by omega
    rw [this, pow_zero, Nat.mul_one]
    rw [mul_comm ((2 : ℚ) ^ k)]
    exact_mod_cast Iff.rfl
  · obtain ⟨k, hk⟩ : ∃ k : Nat, e = -(k : Int) := ⟨(-e).toNat, by omega⟩
    subst hk
    have h1 : (-(k : Int)).toNat = 0 := by omega
    have h2 : (- -(k : Int)).toNat = k := by omega
    rw [h1, h2, pow_zero, Nat.mul_one, zpow_neg, zpow_natCast]
    have hp : (0 : ℚ) < 2 ^ k := by positivity
    rw [inv_mul_le_iff₀ hp, mul_comm ((2 : ℚ) ^ k)]
    exact_mod_cast Iff.rfl

/-- The exponent found by `floorLog2` brackets `n / d`. -/
theorem floorLog2_spec (n d : Nat) (hn : n ≠ 0) (hd : d ≠ 0) :
    (2 : ℚ) ^ floorLog2 n d * d ≤ n ∧ (n : ℚ) < (2 : ℚ) ^ (floorLog2 n d + 1) * d := by
  obtain ⟨hn1, hn2⟩ := bitLength_spec n n le_rfl hn
  obtain ⟨hd1, hd2⟩ := bitLength_spec d d le_rfl hd
  have hbn : 0 < bitLength n n := by
    rcases Nat.eq_zero_or_pos (bitLength n n) with h0 | h0
    · rw [h0] at hn2; omega
    · exact h0
  have hbd : 0 < bitLength d d := by
    rcases Nat.eq_zero_or_pos (bitLength d d) with h0 | h0
    · rw [h0] at hd2; omega
    · exact h0
  obtain ⟨bn, hbn2⟩ : ∃ b, bitLength n n = b + 1 := ⟨_, (Nat.succ_pred_eq_of_pos hbn).symm⟩
  obtain ⟨bd, hbd2⟩ : ∃ b, bitLength d d = b + 1 := ⟨_, (Nat.succ_pred_eq_of_pos hbd).symm⟩
  rw [hbn2] at hn1 hn2
  rw [hbd2] at hd1 hd2
  simp only [Nat.add_sub_cancel] at hn1 hd1
  have qn1 : (2 : ℚ) ^ (bn : ℤ) ≤ n := by rw [zpow_natCast]; exact_mod_cast hn1
  have qn2 : (n : ℚ) < (2 : ℚ) ^ ((bn : ℤ) + 1) := by
    rw [zpow_add_one₀ (by norm_num), zpow_natCast, ← pow_succ]; exact_mod_cast hn2
  have qd1 : (2 : ℚ) ^ (bd : ℤ) ≤ d := by rw [zpow_natCast]; exact_mod_cast hd1
  have qd2 : (d : ℚ) < (2 : ℚ) ^ ((bd : ℤ) + 1) := by
    rw [zpow_add_one₀ (by norm_num), zpow_natCast, ← pow_succ]; exact_mod_cast hd2
  have he : ((bitLength n n : Int) - (bitLength d d : Int)) = (bn : ℤ) - bd := by
    rw [hbn2, hbd2]; push_cast; ring
  unfold floorLog2
  simp only [he]
  have hpos : ∀ z : ℤ, (0 : ℚ) < (2 : ℚ) ^ z := fun z => zpow_pos (by norm_num) z
  split
  · rename_i hc
    refine ⟨(scaled_le_iff n d _).mp hc, ?_⟩
    have : (2 : ℚ) ^ ((bn : ℤ) + 1) = (2 : ℚ) ^ ((bn : ℤ) - bd + 1) * (2 : ℚ) ^ (bd : ℤ) := by
      rw [← zpow_add₀ (by norm_num)]; congr 1; ring
    calc (n : ℚ) < (2 : ℚ) ^ ((bn : ℤ) + 1) := qn2
      _ = (2 : ℚ) ^ ((bn : ℤ) - bd + 1) * (2 : ℚ) ^ (bd : ℤ) := this
      _ ≤ (2 : ℚ) ^ ((bn : ℤ) - bd + 1) * d := mul_le_mul_of_nonneg_left qd1 (hpos _).le
  · rename_i hc
    have hlt : (n : ℚ) < (2 : ℚ) ^ ((bn : ℤ) - bd) * d := by
      have := (scaled_le_iff n d ((bn : ℤ) - bd)).not.mp hc
      exact lt_of_not_ge this
    refine ⟨?_, by simpa using hlt⟩
    have : (2 : ℚ) ^ (bn : ℤ) = (2 : ℚ) ^ ((bn : ℤ) - bd - 1) * (2 : ℚ) ^ ((bd : ℤ) + 1) := by
      rw [← zpow_add₀ (by norm_num)]; congr 1; ring
    calc (2 : ℚ) ^ ((bn : ℤ) - bd - 1) * d
        ≤ (2 : ℚ) ^ ((bn : ℤ) - bd - 1) * (2 : ℚ) ^ ((bd : ℤ) + 1) :=
          mul_le_mul_of_nonneg_left qd2.le (hpos _).le
      _ = (2 : ℚ) ^ (bn : ℤ) := this.symm
      _ ≤ n := qn1

theorem roundHalfEven_le (n d k : Nat) (h : n ≤ k * d) : roundHalfEven n d ≤ k := by
  unfold roundHalfEven
  simp only
  rcases Nat.eq_zero_or_pos d with hd | hd
  · subst hd
    simp at h
    subst h
    simp
  · have hq : n / d ≤ k := Nat.div_le_of_le_mul (by rw [Nat.mul_comm]; exact h)
    have hmod := Nat.mod_lt n hd
    have hdiv := Nat.div_add_mod n d
    by_cases hr : n % d = 0
    · have : 2 * (n % d) < d := by omega
      simp [this, hq]
    · have hlt : n / d < k := by
        by_contra hge
        have hk : k ≤ n / d := by omega
        have : k * d ≤ d * (n / d) := by
          rw [Nat.mul_comm k d]; exact Nat.mul_le_mul_left d hk
        omega
      split
      · omega
      · split
        · omega
        · split <;> omega

theorem le_roundHalfEven (n d k : Nat) (hd : 0 < d) (h : k * d ≤ n) : k ≤ roundHalfEven n d := by
  unfold roundHalfEven
  simp only
  have hq : k ≤ n / d := (Nat.le_div_iff_mul_le hd).mpr h
  split
  · omega
  · split
    · omega
    · split <;> omega

/-- What `round` returns is a binary64 value. -/
theorem round_isBinary64 (negative : Bool) (n d : Nat) (e : Int) (hd : d ≠ 0) :
    (round negative n d e).isBinary64 = true := by
  unfold round
  by_cases hn : n = 0
  · simp [hn, isBinary64]
  · simp only [hn, if_false]
    obtain ⟨hlow, hhigh⟩ := floorLog2_spec n d hn hd
    have hdpos : (0 : ℚ) < d := by exact_mod_cast Nat.pos_of_ne_zero hd
    generalize hq : max (floorLog2 n d + e - 52) (-1074) = q
    have hq1 : floorLog2 n d + e - 52 ≤ q := by omega
    have hq2 : -1074 ≤ q := by omega
    have hD : 0 < d * 2 ^ (q - e).toNat := Nat.mul_pos (Nat.pos_of_ne_zero hd) (by positivity)
    have hneg : (-(q - e)).toNat = (e - q).toNat := by congr 1; ring
    have hm : roundHalfEven (n * 2 ^ (e - q).toNat) (d * 2 ^ (q - e).toNat) ≤ 2 ^ 53 := by
      apply roundHalfEven_le
      have hnot : ¬ (2 ^ 53 * d) * 2 ^ (q - e).toNat ≤ n * 2 ^ (-(q - e)).toNat := by
        rw [scaled_le_iff]
        push_neg
        have h1 : (2 : ℚ) ^ (floorLog2 n d + 1) ≤ (2 : ℚ) ^ (q - e) * 2 ^ (53 : ℤ) := by
          rw [← zpow_add₀ (by norm_num)]
          exact zpow_le_zpow_right₀ (by norm_num) (by omega)
        calc (n : ℚ) < (2 : ℚ) ^ (floorLog2 n d + 1) * d := hhigh
          _ ≤ (2 : ℚ) ^ (q - e) * 2 ^ (53 : ℤ) * d := mul_le_mul_of_nonneg_right h1 hdpos.le
          _ = (2 : ℚ) ^ (q - e) * ((2 ^ 53 * d : ℕ) : ℚ) := by push_cast; ring
      rw [hneg] at hnot
      have : 2 ^ 53 * (d * 2 ^ (q - e).toNat) = (2 ^ 53 * d) * 2 ^ (q - e).toNat := by ring
      omega
    have hm2 : q ≠ -1074 →
        2 ^ 52 ≤ roundHalfEven (n * 2 ^ (e - q).toNat) (d * 2 ^ (q - e).toNat) := by
      intro hne
      have hqe : q = floorLog2 n d + e - 52 := by omega
      apply le_roundHalfEven _ _ _ hD
      have hle : (2 ^ 52 * d) * 2 ^ (q - e).toNat ≤ n * 2 ^ (-(q - e)).toNat := by
        rw [scaled_le_iff]
        have h1 : (2 : ℚ) ^ (q - e) * 2 ^ (52 : ℤ) = (2 : ℚ) ^ floorLog2 n d := by
          rw [← zpow_add₀ (by norm_num)]
          congr 1
          omega
        calc (2 : ℚ) ^ (q - e) * ((2 ^ 52 * d : ℕ) : ℚ)
            = (2 : ℚ) ^ (q - e) * 2 ^ (52 : ℤ) * d := by push_cast; ring
          _ = (2 : ℚ) ^ floorLog2 n d * d := by rw [h1]
          _ ≤ n := hlow
      rw [hneg] at hle
      have : 2 ^ 52 * (d * 2 ^ (q - e).toNat) = (2 ^ 52 * d) * 2 ^ (q - e).toNat := by ring
      omega
    by_cases h53 : roundHalfEven (n * 2 ^ (e - q).toNat) (d * 2 ^ (q - e).toNat) = 2 ^ 53
    · simp only [h53, if_true]
      by_cases hover : q + 1 > 971
      · simp only [hover, if_true, isBinary64]
      · simp only [hover, if_false, isBinary64, Bool.and_eq_true, Bool.or_eq_true,
          decide_eq_true_eq]
        exact ⟨⟨⟨by norm_num, by omega⟩, by omega⟩, Or.inl le_rfl⟩
    · simp only [h53, if_false]
      by_cases hover : q > 971
      · simp only [hover, if_true, isBinary64]
      · simp only [hover, if_false, isBinary64, Bool.and_eq_true, Bool.or_eq_true,
          decide_eq_true_eq]
        have a3 : roundHalfEven (n * 2 ^ (e - q).toNat) (d * 2 ^ (q - e).toNat) < 2 ^ 53 := by
          omega
        refine ⟨⟨⟨a3, hq2⟩, by omega⟩, ?_⟩
        by_cases hsub : q = -1074
        · exact Or.inr hsub
        · exact Or.inl (hm2 hsub)

/-- Products, sums and quotients of doubles are binary64 values. -/
theorem arithmetic_isBinary64 (a b : Double) :
    (a.mul b).isBinary64 = true ∧ (a.add b).isBinary64 = true ∧ (a.div b).isBinary64 = true := by
  refine ⟨?_, ?_, ?_⟩
  · cases a <;> cases b <;> simp only [mul] <;>
      first
      | exact round_isBinary64 _ _ _ _ one_ne_zero
      | rfl
      | (split <;> rfl)
  · cases a <;> cases b <;> simp only [add] <;>
      first
      | rfl
      | (split <;> first | rfl | exact round_isBinary64 _ _ _ _ one_ne_zero)
  · cases a <;> cases b <;> simp only [div] <;>
      first
      | rfl
      | (split
         · split <;> rfl
         · rename_i hm
           exact round_isBinary64 _ _ _ _ hm)

set_option maxRecDepth 8192 in
/-- Evaluations of the double arithmetic: 0.1 + 0.2 is the double above 0.3; twice the
largest double is an infinity; 1 / 0 is an infinity and 0 / 0 a NaN; half of the
smallest positive double rounds to 0; and a NaN is not `<=` anything. -/
theorem double_arithmetic_examples :
    ((Double.ofInt 1).div (Double.ofInt 10)).add ((Double.ofInt 2).div (Double.ofInt 10)) =
      .finite false 5404319552844596 (-54) ∧
    (Double.ofInt 3).div (Double.ofInt 10) = .finite false 5404319552844595 (-54) ∧
    (Double.finite false (2 ^ 53 - 1) 971).mul (Double.ofInt 2) = .infinite false ∧
    (Double.ofInt 1).div (Double.ofInt 0) = .infinite false ∧
    (Double.ofInt 0).div (Double.ofInt 0) = .nan ∧
    (Double.finite false 1 (-1074)).div (Double.ofInt 2) = .finite false 0 (-1074) ∧
    Double.nan.le (Double.ofInt (-18)) = false := by
  decide

end Double

/-! ## Properties of `LogLoss` -/

namespace loss_functions

namespace LogLoss

/-- Both branches of `GetDerivative` give `-l / (1 + exp(scale * p * l))` over the reals. -/
theorem GetDerivative_eq (self : LogLoss ℝ) (p l : ℝ) :
    self.GetDerivative Real.exp p l = -l / (1 + Real.exp (self.scale * p * l)) := by
  unfold GetDerivative
  simp only
  have hm : p * l * self.scale = self.scale * p * l := by ring
  rw [hm]
  split
  · rfl
  · rw [Real.exp_neg]
    have hpos := Real.exp_pos (self.scale * p * l)
    field_simp
    ring

/-- C30: over the reals, for every scale other than 0, prediction `p` and label `l`:
`GetDerivative` returns `-l / (1 + exp(scale * p * l))` on the branch for a scaled
margin of at most 0 and on the branch for a positive one, and this value is the
derivative with respect to `p` of `log(1 + exp(-scale * p * l)) / scale`. -/
theorem get_derivative_is_the_derivative_of_the_direct_loss (self : LogLoss ℝ) (p l : ℝ)
    (hscale : self.scale ≠ 0) :
    (p * l * self.scale ≤ 0 →
      self.GetDerivative Real.exp p l = -l / (1 + Real.exp (self.scale * p * l))) ∧
    (¬ p * l * self.scale ≤ 0 →
      self.GetDerivative Real.exp p l = -l / (1 + Real.exp (self.scale * p * l))) ∧
    HasDerivAt (fun x => Real.log (1 + Real.exp (-(self.scale * x * l))) / self.scale)
      (self.GetDerivative Real.exp p l) p := by
  refine ⟨fun _ => GetDerivative_eq self p l, fun _ => GetDerivative_eq self p l, ?_⟩
  have hpos := Real.exp_pos (-(self.scale * p * l))
  have hpos2 := Real.exp_pos (self.scale * p * l)
  have h1 : HasDerivAt (fun x : ℝ => -(self.scale * x * l)) (-(self.scale * l)) p := by
    have := ((hasDerivAt_id p).const_mul self.scale).mul_const l
    simpa using this.neg
  have h2 := ((h1.exp).const_add 1).log (by positivity)
  have h3 := h2.div_const self.scale
  convert h3 using 1
  rw [GetDerivative_eq, Real.exp_neg]
  field_simp
  ring

/-- Witness for C30: scale 1, label 1; at the prediction 0 (first branch) the derivative
is `-1 / (1 + exp 0)`, and at the prediction 2 (second branch) it is
`-1 / (1 + exp 2)`. -/
theorem get_derivative_is_the_derivative_of_the_direct_loss_witness :
    (⟨1⟩ : LogLoss ℝ).scale ≠ 0 ∧
    (⟨1⟩ : LogLoss ℝ).GetDerivative Real.exp 0 1 = -1 / (1 + Real.exp (1 * 0 * 1)) ∧
    (⟨1⟩ : LogLoss ℝ).GetDerivative Real.exp 2 1 = -1 / (1 + Real.exp (1 * 2 * 1)) ∧
    HasDerivAt (fun x => Real.log (1 + Real.exp (-((⟨1⟩ : LogLoss ℝ).scale * x * 1))) /
      (⟨1⟩ : LogLoss ℝ).scale) ((⟨1⟩ : LogLoss ℝ).GetDerivative Real.exp 2 1) 2 :=
  ⟨one_ne_zero,
    (get_derivative_is_the_derivative_of_the_direct_loss ⟨1⟩ 0 1 one_ne_zero).1 (by norm_num),
    (get_derivative_is_the_derivative_of_the_direct_loss ⟨1⟩ 2 1 one_ne_zero).2.1 (by norm_num),
    (get_derivative_is_the_derivative_of_the_direct_loss ⟨1⟩ 2 1 one_ne_zero).2.2⟩

end LogLoss

end loss_functions

end ell
